import Mathlib

/-!
# cifsd: connection-level helpers of `misc.c`

A shallow embedding of the dialect negotiation, request-buffer switching and
share-mode arbitration code of `fs/cifsd/misc.c`, and the properties proved
about it.

Conventions of the embedding

* C strings and buffers are lists of bytes (`List Nat`); a string literal of the
  source is the list of its bytes, its terminating NUL left implicit.
* A read outside a buffer or outside the dialect table is reported (`Scan.oob`,
  `none`) rather than given a value.
* Macros, globals and helpers that `misc.c` uses but that are declared in
  headers outside the two source files are parameters of the definitions.
-/

set_option autoImplicit false

namespace Cifsd

/-! ## Dialect table -/

/-- Modelled from the spec: the ordinal macros of glob.h (not among the sources).
The DialectEntry table is "ordered from oldest (index 0) to newest", so every
ordinal is the position of its row in `protocols`. -/
def CIFS_PROT : Nat := 0
/-- Modelled from the spec: ordinal of the SMB 2.002 row (glob.h is not among the sources). -/
def SMB2_PROT : Nat := 1
/-- Modelled from the spec: ordinal of the SMB 2.1 row (glob.h is not among the sources). -/
def SMB21_PROT : Nat := 2
/-- Modelled from the spec: ordinal of the SMB 2.??? row (glob.h is not among the sources). -/
def SMB2X_PROT : Nat := 3
/-- Modelled from the spec: ordinal of the SMB 3.0 row (glob.h is not among the sources). -/
def SMB30_PROT : Nat := 4
/-- Modelled from the spec: ordinal of the SMB 3.02 row (glob.h is not among the sources). -/
def SMB302_PROT : Nat := 5
/-- Modelled from the spec: ordinal of the SMB 3.1.1 row (glob.h is not among the sources). -/
def SMB311_PROT : Nat := 6

/-- The numeric protocol identifiers and the no-match sentinel: macros of
smb2pdu.h and glob.h, which are not among the sources, hence parameters. -/
structure ProtIds where
  SMB20_PROT_ID : Nat
  SMB21_PROT_ID : Nat
  SMB2X_PROT_ID : Nat
  SMB30_PROT_ID : Nat
  SMB302_PROT_ID : Nat
  SMB311_PROT_ID : Nat
  BAD_PROT_ID : Nat
  deriving DecidableEq, Repr

/-- The dialect revision numbers of the SMB2 wire protocol, with 0xFFFF as the
sentinel: the instance at which the definitions are evaluated. -/
def wireIds : ProtIds :=
  { SMB20_PROT_ID := 0x0202, SMB21_PROT_ID := 0x0210, SMB2X_PROT_ID := 0x02FF,
    SMB30_PROT_ID := 0x0300, SMB302_PROT_ID := 0x0302, SMB311_PROT_ID := 0x0311,
    BAD_PROT_ID := 0xFFFF }

/-- Bytes of a C string literal (terminating NUL implicit). -/
def cbytes (s : String) : List Nat := s.toList.map Char.toNat

/-- One row of the static table `protocols[]`. -/
structure Protocol where
  index : Nat
  name : List Nat
  prot : List Nat
  prot_id : Nat
  deriving DecidableEq, Repr

/-- The table `protocols[]`, built with CONFIG_CIFS_SMB2_SERVER. -/
def protocols (ids : ProtIds) : List Protocol :=
  [ ⟨CIFS_PROT, cbytes "\x02NT LM 0.12", cbytes "NT1", 0⟩,
    ⟨SMB2_PROT, cbytes "\x02SMB 2.002", cbytes "SMB2_02", ids.SMB20_PROT_ID⟩,
    ⟨SMB21_PROT, cbytes "\x02SMB 2.1", cbytes "SMB2_10", ids.SMB21_PROT_ID⟩,
    ⟨SMB2X_PROT, cbytes "\x02SMB 2.???", cbytes "SMB2_22", ids.SMB2X_PROT_ID⟩,
    ⟨SMB30_PROT, cbytes "\x02SMB 3.0", cbytes "SMB3_00", ids.SMB30_PROT_ID⟩,
    ⟨SMB302_PROT, cbytes "\x02SMB 3.02", cbytes "SMB3_02", ids.SMB302_PROT_ID⟩,
    ⟨SMB311_PROT, cbytes "\x02SMB 3.1.1", cbytes "SMB3_11", ids.SMB311_PROT_ID⟩ ]

/-- The function `cifsd_min_protocol`: `protocols[0].index`. -/
def cifsd_min_protocol (ids : ProtIds) : Option Nat :=
  (protocols ids)[0]?.map (·.index)

/-- The function `cifsd_max_protocol`: `protocols[ARRAY_SIZE(protocols) - 1].index`. -/
def cifsd_max_protocol (ids : ProtIds) : Option Nat :=
  (protocols ids)[(protocols ids).length - 1]?.map (·.index)

/-! ## C string primitives -/

/-- C `strlen` on the bytes that remain in a buffer: the number of bytes before
the first NUL, `none` when the buffer ends before a NUL is found. -/
def strlen? : List Nat → Option Nat
  | [] => none
  | b :: bs => if b = 0 then some 0 else (strlen? bs).map (· + 1)

/-- C `strncmp`: compares at most `n` bytes and stops after a NUL; the end of a
list reads as the terminating NUL. The result is the difference of the first
pair of bytes that differ, 0 when there is none. -/
def strncmp : List Nat → List Nat → Nat → Int
  | _, _, 0 => 0
  | s1, s2, n + 1 =>
    if s1.headD 0 ≠ s2.headD 0 then (s1.headD 0 : Int) - (s2.headD 0 : Int)
    else if s1.headD 0 = 0 then 0
    else strncmp s1.tail s2.tail n

/-! ## Negotiation scans -/

/-- How the nested loops of a negotiation scan are left. -/
inductive Scan where
  /-- A read outside the client's buffer or outside the table. -/
  | oob : Scan
  /-- The loop ran to completion; no `goto out` was taken. -/
  | miss : Scan
  /-- The `goto out` was taken at table ordinal `i`, at position `pos` of the
  client's list (`smb1_index`, respectively `count`). -/
  | hit (i : Nat) (pos : Nat) : Scan
  deriving DecidableEq, Repr

/-- The loop `for (i = start; i >= lo; i--) body`, where the body either falls
through to the next ordinal (`Scan.miss`) or leaves the loop. -/
def forDown (lo : Nat) (body : Nat → Scan) : Nat → Scan
  | 0 => if lo = 0 then body 0 else Scan.miss
  | i + 1 =>
    if i + 1 < lo then Scan.miss
    else match body (i + 1) with
      | Scan.miss => forDown lo body i
      | r => r

/-- The same loop for a signed start index: nothing is scanned from below `lo`. -/
def forDownFrom (lo : Nat) (body : Nat → Scan) (start_index : Int) : Scan :=
  if start_index < 0 then Scan.miss else forDown lo body start_index.toNat

/-- The inner loop of `find_matching_smb1_dialect` for table ordinal `i`:
`while (bcount)` over the client's concatenated strings. `fuel` bounds the
number of iterations; every iteration consumes at least one byte of `dialects`. -/
def smb1_while (name : List Nat) (i : Nat) : Nat → Int → List Nat → Nat → Scan
  | 0, _, _, _ => Scan.oob
  | fuel + 1, bcount, dialects, smb1_index =>
    if bcount = 0 then Scan.miss
    else match strlen? dialects with
      | none => Scan.oob
      | some cli_count =>
        if strncmp dialects name cli_count = 0 then Scan.hit i smb1_index
        else smb1_while name i fuel (bcount - ((cli_count : Int) + 1))
          (dialects.drop (cli_count + 1)) (smb1_index + 1)

/-- Body of the `for` loop of `find_matching_smb1_dialect` at ordinal `i`. -/
def smb1_body (ids : ProtIds) (cli_dialects : List Nat) (byte_count : Nat) (i : Nat) : Scan :=
  match (protocols ids)[i]? with
  | none => Scan.oob
  | some p =>
    smb1_while p.name i (cli_dialects.length + 1) ((byte_count % 65536 : Nat) : Int) cli_dialects 0

/-- The nested loops of `find_matching_smb1_dialect` up to the label `out`. -/
def smb1_scan (ids : ProtIds) (start_index : Int) (cli_dialects : List Nat)
    (byte_count : Nat) : Scan :=
  forDownFrom CIFS_PROT (smb1_body ids cli_dialects byte_count) start_index

/-- The `prot_id` column at a table ordinal. -/
def prot_id_at (ids : ProtIds) (i : Nat) : Nat :=
  match (protocols ids)[i]? with
  | some p => p.prot_id
  | none => ids.BAD_PROT_ID

/-- The function `find_matching_smb1_dialect`. `server_min_pr` and
`server_max_pr` are the globals of that name. The start index is compared
with `ARRAY_SIZE(protocols)` as an unsigned value, so a negative one is
rejected as well. `byte_count` is a 16-bit parameter, read on a little-endian
host. `none` is a read outside the client's buffer. -/
def find_matching_smb1_dialect (ids : ProtIds) (server_min_pr server_max_pr : Int)
    (start_index : Int) (cli_dialects : List Nat) (byte_count : Nat) : Option Nat :=
  if start_index < 0 ∨ ((protocols ids).length : Int) ≤ start_index then
    some ids.BAD_PROT_ID
  else match smb1_scan ids start_index cli_dialects byte_count with
    | Scan.oob => none
    | Scan.miss => some ids.BAD_PROT_ID
    | Scan.hit i smb1_index =>
      if server_min_pr ≤ (i : Int) ∧ (i : Int) ≤ server_max_pr then
        (if i = CIFS_PROT then some smb1_index else some (prot_id_at ids i))
      else some ids.BAD_PROT_ID

/-- The inner loop of `find_matching_smb2_dialect` for table ordinal `i`:
`while (--count >= 0)` over the client's numeric array. -/
def smb2_while (prot_id : Nat) (cli_dialects : List Nat) (i : Nat) : Nat → Scan
  | 0 => Scan.miss
  | count + 1 =>
    match cli_dialects[count]? with
    | none => Scan.oob
    | some d =>
      if d = prot_id then Scan.hit i count
      else smb2_while prot_id cli_dialects i count

/-- Body of the `for` loop of `find_matching_smb2_dialect` at ordinal `i`. -/
def smb2_body (ids : ProtIds) (cli_dialects : List Nat) (dialects_count : Nat) (i : Nat) : Scan :=
  match (protocols ids)[i]? with
  | none => Scan.oob
  | some p => smb2_while p.prot_id cli_dialects i dialects_count

/-- The nested loops of `find_matching_smb2_dialect` up to the label `out`. -/
def smb2_scan (ids : ProtIds) (start_index : Int) (cli_dialects : List Nat)
    (dialects_count : Nat) : Scan :=
  forDownFrom SMB2_PROT (smb2_body ids cli_dialects dialects_count) start_index

/-- The function `find_matching_smb2_dialect`. `none` is a read outside the
client's array or outside the table. -/
def find_matching_smb2_dialect (ids : ProtIds) (server_min_pr server_max_pr : Int)
    (start_index : Int) (cli_dialects : List Nat) (dialects_count : Nat) : Option Nat :=
  match smb2_scan ids start_index cli_dialects dialects_count with
  | Scan.oob => none
  | Scan.miss => some ids.BAD_PROT_ID
  | Scan.hit i _ =>
    if server_min_pr ≤ (i : Int) ∧ (i : Int) ≤ server_max_pr then some (prot_id_at ids i)
    else some ids.BAD_PROT_ID

/-- The table ordinal at which a scan assigned `dialect_id`: the ordinal of the
`goto out`, when it lies in the server's range. -/
def selected (server_min_pr server_max_pr : Int) : Scan → Option Nat
  | Scan.hit i _ =>
    if server_min_pr ≤ (i : Int) ∧ (i : Int) ≤ server_max_pr then some i else none
  | _ => none

/-- The ordinal selected by the modern negotiation, if any. -/
def smb2_selected (ids : ProtIds) (server_min_pr server_max_pr : Int) (start_index : Int)
    (cli_dialects : List Nat) (dialects_count : Nat) : Option Nat :=
  selected server_min_pr server_max_pr (smb2_scan ids start_index cli_dialects dialects_count)

/-- The ordinal selected by the legacy negotiation, if any. -/
def smb1_selected (ids : ProtIds) (server_min_pr server_max_pr : Int) (start_index : Int)
    (cli_dialects : List Nat) (byte_count : Nat) : Option Nat :=
  if start_index < 0 ∨ ((protocols ids).length : Int) ≤ start_index then none
  else selected server_min_pr server_max_pr (smb1_scan ids start_index cli_dialects byte_count)

/-- Position of the first string of a list which the comparison of the legacy
scan, `strncmp` bounded by the length of the client's string, accepts for the
table name `name`. -/
def firstMatch (name : List Nat) : List (List Nat) → Option Nat
  | [] => none
  | s :: ss =>
    if strncmp s name s.length = 0 then some 0 else (firstMatch name ss).map (· + 1)

/-- A negotiate request as `negotiate_dialect` sees it: the protocol signature
in the header selects the layout of the dialect offer. -/
inductive NegotiateReq where
  /-- The signature is SMB1_PROTO_NUMBER: `DialectsArray` and `ByteCount`. -/
  | smb1 (DialectsArray : List Nat) (ByteCount : Nat) : NegotiateReq
  /-- The signature is SMB2_PROTO_NUMBER: `Dialects` and `DialectCount`. -/
  | smb2 (Dialects : List Nat) (DialectCount : Nat) : NegotiateReq
  /-- Any other signature. -/
  | other : NegotiateReq

/-- The function `negotiate_dialect`, built with CONFIG_CIFS_SMB2_SERVER. -/
def negotiate_dialect (ids : ProtIds) (server_min_pr server_max_pr : Int) :
    NegotiateReq → Option Nat
  | NegotiateReq.smb1 arr bc =>
    find_matching_smb1_dialect ids server_min_pr server_max_pr SMB311_PROT arr bc
  | NegotiateReq.smb2 arr cnt =>
    find_matching_smb2_dialect ids server_min_pr server_max_pr SMB311_PROT arr cnt
  | NegotiateReq.other => some ids.BAD_PROT_ID

/-- A legacy offer on the wire: every string followed by its NUL. -/
def encodeDialects : List (List Nat) → List Nat
  | [] => []
  | s :: ss => s ++ 0 :: encodeDialects ss

/-! ## Request buffers -/

/-- Errno ENOMEM of the Linux kernel. -/
def ENOMEM : Nat := 12
/-- Errno EBUSY of the Linux kernel. -/
def EBUSY : Nat := 16
/-- Errno ECONNABORTED of the Linux kernel. -/
def ECONNABORTED : Nat := 103

/-- What `switch_req_buf` takes from outside the sources: the global
`SMBMaxBufSize`, the macro `CIFS_DEFAULT_IOSIZE`, the header size chosen by
CONFIG_CIFS_SMB2_SERVER (`MAX_SMB2_HDR_SIZE` or `MAX_CIFS_HDR_SIZE`) and the
helper `get_rfc1002_length`, which decodes the length prefix of a buffer. -/
structure BufParams where
  SMBMaxBufSize : Nat
  CIFS_DEFAULT_IOSIZE : Nat
  hdr_len : Nat
  get_rfc1002_length : List Nat → Nat

/-- Reduction of an integer to `unsigned int`. -/
def u32 (n : Int) : Nat := (n % 4294967296).toNat

/-- The bound `SMBMaxBufSize + hdr_len - 4`, in `unsigned int` arithmetic. -/
def largeLimit (bp : BufParams) : Nat :=
  u32 ((bp.SMBMaxBufSize : Int) + (bp.hdr_len : Int) - 4)

/-- The bound `CIFS_DEFAULT_IOSIZE + hdr_len - 4`, in `unsigned int` arithmetic. -/
def oversizeLimit (bp : BufParams) : Nat :=
  u32 ((bp.CIFS_DEFAULT_IOSIZE : Int) + (bp.hdr_len : Int) - 4)

/-- The buffer fields of `struct tcp_server_info`; `none` is a NULL pointer. -/
structure tcp_server_info where
  smallbuf : Option (List Nat)
  bigbuf : Option (List Nat)
  wbuf : Option (List Nat)
  large_buf : Bool
  total_read : Nat
  deriving DecidableEq, Repr

/-- C `memcpy(dst, src, n)`: the new contents of `dst`; `none` when `n` bytes do
not fit one of the two buffers. -/
def memcpy (dst src : List Nat) (n : Nat) : Option (List Nat) :=
  if n ≤ src.length ∧ n ≤ dst.length then some (src.take n ++ dst.drop n) else none

/-- The function `switch_req_buf`. `vmalloc` is the outcome of the allocation
of the oversized buffer (`none`: the allocation failed); it is stored in
`server->wbuf` before it is tested, so a failed allocation leaves NULL there.
The result is the return value and the connection afterwards; `none` is an
access through a NULL pointer or outside a buffer. -/
def switch_req_buf (bp : BufParams) (vmalloc : Option (List Nat))
    (server : tcp_server_info) : Option (Int × tcp_server_info) :=
  match server.smallbuf with
  | none => none
  | some buf =>
    let pdu_length : Nat := u32 (bp.get_rfc1002_length buf)
    if pdu_length ≤ largeLimit bp then
      match server.bigbuf with
      | none => none
      | some big =>
        match memcpy big buf server.total_read with
        | none => none
        | some big' => some (0, { server with large_buf := true, bigbuf := some big' })
    else if pdu_length ≤ oversizeLimit bp then
      match vmalloc with
      | none => some (-(ENOMEM : Int), { server with wbuf := none })
      | some w =>
        match memcpy w buf server.total_read with
        | none => none
        | some w' =>
          some (0, { server with wbuf := some w', large_buf := false,
                                 smallbuf := none, bigbuf := none })
    else some (-(ECONNABORTED : Int), server)

/-! ## Share modes -/

/-- The access and share masks, the create disposition FILE_SUPERSEDE_LE and the
error number ESHARE: macros of smb2pdu.h, smb1pdu.h and glob.h, which are not
among the sources, hence parameters. -/
structure AccessBits where
  FILE_SHARE_READ_LE : Nat
  FILE_SHARE_WRITE_LE : Nat
  FILE_SHARE_DELETE_LE : Nat
  FILE_READ_DATA_LE : Nat
  FILE_WRITE_DATA_LE : Nat
  FILE_DELETE_LE : Nat
  FILE_GENERIC_READ_LE : Nat
  FILE_GENERIC_WRITE_LE : Nat
  FILE_GENERIC_ALL_LE : Nat
  FILE_MAXIMAL_ACCESS_LE : Nat
  FILE_SUPERSEDE_LE : Nat
  ESHARE : Nat
  deriving DecidableEq, Repr

/-- The values of these macros in the SMB headers of the Linux kernel: the
instance at which the definitions are evaluated. -/
def wireBits : AccessBits :=
  { FILE_SHARE_READ_LE := 0x1, FILE_SHARE_WRITE_LE := 0x2, FILE_SHARE_DELETE_LE := 0x4,
    FILE_READ_DATA_LE := 0x1, FILE_WRITE_DATA_LE := 0x2, FILE_DELETE_LE := 0x10000,
    FILE_GENERIC_READ_LE := 0x80000000, FILE_GENERIC_WRITE_LE := 0x40000000,
    FILE_GENERIC_ALL_LE := 0x10000000, FILE_MAXIMAL_ACCESS_LE := 0x2000000,
    FILE_SUPERSEDE_LE := 0, ESHARE := 50000 }

/-- The fields of `struct cifsd_file` that `smb_check_shared_mode` reads or
writes. `inode` stands for `GET_FP_INODE(fp)`, the inode behind `fp->filp`. -/
structure cifsd_file where
  inode : Nat
  delete_on_close : Bool
  delete_pending : Bool
  daccess : Nat
  saccess : Nat
  cdoption : Nat
  attrib_only : Bool
  is_stream : Bool
  stream_name : List Nat
  deriving DecidableEq, Repr

/-- C `strcmp`: compares up to and including the first NUL; the end of a list
reads as the terminating NUL. -/
def strcmp : List Nat → List Nat → Int
  | [], s2 => -(s2.headD 0 : Int)
  | a :: s1, s2 =>
    if a ≠ s2.headD 0 then (a : Int) - (s2.headD 0 : Int)
    else if a = 0 then 0
    else strcmp s1 s2.tail

/-- The C string held in a buffer: the bytes before the first NUL. -/
def cstring (s : List Nat) : List Nat := s.takeWhile (· ≠ 0)

/-- The mask `FILE_DELETE_LE | FILE_GENERIC_ALL_LE | FILE_MAXIMAL_ACCESS_LE`. -/
def deleteMask (b : AccessBits) : Nat :=
  b.FILE_DELETE_LE ||| b.FILE_GENERIC_ALL_LE ||| b.FILE_MAXIMAL_ACCESS_LE

/-- The mask `FILE_READ_DATA_LE | FILE_GENERIC_READ_LE | FILE_GENERIC_ALL_LE |
FILE_MAXIMAL_ACCESS_LE`. -/
def readMask (b : AccessBits) : Nat :=
  b.FILE_READ_DATA_LE ||| b.FILE_GENERIC_READ_LE ||| b.FILE_GENERIC_ALL_LE |||
    b.FILE_MAXIMAL_ACCESS_LE

/-- The mask `FILE_WRITE_DATA_LE | FILE_GENERIC_WRITE_LE | FILE_GENERIC_ALL_LE |
FILE_MAXIMAL_ACCESS_LE`. -/
def writeMask (b : AccessBits) : Nat :=
  b.FILE_WRITE_DATA_LE ||| b.FILE_GENERIC_WRITE_LE ||| b.FILE_GENERIC_ALL_LE |||
    b.FILE_MAXIMAL_ACCESS_LE

/-- How one pass through the body of the loop of `smb_check_shared_mode` ends,
with the two handles as the pass leaves them. -/
inductive Step where
  /-- By `continue` or by reaching the end of the body. -/
  | next (prev_fp curr_fp : cifsd_file) : Step
  /-- By `break`, with `rc` set. -/
  | brk (rc : Int) (prev_fp curr_fp : cifsd_file) : Step
  deriving DecidableEq, Repr

/-- The share checks that follow the stream test of the loop body: the forward
read and write rules and the three reverse rules. -/
def share_rules (b : AccessBits) (prev_fp curr_fp : cifsd_file) : Step :=
  if prev_fp.saccess &&& b.FILE_SHARE_READ_LE = 0 ∧ curr_fp.daccess &&& readMask b ≠ 0 then
    Step.brk (-(b.ESHARE : Int)) prev_fp curr_fp
  else if prev_fp.saccess &&& b.FILE_SHARE_WRITE_LE = 0 ∧
      curr_fp.daccess &&& writeMask b ≠ 0 then
    Step.brk (-(b.ESHARE : Int)) prev_fp curr_fp
  else if prev_fp.daccess &&& readMask b ≠ 0 ∧
      curr_fp.saccess &&& b.FILE_SHARE_READ_LE = 0 then
    Step.brk (-(b.ESHARE : Int)) prev_fp curr_fp
  else if prev_fp.daccess &&& writeMask b ≠ 0 ∧
      curr_fp.saccess &&& b.FILE_SHARE_WRITE_LE = 0 then
    Step.brk (-(b.ESHARE : Int)) prev_fp curr_fp
  else if prev_fp.daccess &&& deleteMask b ≠ 0 ∧
      curr_fp.saccess &&& b.FILE_SHARE_DELETE_LE = 0 then
    Step.brk (-(b.ESHARE : Int)) prev_fp curr_fp
  else Step.next prev_fp curr_fp

/-- The part of the loop body from the delete-pending test on. -/
def pending_and_share (b : AccessBits) (prev_fp curr_fp : cifsd_file) : Step :=
  if prev_fp.delete_pending then Step.brk (-(EBUSY : Int)) prev_fp curr_fp
  else if prev_fp.attrib_only ≠ curr_fp.attrib_only then Step.next prev_fp curr_fp
  else if prev_fp.saccess &&& b.FILE_SHARE_DELETE_LE = 0 ∧
      curr_fp.daccess &&& deleteMask b ≠ 0 then
    Step.brk (-(b.ESHARE : Int)) prev_fp curr_fp
  else
    let absorb : Bool := prev_fp.is_stream && curr_fp.delete_on_close
    let prev1 : cifsd_file :=
      if absorb then { prev_fp with delete_pending := true, delete_on_close := true }
      else prev_fp
    let curr1 : cifsd_file :=
      if absorb then { curr_fp with delete_on_close := false } else curr_fp
    if prev1.is_stream ∧ ¬ curr1.is_stream then Step.next prev1 curr1
    else share_rules b prev1 curr1

/-- The body of the loop of `smb_check_shared_mode` for an entry `prev_fp` on
the inode of the candidate `curr_fp`. -/
def check_pair (b : AccessBits) (prev_fp curr_fp : cifsd_file) : Step :=
  if prev_fp.is_stream ∧ curr_fp.is_stream then
    if strcmp prev_fp.stream_name curr_fp.stream_name ≠ 0 then Step.next prev_fp curr_fp
    else if curr_fp.cdoption = b.FILE_SUPERSEDE_LE then
      Step.brk (-(b.ESHARE : Int)) prev_fp curr_fp
    else pending_and_share b prev_fp curr_fp
  else pending_and_share b prev_fp curr_fp

/-- The outcome of `smb_check_shared_mode`: the return value, the hash chain and
the candidate as the call leaves them. -/
structure CheckResult where
  rc : Int
  chain : List cifsd_file
  curr_fp : cifsd_file
  deriving DecidableEq, Repr

/-- The function `smb_check_shared_mode`. `inode` is `file_inode(filp)` and
`chain` the hash chain of `global_name_table` that `hash_for_each_possible`
walks for it; entries on another inode are passed over. -/
def smb_check_shared_mode (b : AccessBits) (inode : Nat) :
    List cifsd_file → cifsd_file → CheckResult
  | [], curr_fp => ⟨0, [], curr_fp⟩
  | prev_fp :: rest, curr_fp =>
    if inode = prev_fp.inode then
      match check_pair b prev_fp curr_fp with
      | Step.next prev1 curr1 =>
        let r := smb_check_shared_mode b inode rest curr1
        ⟨r.rc, prev1 :: r.chain, r.curr_fp⟩
      | Step.brk rc prev1 curr1 => ⟨rc, prev1 :: rest, curr1⟩
    else
      let r := smb_check_shared_mode b inode rest curr_fp
      ⟨r.rc, prev_fp :: r.chain, r.curr_fp⟩

/-- The return value with which a pass through the loop body leaves `rc`. -/
def Step.rc : Step → Int
  | Step.next _ _ => 0
  | Step.brk rc _ _ => rc

/-- What every pass through the loop body guarantees for a candidate `c`: a pass
that goes on leaves the stream identity of the candidate alone, and a pass that
breaks sets `rc` to -ESHARE or to -EBUSY. -/
def Step.keeps (b : AccessBits) (c : cifsd_file) : Step → Prop
  | Step.next _ c1 => c1.is_stream = c.is_stream ∧ c1.stream_name = c.stream_name
  | Step.brk rc _ _ => rc = -(b.ESHARE : Int) ∨ rc = -(EBUSY : Int)

/-- The three rules that test the share bits of `holder` against the desired
access of `asker`: delete, read and write. -/
def forward_conflict (b : AccessBits) (holder asker : cifsd_file) : Prop :=
  (holder.saccess &&& b.FILE_SHARE_DELETE_LE = 0 ∧ asker.daccess &&& deleteMask b ≠ 0) ∨
  (holder.saccess &&& b.FILE_SHARE_READ_LE = 0 ∧ asker.daccess &&& readMask b ≠ 0) ∨
  (holder.saccess &&& b.FILE_SHARE_WRITE_LE = 0 ∧ asker.daccess &&& writeMask b ≠ 0)

/-- The six share rules of the loop body taken together: the three forward
rules, and the three reverse rules, which are the forward rules with the roles
of the two handles exchanged. -/
def share_conflict (b : AccessBits) (prev_fp curr_fp : cifsd_file) : Prop :=
  forward_conflict b prev_fp curr_fp ∨ forward_conflict b curr_fp prev_fp

/-- Sample parameters of `switch_req_buf` at which the definitions are
evaluated: a large-buffer bound of 20, an oversized bound of 68 and a length
prefix held in the fourth byte. -/
def sampleBuf : BufParams :=
  { SMBMaxBufSize := 16, CIFS_DEFAULT_IOSIZE := 64, hdr_len := 8,
    get_rfc1002_length := fun buf => buf.getD 3 0 }

/-- A connection that has read the eight bytes of its small buffer, which
declare a PDU length of 21. -/
def sampleServer : tcp_server_info :=
  { smallbuf := some [0, 0, 0, 21, 1, 2, 3, 4], bigbuf := some [9, 9, 9, 9, 9, 9, 9, 9, 9, 9],
    wbuf := none, large_buf := false, total_read := 8 }

/-- The same connection while it still holds an oversized buffer from an
earlier request. -/
def sampleHolding : tcp_server_info :=
  { sampleServer with wbuf := some [5, 5, 5, 5, 5, 5, 5, 5, 5] }

/-- A plain (non-stream) handle on inode 1 with the given desired access and
share access, opened with disposition FILE_OPEN. -/
def plainHandle (daccess saccess : Nat) : cifsd_file :=
  { inode := 1, delete_on_close := false, delete_pending := false, daccess := daccess,
    saccess := saccess, cdoption := 1, attrib_only := false, is_stream := false,
    stream_name := [] }

/-- A stream handle on inode 1 with the given stream name, desired access and
share access, opened with disposition FILE_OPEN. -/
def streamHandle (name : List Nat) (daccess saccess : Nat) : cifsd_file :=
  { inode := 1, delete_on_close := false, delete_pending := false, daccess := daccess,
    saccess := saccess, cdoption := 1, attrib_only := false, is_stream := true,
    stream_name := name }

/-- A stream handle on inode 1 that is delete-pending. -/
def pendingStream (name : List Nat) : cifsd_file :=
  { streamHandle name 0x10000 0x7 with delete_pending := true, delete_on_close := true }

/-- A stream handle on inode 1 opened with disposition FILE_SUPERSEDE, for
attributes only when `attrib_only` is set. -/
def supersedingStream (name : List Nat) (attrib_only : Bool) : cifsd_file :=
  { streamHandle name 0x1 0x7 with cdoption := 0, attrib_only := attrib_only }

/-- A plain handle on inode 1 that requests delete-on-close. -/
def deletingHandle (daccess saccess : Nat) : cifsd_file :=
  { plainHandle daccess saccess with delete_on_close := true }

/-- The fields of a candidate that the loop body reads to reach its verdict: two
candidates that agree on them get the same return value against every handle. -/
def agree (c c1 : cifsd_file) : Prop :=
  c1.daccess = c.daccess ∧ c1.saccess = c.saccess ∧ c1.attrib_only = c.attrib_only ∧
    c1.is_stream = c.is_stream ∧ c1.stream_name = c.stream_name ∧ c1.cdoption = c.cdoption

/-- What a pass through the loop body that goes on guarantees for a candidate
`c`: the candidate it hands on agrees with `c` in every field read for a
verdict. -/
def Step.hands_on (c : cifsd_file) : Step → Prop
  | Step.next _ c1 => agree c c1
  | Step.brk _ _ _ => True

/-- The verdict in the words of the spec: the return value of the pairwise rules
for the first handle of the chain, in chain order, that is on the candidate's
object and conflicts with the candidate; 0 when there is none. -/
def first_conflict (b : AccessBits) (inode : Nat) : List cifsd_file → cifsd_file → Int
  | [], _ => 0
  | h :: rest, curr =>
    if inode = h.inode ∧ (check_pair b h curr).rc ≠ 0 then (check_pair b h curr).rc
    else first_conflict b inode rest curr

/-! ## Buffer switches with their pool traffic, requests and queues -/

/-- The memory pools of the buffer switches. -/
inductive Pool where
  /-- Pool of the small request buffers. -/
  | cifsd_sm_req_poolp : Pool
  /-- Pool of the large request buffers. -/
  | cifsd_req_poolp : Pool
  /-- Pool of the small response buffers. -/
  | cifsd_sm_rsp_poolp : Pool
  /-- Pool of the large response buffers. -/
  | cifsd_rsp_poolp : Pool
  deriving DecidableEq, Repr

/-- The outcome of `switch_req_buf` with its pool traffic: the return value, the
connection afterwards and the calls of `mempool_free` in the order made, each
with the pool and the pointer passed. -/
structure ReqSwitch where
  rc : Int
  server : tcp_server_info
  freed : List (Pool × Option (List Nat))
  deriving DecidableEq, Repr

/-- The function `switch_req_buf` once more, recording the calls of
`mempool_free` as well. -/
def switch_req_buf_effects (bp : BufParams) (vmalloc : Option (List Nat))
    (server : tcp_server_info) : Option ReqSwitch :=
  match server.smallbuf with
  | none => none
  | some buf =>
    let pdu_length : Nat := u32 (bp.get_rfc1002_length buf)
    if pdu_length ≤ largeLimit bp then
      match server.bigbuf with
      | none => none
      | some big =>
        match memcpy big buf server.total_read with
        | none => none
        | some big' =>
          some ⟨0, { server with large_buf := true, bigbuf := some big' }, []⟩
    else if pdu_length ≤ oversizeLimit bp then
      match vmalloc with
      | none => some ⟨-(ENOMEM : Int), { server with wbuf := none }, []⟩
      | some w =>
        match memcpy w buf server.total_read with
        | none => none
        | some w' =>
          some ⟨0, { server with wbuf := some w', large_buf := false,
                                 smallbuf := none, bigbuf := none },
            [(Pool.cifsd_sm_req_poolp, server.smallbuf), (Pool.cifsd_req_poolp, server.bigbuf)]⟩
    else some ⟨-(ECONNABORTED : Int), server, []⟩

/-- The member `async` of a request: `struct async_info`. -/
structure async_info where
  async_id : Nat
  async_status : Nat
  deriving DecidableEq, Repr

/-- The fields of `struct smb_work` that the functions of `misc.c` read or
write. `ProtocolId` is the protocol signature in the header of `buf`, and
`command` the value that `server->ops->get_cmd_val` returns for the request. -/
structure smb_work where
  ProtocolId : Nat
  command : Nat
  type : Nat
  async : Option async_info
  added_in_request_list : Nat
  rsp_buf : Option (List Nat)
  rsp_large_buf : Bool
  deriving DecidableEq, Repr

/-- The outcome of `switch_rsp_buf`: the return value, the request afterwards
and the calls of `mempool_free` made. -/
structure RspSwitch where
  rc : Int
  work : smb_work
  freed : List (Pool × Option (List Nat))
  deriving DecidableEq, Repr

/-- The function `switch_rsp_buf`. `MAX_CIFS_SMALL_BUFFER_SIZE` is a macro
declared outside the sources; `mempool_alloc` is the outcome of the allocation
from the large response pool (`none`: the allocation failed). `none` is an
access through a NULL pointer or outside a buffer. -/
def switch_rsp_buf (MAX_CIFS_SMALL_BUFFER_SIZE : Nat) (mempool_alloc : Option (List Nat))
    (work : smb_work) : Option RspSwitch :=
  if work.rsp_large_buf then some ⟨0, work, []⟩
  else match mempool_alloc with
    | none => some ⟨-(ENOMEM : Int), work, []⟩
    | some buf =>
      match work.rsp_buf with
      | none => none
      | some small =>
        match memcpy buf small MAX_CIFS_SMALL_BUFFER_SIZE with
        | none => none
        | some buf' =>
          some ⟨0, { work with rsp_buf := some buf', rsp_large_buf := true },
            [(Pool.cifsd_sm_rsp_poolp, work.rsp_buf)]⟩

/-- A request that still answers from its small response buffer. -/
def sampleWork : smb_work :=
  { ProtocolId := 0x424d53fe, command := 0x5, type := 0, async := none,
    added_in_request_list := 0, rsp_buf := some [1, 2, 3, 4], rsp_large_buf := false }

/-- The outcome of the oversized switch of the sample connection when the
allocation yields a buffer of nine bytes. -/
def sampleOversized : ReqSwitch :=
  { rc := 0,
    server := { sampleServer with wbuf := some [0, 0, 0, 21, 1, 2, 3, 4, 7], large_buf := false,
                                  smallbuf := none, bigbuf := none },
    freed := [(Pool.cifsd_sm_req_poolp, sampleServer.smallbuf),
      (Pool.cifsd_req_poolp, sampleServer.bigbuf)] }

/-- What `add_request_to_queue` takes from outside the sources: the protocol
signature SMB2_PROTO_NUMBER, the command codes and the request types and
states, all macros of the protocol headers and of glob.h. -/
structure QueueConsts where
  SMB2_PROTO_NUMBER : Nat
  SMB2_CANCEL : Nat
  SMB2_CHANGE_NOTIFY : Nat
  SMB2_LOCK : Nat
  SMB_COM_NT_CANCEL : Nat
  SYNC : Nat
  ASYNC : Nat
  ASYNC_WAITING : Nat
  deriving DecidableEq, Repr

/-- The values of these macros on the wire and in the headers of the Linux
kernel: the instance at which the definitions are evaluated. -/
def wireQueue : QueueConsts :=
  { SMB2_PROTO_NUMBER := 0x424d53fe, SMB2_CANCEL := 0xC, SMB2_CHANGE_NOTIFY := 0xF,
    SMB2_LOCK := 0xA, SMB_COM_NT_CANCEL := 0xA4, SYNC := 1, ASYNC := 2, ASYNC_WAITING := 1 }

/-- The two request lists of `struct tcp_server_info`, oldest entry first. -/
structure request_lists where
  requests : List smb_work
  async_requests : List smb_work
  deriving DecidableEq, Repr

/-- The value of the local `requests_queue` of `add_request_to_queue`. -/
inductive QueueChoice where
  /-- The pointer stays NULL. -/
  | null : QueueChoice
  /-- The pointer is `&server->requests`. -/
  | requests : QueueChoice
  /-- The pointer is `&server->async_requests`. -/
  | async_requests : QueueChoice
  deriving DecidableEq, Repr

/-- Reduction of an integer to `__u64`. -/
def u64 (n : Int) : Nat := (n % 18446744073709551616).toNat

/-- The first part of `add_request_to_queue`: the choice of the queue, with the
request as the branches leave it. `kmalloc` tells whether the allocation of the
`async_info` succeeds and `ida` is the value that `ida_simple_get` returns;
`none` is the write through the NULL pointer of a failed allocation. -/
def choose_queue (k : QueueConsts) (kmalloc : Bool) (ida : Int) (work : smb_work) :
    Option (QueueChoice × smb_work) :=
  if work.ProtocolId = k.SMB2_PROTO_NUMBER then
    let command := work.command
    if command ≠ k.SMB2_CANCEL then
      if command = k.SMB2_CHANGE_NOTIFY ∨ command = k.SMB2_LOCK then
        if kmalloc then
          some (QueueChoice.async_requests,
            { work with type := k.ASYNC,
                            async := some ⟨u64 ida, k.ASYNC_WAITING⟩ })
        else none
      else some (QueueChoice.requests, { work with type := k.SYNC })
    else some (QueueChoice.null, work)
  else
    if work.command ≠ k.SMB_COM_NT_CANCEL then some (QueueChoice.requests, work)
    else some (QueueChoice.null, work)

/-- The function `add_request_to_queue`: the request and the lists of its
connection afterwards. `list_add_tail` puts the request behind the entries
already queued. -/
def add_request_to_queue (k : QueueConsts) (kmalloc : Bool) (ida : Int)
    (server : request_lists) (work : smb_work) : Option (smb_work × request_lists) :=
  match choose_queue k kmalloc ida work with
  | none => none
  | some (QueueChoice.null, w) => some (w, server)
  | some (QueueChoice.requests, w) =>
    some ({ w with added_in_request_list := 1 },
      { server with requests := server.requests ++ [{ w with added_in_request_list := 1 }] })
  | some (QueueChoice.async_requests, w) =>
    some ({ w with added_in_request_list := 1 },
      { server with
        async_requests := server.async_requests ++ [{ w with added_in_request_list := 1 }] })

/-- The request is an SMB2 request whose command is CHANGE_NOTIFY or LOCK. -/
def is_async_command (k : QueueConsts) (w : smb_work) : Prop :=
  w.ProtocolId = k.SMB2_PROTO_NUMBER ∧
    (w.command = k.SMB2_CHANGE_NOTIFY ∨ w.command = k.SMB2_LOCK)

/-- The request is the cancel command of its protocol: SMB2_CANCEL in an SMB2
request, SMB_COM_NT_CANCEL otherwise. -/
def is_cancel_command (k : QueueConsts) (w : smb_work) : Prop :=
  (w.ProtocolId = k.SMB2_PROTO_NUMBER ∧ w.command = k.SMB2_CANCEL) ∨
    (w.ProtocolId ≠ k.SMB2_PROTO_NUMBER ∧ w.command = k.SMB_COM_NT_CANCEL)

/-! ## Continuation state in extended attributes -/

/-- Errno ENOENT of the Linux kernel. -/
def ENOENT : Nat := 2

/-- C `strncasecmp` as the kernel library defines it: compares at most `len`
bytes, stops at a NUL in either string, and takes two bytes for equal when they
are equal or `tolower` maps them to the same byte. `tolower` belongs to the
character tables of the kernel and is a parameter. -/
def strncasecmp (tolower : Nat → Nat) : List Nat → List Nat → Nat → Int
  | _, _, 0 => 0
  | s1, s2, len + 1 =>
    if s1.headD 0 = 0 ∨ s2.headD 0 = 0 then (s1.headD 0 : Int) - (s2.headD 0 : Int)
    else if s1.headD 0 = s2.headD 0 then strncasecmp tolower s1.tail s2.tail len
    else if tolower (s1.headD 0) ≠ tolower (s2.headD 0) then
      (tolower (s1.headD 0) : Int) - (tolower (s2.headD 0) : Int)
    else strncasecmp tolower s1.tail s2.tail len

/-- Lower case of an ASCII letter, every other byte unchanged: the instance of
`tolower` at which the definitions are evaluated. -/
def asciiLower (c : Nat) : Nat := if 65 ≤ c ∧ c ≤ 90 then c + 32 else c

/-- The outcome of `smb_find_cont_xattr`: the return value, what `*value` was
set to (`none`: left alone) and the names passed to `smb_vfs_getxattr`, in the
order of the calls. -/
structure XattrResult where
  value_len : Int
  value : Option (List Nat)
  fetched : List (List Nat)
  deriving DecidableEq, Repr

/-- The `for` loop of `smb_find_cont_xattr`. `name` is the buffer from the
pointer `name` on and `offset` is `name - xattr_list`; `tmp_a` holds the copy
of the wanted bytes. `smb_vfs_getxattr` is the filesystem call, given the name
it is asked for. `fuel` bounds the number of iterations; every iteration
consumes at least one byte of `name`. `none` is a read outside the list
buffer. -/
def xattr_for (tolower : Nat → Nat) (smb_vfs_getxattr : List Nat → Int × Option (List Nat))
    (tmp_a : List Nat) (p_len : Nat) (xattr_list_len : Int) :
    Nat → List Nat → Nat → Option XattrResult
  | 0, _, _ => none
  | fuel + 1, name, offset =>
    if (offset : Int) < xattr_list_len then
      match memcpy (List.replicate p_len 0) name p_len with
      | none => none
      | some tmp_b =>
        if strncasecmp tolower tmp_a tmp_b p_len ≠ 0 then
          match strlen? name with
          | none => none
          | some n =>
            xattr_for tolower smb_vfs_getxattr tmp_a p_len xattr_list_len fuel
              (name.drop (n + 1)) (offset + (n + 1))
        else
          some ⟨(smb_vfs_getxattr (cstring name)).1, (smb_vfs_getxattr (cstring name)).2,
            [cstring name]⟩
    else some ⟨-(ENOENT : Int), none, []⟩

/-- The function `smb_find_cont_xattr`. `listxattr` is what `smb_vfs_listxattr`
returns: the length of the list and the buffer it allocated; `kmalloc_a` and
`kmalloc_b` tell whether the two allocations of `p_len` bytes succeed; `pfx` is
the buffer behind the parameter `prefix`. `none` is an access through a NULL
pointer or outside a buffer. -/
def smb_find_cont_xattr (tolower : Nat → Nat) (listxattr : Int × Option (List Nat))
    (kmalloc_a kmalloc_b : Bool) (smb_vfs_getxattr : List Nat → Int × Option (List Nat))
    (pfx : List Nat) (p_len : Nat) : Option XattrResult :=
  if listxattr.1 < 0 then some ⟨-(ENOENT : Int), none, []⟩
  else if listxattr.1 = 0 then some ⟨-(ENOENT : Int), none, []⟩
  else if ¬ (kmalloc_a = true ∧ kmalloc_b = true) then some ⟨-(ENOENT : Int), none, []⟩
  else
    match memcpy (List.replicate p_len 0) pfx p_len with
    | none => none
    | some tmp_a =>
      match listxattr.2 with
      | none => none
      | some xattr_list =>
        xattr_for tolower smb_vfs_getxattr tmp_a p_len listxattr.1 (xattr_list.length + 1)
          xattr_list 0

/-- A sample filesystem call: the value is the name itself. -/
def sampleGetxattr (name : List Nat) : Int × Option (List Nat) :=
  ((name.length : Int), some name)

/-! ## Message headers -/

/-- What `check_smb_message` takes from outside the sources: the two protocol
signatures and the two direction flags, macros of the protocol headers, and the
positions of the fields it reads, fixed by the declarations of `struct smb_hdr`
and `struct smb2_hdr`: the offsets of `Protocol` and of the one-byte `Flags` in
the former, of `ProtocolId` and of the four-byte `Flags` in the latter. -/
structure HdrLayout where
  SMB1_PROTO_NUMBER : Nat
  SMB2_PROTO_NUMBER : Nat
  SMBFLG_RESPONSE : Nat
  SMB2_FLAGS_SERVER_TO_REDIR : Nat
  Protocol_off : Nat
  smb_Flags_off : Nat
  ProtocolId_off : Nat
  smb2_Flags_off : Nat
  deriving DecidableEq, Repr

/-- The layout of the two headers behind a four-byte length field, with the
values of the macros on the wire: the instance at which the definitions are
evaluated. -/
def wireHdr : HdrLayout :=
  { SMB1_PROTO_NUMBER := 0x424d53ff, SMB2_PROTO_NUMBER := 0x424d53fe,
    SMBFLG_RESPONSE := 0x80, SMB2_FLAGS_SERVER_TO_REDIR := 0x1,
    Protocol_off := 4, smb_Flags_off := 13, ProtocolId_off := 4, smb2_Flags_off := 20 }

/-- The little-endian 32-bit value held in the four bytes of a buffer from
offset `off` on; `none` when they are not all inside the buffer. -/
def le32_at (buf : List Nat) (off : Nat) : Option Nat :=
  match buf[off]?, buf[off + 1]?, buf[off + 2]?, buf[off + 3]? with
  | some b0, some b1, some b2, some b3 =>
    some (b0 + 256 * b1 + 65536 * b2 + 16777216 * b3)
  | _, _, _, _ => none

/-- The function `check_smb_hdr`; `none` is a read outside the buffer. -/
def check_smb_hdr (l : HdrLayout) (smb : List Nat) : Option Nat :=
  match le32_at smb l.Protocol_off with
  | none => none
  | some protocol =>
    if protocol ≠ l.SMB1_PROTO_NUMBER then some 1
    else match smb[l.smb_Flags_off]? with
      | none => none
      | some flags => if flags &&& l.SMBFLG_RESPONSE = 0 then some 0 else some 1

/-- The function `check_smb2_hdr`; `none` is a read outside the buffer. -/
def check_smb2_hdr (l : HdrLayout) (smb : List Nat) : Option Nat :=
  match le32_at smb l.smb2_Flags_off with
  | none => none
  | some flags => if flags &&& l.SMB2_FLAGS_SERVER_TO_REDIR = 0 then some 0 else some 1

/-- The function `check_smb_message`; `none` is a read outside the buffer. -/
def check_smb_message (l : HdrLayout) (buf : List Nat) : Option Nat :=
  match le32_at buf l.ProtocolId_off with
  | none => none
  | some protocol_id =>
    if protocol_id = l.SMB2_PROTO_NUMBER then check_smb2_hdr l buf
    else check_smb_hdr l buf

/-- A buffer of 24 bytes with the given signature bytes behind the length field
and the given flag bytes at the places of the two `Flags` fields. -/
def sampleMessage (s0 s1 s2 s3 flags1 flags2 : Nat) : List Nat :=
  [0, 0, 0, 20, s0, s1, s2, s3, 0, 0, 0, 0, 0, flags1, 0, 0, 0, 0, 0, 0, flags2, 0, 0, 0]

/-! ## The legacy scan with a record of what it examines -/

/-- One pass of the inner loop of `find_matching_smb1_dialect` over a string of
the client: the value of `smb1_index`, the offset of `dialects` in the client's
buffer, the length `cli_count` found by `strlen`, and the byte budget `bcount`
at the start of the pass. The pass reads the bytes from `offset` up to the NUL
at `offset + cli_count`. -/
structure Visit where
  smb1_index : Nat
  offset : Nat
  cli_count : Nat
  bcount : Int
  deriving DecidableEq, Repr

/-- The record of one run of the inner loop: the passes made, how the loop was
left, and the value of `bcount` then. -/
structure ScanLog where
  visits : List Visit
  exit : Scan
  bcount : Int
  deriving DecidableEq, Repr

/-- The inner loop `smb1_while` once more, recording its passes. `offset` is
`dialects - cli_dialects`. -/
def smb1_while_log (name : List Nat) (i : Nat) :
    Nat → Int → List Nat → Nat → Nat → ScanLog
  | 0, bcount, _, _, _ => ⟨[], Scan.oob, bcount⟩
  | fuel + 1, bcount, dialects, smb1_index, offset =>
    if bcount = 0 then ⟨[], Scan.miss, bcount⟩
    else match strlen? dialects with
      | none => ⟨[], Scan.oob, bcount⟩
      | some cli_count =>
        if strncmp dialects name cli_count = 0 then
          ⟨[⟨smb1_index, offset, cli_count, bcount⟩], Scan.hit i smb1_index, bcount⟩
        else
          ⟨⟨smb1_index, offset, cli_count, bcount⟩ ::
              (smb1_while_log name i fuel (bcount - ((cli_count : Int) + 1))
                (dialects.drop (cli_count + 1)) (smb1_index + 1)
                (offset + (cli_count + 1))).visits,
            (smb1_while_log name i fuel (bcount - ((cli_count : Int) + 1))
              (dialects.drop (cli_count + 1)) (smb1_index + 1)
              (offset + (cli_count + 1))).exit,
            (smb1_while_log name i fuel (bcount - ((cli_count : Int) + 1))
              (dialects.drop (cli_count + 1)) (smb1_index + 1)
              (offset + (cli_count + 1))).bcount⟩

/-- The strings of a well-formed offer as the passes that examine them one
after the other: each with its position in the list, its offset in the
buffer, its length, and the bytes of the offer from it on as the budget. -/
def visitsOf : List (List Nat) → Nat → Nat → List Visit
  | [], _, _ => []
  | s :: ss, smb1_index, offset =>
    ⟨smb1_index, offset, s.length, ((encodeDialects (s :: ss)).length : Int)⟩ ::
      visitsOf ss (smb1_index + 1) (offset + (s.length + 1))

/-- Body of the `for` loop of `find_matching_smb1_dialect` at ordinal `i` once
more, recording the passes of its inner loop: `smb1_index` starts at 0 and
`dialects` at `cli_dialects`. -/
def smb1_body_log (ids : ProtIds) (cli_dialects : List Nat) (byte_count : Nat) (i : Nat) :
    ScanLog :=
  match (protocols ids)[i]? with
  | none => ⟨[], Scan.oob, ((byte_count % 65536 : Nat) : Int)⟩
  | some p =>
    smb1_while_log p.name i (cli_dialects.length + 1) ((byte_count % 65536 : Nat) : Int)
      cli_dialects 0 0

end Cifsd

namespace Cifsd

/-! ## The downward table loop -/

theorem forDown_exit (lo : Nat) (body : Nat → Scan) :
    ∀ (start : Nat) (r : Scan), forDown lo body start = r → r ≠ Scan.miss →
      ∃ i, lo ≤ i ∧ i ≤ start ∧ body i = r ∧
        ∀ k, i < k → k ≤ start → body k = Scan.miss := by
  intro start
  induction start with
  | zero =>
    intro r h hr
    unfold forDown at h
    split at h
    · exact ⟨0, by omega, le_refl _, h, fun k h1 h2 => by omega⟩
    · exact absurd h.symm hr
  | succ n ih =>
    intro r h hr
    unfold forDown at h
    split at h
    · exact absurd h.symm hr
    · cases hb : body (n + 1) with
      | miss =>
        rw [hb] at h
        simp only at h
        obtain ⟨i, h1, h2, h3, h4⟩ := ih r h hr
        refine ⟨i, h1, by omega, h3, ?_⟩
        intro k hk1 hk2
        rcases Nat.lt_or_ge k (n + 1) with hlt | hge
        · exact h4 k hk1 (by omega)
        · have hk : k = n + 1 := by omega
          rw [hk]
          exact hb
      | oob =>
        rw [hb] at h
        simp only at h
        exact ⟨n + 1, by omega, le_refl _, by rw [hb]; exact h, fun k h1 h2 => by omega⟩
      | hit i pos =>
        rw [hb] at h
        simp only at h
        exact ⟨n + 1, by omega, le_refl _, by rw [hb]; exact h, fun k h1 h2 => by omega⟩

theorem forDown_first (lo : Nat) (body : Nat → Scan) (i : Nat) (hlo : lo ≤ i)
    (hi : body i ≠ Scan.miss) :
    ∀ (start : Nat), i ≤ start → (∀ k, i < k → k ≤ start → body k = Scan.miss) →
      forDown lo body start = body i := by
  intro start
  induction start with
  | zero =>
    intro his _
    have hi0 : i = 0 := by omega
    subst hi0
    have hl : lo = 0 := by omega
    simp [forDown, hl]
  | succ n ih =>
    intro his hk
    unfold forDown
    have hnl : ¬ n + 1 < lo := by omega
    rw [if_neg hnl]
    rcases Nat.lt_or_ge i (n + 1) with hlt | hge
    · have hb : body (n + 1) = Scan.miss := hk (n + 1) hlt (le_refl _)
      rw [hb]
      simp only
      exact ih (by omega) (fun k h1 h2 => hk k h1 (by omega))
    · have hi1 : i = n + 1 := by omega
      subst hi1
      cases hb : body (n + 1) with
      | miss => exact absurd hb hi
      | oob => rfl
      | hit a c => rfl

theorem forDown_miss (lo : Nat) (body : Nat → Scan) :
    ∀ (start : Nat), (∀ k, lo ≤ k → k ≤ start → body k = Scan.miss) →
      forDown lo body start = Scan.miss := by
  intro start
  induction start with
  | zero =>
    intro hk
    unfold forDown
    split
    · exact hk 0 (by omega) (le_refl _)
    · rfl
  | succ n ih =>
    intro hk
    unfold forDown
    split
    · rfl
    · rw [hk (n + 1) (by omega) (le_refl _)]
      simp only
      exact ih (fun k h1 h2 => hk k h1 (by omega))

/-! ## The modern scan -/

theorem smb2_while_hit (prot_id : Nat) (cli : List Nat) (i : Nat) :
    ∀ (count j pos : Nat), smb2_while prot_id cli i count = Scan.hit j pos →
      j = i ∧ pos < count ∧ cli[pos]? = some prot_id := by
  intro count
  induction count with
  | zero => intro j pos h; simp [smb2_while] at h
  | succ n ih =>
    intro j pos h
    unfold smb2_while at h
    cases hc : cli[n]? with
    | none => rw [hc] at h; simp at h
    | some d =>
      rw [hc] at h
      simp only at h
      split at h
      · rename_i hd
        injection h with h1 h2
        subst h1 h2 hd
        exact ⟨rfl, by omega, hc⟩
      · obtain ⟨h1, h2, h3⟩ := ih j pos h
        exact ⟨h1, by omega, h3⟩

theorem smb2_while_miss (prot_id : Nat) (cli : List Nat) (i : Nat) :
    ∀ (count : Nat), smb2_while prot_id cli i count = Scan.miss →
      ∀ pos, pos < count → cli[pos]? ≠ some prot_id := by
  intro count
  induction count with
  | zero => intro _ pos hp; omega
  | succ n ih =>
    intro h pos hp
    unfold smb2_while at h
    cases hc : cli[n]? with
    | none => rw [hc] at h; simp at h
    | some d =>
      rw [hc] at h
      simp only at h
      split at h
      · simp at h
      · rename_i hd
        rcases Nat.lt_or_ge pos n with hlt | hge
        · exact ih h pos hlt
        · have hpn : pos = n := by omega
          subst hpn
          rw [hc]
          intro hEq
          injection hEq with hEq
          exact hd hEq

theorem smb2_while_total (prot_id : Nat) (cli : List Nat) (i : Nat) :
    ∀ (count : Nat), count ≤ cli.length → smb2_while prot_id cli i count ≠ Scan.oob := by
  intro count
  induction count with
  | zero => intro _; simp [smb2_while]
  | succ n ih =>
    intro hn
    unfold smb2_while
    have hlt : n < cli.length := by omega
    rw [List.getElem?_eq_getElem hlt]
    simp only
    split
    · simp
    · exact ih (by omega)

/-! ## The legacy scan -/

theorem smb1_while_hit (name : List Nat) (i : Nat) :
    ∀ (fuel : Nat) (bcount : Int) (dialects : List Nat) (idx j pos : Nat),
      smb1_while name i fuel bcount dialects idx = Scan.hit j pos → j = i ∧ idx ≤ pos := by
  intro fuel
  induction fuel with
  | zero => intro bcount dialects idx j pos h; simp [smb1_while] at h
  | succ n ih =>
    intro bcount dialects idx j pos h
    unfold smb1_while at h
    split at h
    · simp at h
    · cases hl : strlen? dialects with
      | none => rw [hl] at h; simp at h
      | some c =>
        rw [hl] at h
        simp only at h
        split at h
        · injection h with h1 h2
          exact ⟨h1.symm, by omega⟩
        · obtain ⟨h1, h2⟩ := ih _ _ _ _ _ h
          exact ⟨h1, by omega⟩

theorem strlen?_lt :
    ∀ (d : List Nat) (c : Nat), strlen? d = some c → c < d.length := by
  intro d
  induction d with
  | nil => intro c h; simp [strlen?] at h
  | cons x xs ih =>
    intro c h
    unfold strlen? at h
    split at h
    · injection h with h
      subst h
      simp
    · cases hx : strlen? xs with
      | none => rw [hx] at h; simp at h
      | some c1 =>
        rw [hx] at h
        simp only [Option.map_some', Option.some.injEq] at h
        subst h
        have := ih c1 hx
        simp only [List.length_cons]
        omega

theorem smb1_while_fuel (name : List Nat) (i : Nat) :
    ∀ (fuel1 fuel2 : Nat) (bcount : Int) (dialects : List Nat) (idx : Nat),
      dialects.length < fuel1 → dialects.length < fuel2 →
      smb1_while name i fuel1 bcount dialects idx =
        smb1_while name i fuel2 bcount dialects idx := by
  intro fuel1
  induction fuel1 with
  | zero => intro fuel2 bcount dialects idx h1; omega
  | succ f1 ih =>
    intro fuel2 bcount dialects idx h1 h2
    cases fuel2 with
    | zero => omega
    | succ f2 =>
      unfold smb1_while
      split
      · rfl
      · cases hl : strlen? dialects with
        | none => rfl
        | some c =>
          simp only
          split
          · rfl
          · have hc := strlen?_lt dialects c hl
            apply ih
            · simp only [List.length_drop]; omega
            · simp only [List.length_drop]; omega

theorem strlen?_encoded (s rest : List Nat) (hs : ∀ x ∈ s, x ≠ 0) :
    strlen? (s ++ 0 :: rest) = some s.length := by
  induction s with
  | nil => simp [strlen?]
  | cons a s ih =>
    have ha : a ≠ 0 := hs a (List.mem_cons_self a s)
    have ih1 := ih (fun x hx => hs x (List.mem_cons_of_mem a hx))
    simp [strlen?, ha, ih1]

theorem strncmp_append (s t : List Nat) :
    ∀ (name : List Nat), strncmp (s ++ t) name s.length = strncmp s name s.length := by
  induction s with
  | nil => intro name; simp [strncmp]
  | cons a s ih =>
    intro name
    simp only [List.cons_append, List.length_cons, strncmp, List.headD_cons, List.tail_cons]
    rw [ih]

theorem strncmp_eq_zero_iff_initial (s : List Nat) (hs : ∀ x ∈ s, x ≠ 0) :
    ∀ (name : List Nat), strncmp s name s.length = 0 ↔ s <+: name := by
  induction s with
  | nil => intro name; simp [strncmp]
  | cons a s ih =>
    intro name
    have ha : a ≠ 0 := hs a (List.mem_cons_self a s)
    have ih1 := ih (fun x hx => hs x (List.mem_cons_of_mem a hx))
    cases name with
    | nil =>
      simp only [List.length_cons, strncmp, List.headD_cons, List.headD_nil]
      simp [ha]
    | cons c name =>
      simp only [List.length_cons, strncmp, List.headD_cons, List.tail_cons]
      by_cases hac : a = c
      · subst hac
        simp only [ne_eq, not_true_eq_false, if_false, if_neg ha]
        rw [ih1 name]
        simp [List.cons_prefix_cons]
      · simp only [ne_eq, hac, not_false_eq_true, if_true]
        constructor
        · intro h
          exfalso
          apply hac
          have : (a : Int) = (c : Int) := by omega
          exact_mod_cast this
        · intro h
          exfalso
          rw [List.cons_prefix_cons] at h
          exact hac h.1

theorem firstMatch_none (name : List Nat) :
    ∀ (strs : List (List Nat)), (∀ t ∈ strs, strncmp t name t.length ≠ 0) →
      firstMatch name strs = none := by
  intro strs
  induction strs with
  | nil => intro _; rfl
  | cons s ss ih =>
    intro h
    unfold firstMatch
    rw [if_neg (h s (List.mem_cons_self s ss)), ih (fun t ht => h t (List.mem_cons_of_mem s ht))]
    rfl

theorem firstMatch_some (name : List Nat) :
    ∀ (strs : List (List Nat)) (j : Nat) (s : List Nat), strs[j]? = some s →
      strncmp s name s.length = 0 →
      (∀ j' t, j' < j → strs[j']? = some t → strncmp t name t.length ≠ 0) →
      firstMatch name strs = some j := by
  intro strs
  induction strs with
  | nil => intro j s h; simp at h
  | cons a ss ih =>
    intro j s hj hm hb
    cases j with
    | zero =>
      simp only [List.getElem?_cons_zero, Option.some.injEq] at hj
      subst hj
      simp [firstMatch, hm]
    | succ j =>
      simp only [List.getElem?_cons_succ] at hj
      have ha : strncmp a name a.length ≠ 0 := hb 0 a (by omega) (by simp)
      have ih1 := ih j s hj hm (fun j' t h1 h2 => hb (j' + 1) t (by omega) (by simpa using h2))
      simp [firstMatch, ha, ih1]

theorem encodeDialects_length_pos (s : List Nat) (ss : List (List Nat)) :
    (encodeDialects (s :: ss)).length = s.length + 1 + (encodeDialects ss).length := by
  simp only [encodeDialects, List.length_append, List.length_cons]
  omega

theorem firstMatch_cons (name s : List Nat) (ss : List (List Nat)) :
    firstMatch name (s :: ss) =
      if strncmp s name s.length = 0 then some 0 else (firstMatch name ss).map (· + 1) := rfl

theorem length_le_encodeDialects :
    ∀ (strs : List (List Nat)), strs.length ≤ (encodeDialects strs).length := by
  intro strs
  induction strs with
  | nil => simp
  | cons s ss ih =>
    have h := encodeDialects_length_pos s ss
    simp only [List.length_cons]
    omega

theorem smb1_while_encoded (name : List Nat) (i : Nat) :
    ∀ (strs : List (List Nat)) (tail : List Nat) (fuel idx : Nat),
      (∀ s ∈ strs, ∀ x ∈ s, x ≠ 0) → strs.length < fuel →
      smb1_while name i fuel ((encodeDialects strs).length : Int)
          (encodeDialects strs ++ tail) idx =
        match firstMatch name strs with
        | some j => Scan.hit i (idx + j)
        | none => Scan.miss := by
  intro strs
  induction strs with
  | nil =>
    intro tail fuel idx _ hf
    cases fuel with
    | zero => omega
    | succ f => simp [smb1_while, encodeDialects, firstMatch]
  | cons s ss ih =>
    intro tail fuel idx hn hf
    cases fuel with
    | zero => omega
    | succ f =>
      have hs : ∀ x ∈ s, x ≠ 0 := hn s (List.mem_cons_self s ss)
      have hss : ∀ t ∈ ss, ∀ x ∈ t, x ≠ 0 := fun t ht => hn t (List.mem_cons_of_mem s ht)
      have hf1 : ss.length < f := by simp only [List.length_cons] at hf; omega
      have hbuf : encodeDialects (s :: ss) ++ tail = s ++ 0 :: (encodeDialects ss ++ tail) := by
        simp [encodeDialects]
      have hlen := encodeDialects_length_pos s ss
      have hne : ((encodeDialects (s :: ss)).length : Int) ≠ 0 := by omega
      unfold smb1_while
      rw [if_neg hne, hbuf, strlen?_encoded s _ hs]
      simp only
      rw [strncmp_append]
      by_cases hm : strncmp s name s.length = 0
      · rw [if_pos hm, firstMatch_cons, if_pos hm]
        rfl
      · rw [if_neg hm]
        have hdrop : List.drop (s.length + 1) (s ++ 0 :: (encodeDialects ss ++ tail)) =
            encodeDialects ss ++ tail := by
          rw [List.drop_append]
          rfl
        have hbc : ((encodeDialects (s :: ss)).length : Int) - ((s.length : Int) + 1) =
            ((encodeDialects ss).length : Int) := by omega
        rw [hdrop, hbc, ih tail f (idx + 1) hss hf1, firstMatch_cons, if_neg hm]
        cases firstMatch name ss with
        | none => rfl
        | some j =>
          simp only [Option.map_some']
          congr 1
          omega

/-! ## Negotiation: results -/

theorem find_matching_smb2_dialect_of_selected (ids : ProtIds) (mn mx start : Int)
    (cli : List Nat) (n k : Nat) (h : smb2_selected ids mn mx start cli n = some k) :
    find_matching_smb2_dialect ids mn mx start cli n = some (prot_id_at ids k) := by
  unfold smb2_selected at h
  unfold find_matching_smb2_dialect
  cases hs : smb2_scan ids start cli n with
  | oob => rw [hs] at h; simp [selected] at h
  | miss => rw [hs] at h; simp [selected] at h
  | hit i pos =>
    rw [hs] at h
    simp only [selected] at h
    simp only
    split at h
    · rename_i hr
      injection h with h
      subst h
      rw [if_pos hr]
    · simp at h

theorem find_matching_smb1_dialect_of_selected (ids : ProtIds) (mn mx start : Int)
    (buf : List Nat) (bc k : Nat) (h : smb1_selected ids mn mx start buf bc = some k) :
    ∃ pos, smb1_scan ids start buf bc = Scan.hit k pos ∧
      find_matching_smb1_dialect ids mn mx start buf bc =
        some (if k = CIFS_PROT then pos else prot_id_at ids k) := by
  unfold smb1_selected at h
  unfold find_matching_smb1_dialect
  split at h
  · simp at h
  · rename_i hg
    rw [if_neg hg]
    cases hs : smb1_scan ids start buf bc with
    | oob => rw [hs] at h; simp [selected] at h
    | miss => rw [hs] at h; simp [selected] at h
    | hit i pos =>
      rw [hs] at h
      simp only [selected] at h
      split at h
      · rename_i hr
        injection h with h
        subst h
        refine ⟨pos, rfl, ?_⟩
        simp only
        rw [if_pos hr]
        split <;> rfl
      · simp at h

theorem forDownFrom_exit (lo : Nat) (body : Nat → Scan) (start : Int) (r : Scan)
    (h : forDownFrom lo body start = r) (hr : r ≠ Scan.miss) :
    ∃ i, lo ≤ i ∧ (i : Int) ≤ start ∧ body i = r ∧
      ∀ k, i < k → (k : Int) ≤ start → body k = Scan.miss := by
  unfold forDownFrom at h
  split at h
  · exact absurd h.symm hr
  · rename_i hs
    obtain ⟨i, h1, h2, h3, h4⟩ := forDown_exit lo body start.toNat r h hr
    refine ⟨i, h1, by omega, h3, fun k hk1 hk2 => h4 k hk1 (by omega)⟩

/-- C1: the modern scan, started at the newest ordinal as `negotiate_dialect`
starts it, stops at the highest ordinal whose identifier the client offers even
when the server's range excludes that ordinal. For the offer of the identifiers
of SMB 3.1.1 and SMB 2.002 (0x0311 and 0x0202 on the wire) and the server range
from SMB2_PROT to SMB30_PROT it returns the no-match sentinel, whatever the
values of the identifier macros are, although ordinal SMB2_PROT lies in the
range and its identifier is in the client's list. -/
theorem smb2_scan_stops_outside_server_range (ids : ProtIds) :
    find_matching_smb2_dialect ids SMB2_PROT SMB30_PROT SMB311_PROT
        [ids.SMB311_PROT_ID, ids.SMB20_PROT_ID] 2 = some ids.BAD_PROT_ID ∧
      prot_id_at ids SMB2_PROT ∈ [ids.SMB311_PROT_ID, ids.SMB20_PROT_ID] ∧
      ((SMB2_PROT : Int) ≤ (SMB2_PROT : Int) ∧ (SMB2_PROT : Int) ≤ (SMB30_PROT : Int)) ∧
      find_matching_smb2_dialect wireIds SMB2_PROT SMB30_PROT SMB311_PROT [0x0311, 0x0202] 2 =
        some 0xFFFF ∧
      negotiate_dialect wireIds SMB2_PROT SMB30_PROT (NegotiateReq.smb2 [0x0311, 0x0202] 2) =
        some 0xFFFF ∧
      smb2_scan wireIds SMB311_PROT [0x0311, 0x0202] 2 = Scan.hit SMB311_PROT 0 ∧
      prot_id_at wireIds SMB2_PROT = 0x0202 := by
  have hs : smb2_scan ids SMB311_PROT [ids.SMB311_PROT_ID, ids.SMB20_PROT_ID] 2 =
        Scan.hit 6 0 ∨
      smb2_scan ids SMB311_PROT [ids.SMB311_PROT_ID, ids.SMB20_PROT_ID] 2 = Scan.hit 6 1 := by
    by_cases h : ids.SMB20_PROT_ID = ids.SMB311_PROT_ID
    · right
      simp [smb2_scan, forDownFrom, forDown, smb2_body, protocols, smb2_while, SMB311_PROT,
        SMB2_PROT, h]
    · left
      simp [smb2_scan, forDownFrom, forDown, smb2_body, protocols, smb2_while, SMB311_PROT,
        SMB2_PROT, h]
  refine ⟨?_, ?_, by decide, by decide, by decide, by decide, by decide⟩
  · unfold find_matching_smb2_dialect
    rcases hs with hs | hs <;> rw [hs] <;> simp [SMB30_PROT]
  · simp [prot_id_at, protocols, SMB2_PROT]

/-- C7: whenever a negotiation scan, modern or legacy, returns a value other
than the no-match sentinel, the loops were left at a table ordinal whose entry
matched (the inner loop took the `goto out` there) and that ordinal lies within
the server range. -/
theorem negotiated_ordinal_within_range (ids : ProtIds) (mn mx start : Int) :
    (∀ (cli : List Nat) (n r : Nat),
        find_matching_smb2_dialect ids mn mx start cli n = some r → r ≠ ids.BAD_PROT_ID →
        ∃ i pos, smb2_scan ids start cli n = Scan.hit i pos ∧
          smb2_body ids cli n i = Scan.hit i pos ∧ mn ≤ (i : Int) ∧ (i : Int) ≤ mx) ∧
    (∀ (buf : List Nat) (bc r : Nat),
        find_matching_smb1_dialect ids mn mx start buf bc = some r → r ≠ ids.BAD_PROT_ID →
        ∃ i pos, smb1_scan ids start buf bc = Scan.hit i pos ∧
          smb1_body ids buf bc i = Scan.hit i pos ∧ mn ≤ (i : Int) ∧ (i : Int) ≤ mx) := by
  constructor
  · intro cli n r h hr
    unfold find_matching_smb2_dialect at h
    cases hs : smb2_scan ids start cli n with
    | oob => rw [hs] at h; simp at h
    | miss => rw [hs] at h; simp only [Option.some.injEq] at h; exact absurd h.symm hr
    | hit i pos =>
      rw [hs] at h
      simp only at h
      split at h
      · rename_i hrange
        obtain ⟨k, _, _, hk, _⟩ :=
          forDownFrom_exit SMB2_PROT (smb2_body ids cli n) start _ hs (by simp)
        have hki : k = i := by
          unfold smb2_body at hk
          cases hp : (protocols ids)[k]? with
          | none => rw [hp] at hk; simp at hk
          | some p =>
            rw [hp] at hk
            exact ((smb2_while_hit _ _ _ _ _ _ hk).1).symm
        subst hki
        exact ⟨k, pos, rfl, hk, hrange.1, hrange.2⟩
      · simp only [Option.some.injEq] at h; exact absurd h.symm hr
  · intro buf bc r h hr
    unfold find_matching_smb1_dialect at h
    split at h
    · simp only [Option.some.injEq] at h; exact absurd h.symm hr
    · cases hs : smb1_scan ids start buf bc with
      | oob => rw [hs] at h; simp at h
      | miss => rw [hs] at h; simp only [Option.some.injEq] at h; exact absurd h.symm hr
      | hit i pos =>
        rw [hs] at h
        simp only at h
        split at h
        · rename_i hrange
          obtain ⟨k, _, _, hk, _⟩ :=
            forDownFrom_exit CIFS_PROT (smb1_body ids buf bc) start _ hs (by simp)
          have hki : k = i := by
            unfold smb1_body at hk
            cases hp : (protocols ids)[k]? with
            | none => rw [hp] at hk; simp at hk
            | some p =>
              rw [hp] at hk
              exact ((smb1_while_hit _ _ _ _ _ _ _ _ hk).1).symm
          subst hki
          exact ⟨k, pos, rfl, hk, hrange.1, hrange.2⟩
        · simp only [Option.some.injEq] at h; exact absurd h.symm hr

/-- C7 at a concrete offer: SMB 3.1.1 offered to a server supporting ordinals 1 to 6. -/
theorem negotiated_ordinal_within_range_witness :
    ∃ i pos, smb2_scan wireIds 6 [0x0311] 1 = Scan.hit i pos ∧
      smb2_body wireIds [0x0311] 1 i = Scan.hit i pos ∧ (1 : Int) ≤ (i : Int) ∧ (i : Int) ≤ 6 :=
  (negotiated_ordinal_within_range wireIds 1 6 6).1 [0x0311] 1 0x0311 (by decide) (by decide)

/-- C8: negotiation is monotone in the server range. When the range from a to b
lies inside the range from a' to b' and negotiation under the former selects
ordinal k, negotiation under the latter selects an ordinal as well, and it is at
least k; for modern and for legacy offers. -/
theorem negotiation_monotone_in_range (ids : ProtIds) (a b a' b' start : Int)
    (ha : a' ≤ a) (hb : b ≤ b') :
    (∀ (cli : List Nat) (n k : Nat), smb2_selected ids a b start cli n = some k →
        ∃ k', smb2_selected ids a' b' start cli n = some k' ∧ k ≤ k') ∧
    (∀ (buf : List Nat) (bc k : Nat), smb1_selected ids a b start buf bc = some k →
        ∃ k', smb1_selected ids a' b' start buf bc = some k' ∧ k ≤ k') := by
  have key : ∀ (sc : Scan) (k : Nat), selected a b sc = some k →
      selected a' b' sc = some k := by
    intro sc k h
    cases sc with
    | oob => simp [selected] at h
    | miss => simp [selected] at h
    | hit i pos =>
      simp only [selected] at h ⊢
      split at h
      · rename_i hr
        injection h with h
        subst h
        rw [if_pos ⟨by omega, by omega⟩]
      · simp at h
  constructor
  · intro cli n k h
    exact ⟨k, key _ k h, le_refl k⟩
  · intro buf bc k h
    unfold smb1_selected at h ⊢
    split at h
    · simp at h
    · rename_i hg
      rw [if_neg hg]
      exact ⟨k, key _ k h, le_refl k⟩

/-- C8 at a concrete offer: widening the range from 1..4 to 0..6. -/
theorem negotiation_monotone_in_range_witness :
    ∃ k', smb2_selected wireIds 0 6 6 [0x0202, 0x0300] 2 = some k' ∧ 4 ≤ k' :=
  (negotiation_monotone_in_range wireIds 1 4 0 6 6 (by decide) (by decide)).1
    [0x0202, 0x0300] 2 4 (by decide)

theorem smb1_body_encoded (ids : ProtIds) (strs : List (List Nat)) (tail : List Nat)
    (hnul : ∀ s ∈ strs, ∀ x ∈ s, x ≠ 0) (hlen : (encodeDialects strs).length < 65536)
    (k : Nat) (q : Protocol) (hq : (protocols ids)[k]? = some q) :
    smb1_body ids (encodeDialects strs ++ tail) (encodeDialects strs).length k =
      match firstMatch q.name strs with
      | some j => Scan.hit k (0 + j)
      | none => Scan.miss := by
  unfold smb1_body
  rw [hq]
  simp only
  rw [Nat.mod_eq_of_lt hlen]
  apply smb1_while_encoded q.name k strs tail _ 0 hnul
  have h := length_le_encodeDialects strs
  simp only [List.length_append]
  omega

/-- C9: for a well-formed legacy offer (NUL-free strings, each followed by its
NUL, the declared byte count being the length of the whole) whose selected
ordinal i lies in the server range, where i is the highest ordinal from the
start index down for which the comparison of the scan accepts a client string
and j the position of the first string accepted there, the result is j when i
is CIFS_PROT and the numeric protocol id of row i otherwise. -/
theorem legacy_result_of_selected_ordinal (ids : ProtIds) (mn mx : Int) (start : Nat)
    (strs : List (List Nat)) (tail : List Nat) (i j : Nat) (p : Protocol) (s : List Nat)
    (hstart : start < (protocols ids).length)
    (hnul : ∀ t ∈ strs, ∀ x ∈ t, x ≠ 0)
    (hlen : (encodeDialects strs).length < 65536)
    (hi : i ≤ start) (hp : (protocols ids)[i]? = some p)
    (hrange : mn ≤ (i : Int) ∧ (i : Int) ≤ mx)
    (hhigher : ∀ k q, i < k → k ≤ start → (protocols ids)[k]? = some q →
      ∀ t ∈ strs, strncmp t q.name t.length ≠ 0)
    (hj : strs[j]? = some s) (hmatch : strncmp s p.name s.length = 0)
    (hbefore : ∀ j' t, j' < j → strs[j']? = some t → strncmp t p.name t.length ≠ 0) :
    find_matching_smb1_dialect ids mn mx start (encodeDialects strs ++ tail)
        (encodeDialects strs).length =
      some (if i = CIFS_PROT then j else p.prot_id) := by
  have hbi : smb1_body ids (encodeDialects strs ++ tail) (encodeDialects strs).length i =
      Scan.hit i j := by
    rw [smb1_body_encoded ids strs tail hnul hlen i p hp,
      firstMatch_some p.name strs j s hj hmatch hbefore]
    simp
  have hbk : ∀ k, i < k → k ≤ start →
      smb1_body ids (encodeDialects strs ++ tail) (encodeDialects strs).length k =
        Scan.miss := by
    intro k hk1 hk2
    have hkl : k < (protocols ids).length := by omega
    have hq : (protocols ids)[k]? = some ((protocols ids)[k]) := List.getElem?_eq_getElem hkl
    rw [smb1_body_encoded ids strs tail hnul hlen k _ hq,
      firstMatch_none _ strs (hhigher k _ hk1 hk2 hq)]
  have hscan : smb1_scan ids (start : Int) (encodeDialects strs ++ tail)
      (encodeDialects strs).length = Scan.hit i j := by
    unfold smb1_scan forDownFrom
    rw [if_neg (by omega), Int.toNat_ofNat,
      forDown_first CIFS_PROT _ i (Nat.zero_le i) (by rw [hbi]; simp) start hi hbk, hbi]
  unfold find_matching_smb1_dialect
  rw [if_neg (by omega), hscan]
  simp only
  rw [if_pos hrange]
  split
  · rfl
  · unfold prot_id_at
    rw [hp]

/-- C9 at two concrete offers: NT LM 0.12 in second position selects CIFS_PROT
and yields position 1; SMB 2.002 selects ordinal 1 and yields its protocol id. -/
theorem legacy_result_of_selected_ordinal_witness :
    find_matching_smb1_dialect wireIds 0 6 6
        (encodeDialects [cbytes "\x02LANMAN1.0", cbytes "\x02NT LM 0.12"] ++ [])
        (encodeDialects [cbytes "\x02LANMAN1.0", cbytes "\x02NT LM 0.12"]).length =
      some (if 0 = CIFS_PROT then 1 else 0) :=
  legacy_result_of_selected_ordinal wireIds 0 6 6
    [cbytes "\x02LANMAN1.0", cbytes "\x02NT LM 0.12"] [] 0 1
    ⟨CIFS_PROT, cbytes "\x02NT LM 0.12", cbytes "NT1", 0⟩ (cbytes "\x02NT LM 0.12")
    (by decide) (by decide) (by decide) (by decide) (by decide) (by decide)
    (by
      intro k q h1 h2 hq t ht
      have hk : k = 1 ∨ k = 2 ∨ k = 3 ∨ k = 4 ∨ k = 5 ∨ k = 6 := by omega
      have ht2 : t = cbytes "\x02LANMAN1.0" ∨ t = cbytes "\x02NT LM 0.12" := by
        simpa using ht
      rcases hk with rfl | rfl | rfl | rfl | rfl | rfl <;>
        (injection hq with hq; subst hq; rcases ht2 with rfl | rfl <;> decide))
    (by decide) (by decide)
    (by
      intro j' t h1 h2
      have hj0 : j' = 0 := by omega
      subst hj0
      injection h2 with h2
      subst h2
      decide)

/-- C10: the legacy scan compares only as many bytes as the client's string is
long, so it accepts a client string that is a proper initial segment of a table
name. For the offer consisting of the one string "\x02SMB 3.0" it treats ordinal
SMB302_PROT, whose name is "\x02SMB 3.02", as offered and returns its protocol
id, whatever the values of the identifier macros are, although no string of the
offer equals that name. -/
theorem smb1_scan_accepts_shorter_string (ids : ProtIds) :
    find_matching_smb1_dialect ids 0 6 SMB311_PROT
        (encodeDialects [cbytes "\x02SMB 3.0"]) 9 = some ids.SMB302_PROT_ID ∧
      smb1_scan ids SMB311_PROT (encodeDialects [cbytes "\x02SMB 3.0"]) 9 =
        Scan.hit SMB302_PROT 0 ∧
      (protocols ids)[SMB302_PROT]?.map (·.name) = some (cbytes "\x02SMB 3.02") ∧
      cbytes "\x02SMB 3.02" ∉ [cbytes "\x02SMB 3.0"] ∧
      (encodeDialects [cbytes "\x02SMB 3.0"]).length = 9 ∧
      find_matching_smb1_dialect wireIds 0 6 SMB311_PROT
        (encodeDialects [cbytes "\x02SMB 3.0"]) 9 = some 0x0302 :=
  ⟨rfl, rfl, rfl, by decide, rfl, rfl⟩

/-! ## Request buffers: the three paths -/

/-- C3: with L the large-buffer bound and O the oversized bound, L at most O,
and buffers that hold the bytes read so far, `switch_req_buf` takes exactly one
path for every declared PDU length p: it switches to the large fixed buffer
(returns 0 with `large_buf` set) iff p is at most L; it takes the oversized path
(returns 0 with the oversized buffer installed and the fixed buffers released,
or -ENOMEM with NULL stored in `wbuf` when the allocation fails) iff p is above
L and at most O; it rejects with -ECONNABORTED, the connection untouched, iff p
is above O. -/
theorem switch_req_buf_paths (bp : BufParams) (vmalloc : Option (List Nat))
    (server : tcp_server_info) (buf big : List Nat)
    (hLO : largeLimit bp ≤ oversizeLimit bp)
    (hsmall : server.smallbuf = some buf) (hbig : server.bigbuf = some big)
    (hr1 : server.total_read ≤ buf.length) (hr2 : server.total_read ≤ big.length)
    (hw : ∀ w, vmalloc = some w → server.total_read ≤ w.length) :
    (u32 (bp.get_rfc1002_length buf) ≤ largeLimit bp ↔
        switch_req_buf bp vmalloc server =
          some (0, { server with
            large_buf := true,
            bigbuf := some (buf.take server.total_read ++ big.drop server.total_read) })) ∧
    (largeLimit bp < u32 (bp.get_rfc1002_length buf) ∧
        u32 (bp.get_rfc1002_length buf) ≤ oversizeLimit bp ↔
        (vmalloc = none ∧ switch_req_buf bp vmalloc server =
          some (-(ENOMEM : Int), { server with wbuf := none })) ∨
        (∃ w, vmalloc = some w ∧ switch_req_buf bp vmalloc server =
          some (0, { server with
            wbuf := some (buf.take server.total_read ++ w.drop server.total_read),
            large_buf := false, smallbuf := none, bigbuf := none }))) ∧
    (oversizeLimit bp < u32 (bp.get_rfc1002_length buf) ↔
        switch_req_buf bp vmalloc server = some (-(ECONNABORTED : Int), server)) := by
  by_cases h1 : u32 (bp.get_rfc1002_length buf) ≤ largeLimit bp
  · have hres : switch_req_buf bp vmalloc server =
        some (0, { server with
          large_buf := true,
          bigbuf := some (buf.take server.total_read ++ big.drop server.total_read) }) := by
      simp [switch_req_buf, hsmall, hbig, h1, memcpy, hr1, hr2]
    rw [hres]
    refine ⟨by simp [h1], ?_, ?_⟩
    · constructor
      · intro h; omega
      · intro h
        rcases h with ⟨_, h⟩ | ⟨w, _, h⟩
        · simp [ENOMEM] at h
        · simp at h
    · constructor
      · intro h; omega
      · intro h; simp [ECONNABORTED] at h
  · by_cases h2 : u32 (bp.get_rfc1002_length buf) ≤ oversizeLimit bp
    · cases hv : vmalloc with
      | none =>
        have hres : switch_req_buf bp none server =
            some (-(ENOMEM : Int), { server with wbuf := none }) := by
          simp [switch_req_buf, hsmall, h1, h2]
        rw [hres]
        refine ⟨?_, ?_, ?_⟩
        · simp [h1, ENOMEM]
        · simp [h2]; omega
        · simp [ENOMEM, ECONNABORTED]; omega
      | some w =>
        have hwl : server.total_read ≤ w.length := hw w hv
        have hres : switch_req_buf bp (some w) server =
            some (0, { server with
              wbuf := some (buf.take server.total_read ++ w.drop server.total_read),
              large_buf := false, smallbuf := none, bigbuf := none }) := by
          simp [switch_req_buf, hsmall, h1, h2, memcpy, hr1, hwl]
        rw [hres]
        refine ⟨?_, ?_, ?_⟩
        · simp [h1]
        · simp [h2]; omega
        · simp [ECONNABORTED]; omega
    · have hres : switch_req_buf bp vmalloc server =
          some (-(ECONNABORTED : Int), server) := by
        simp [switch_req_buf, hsmall, h1, h2]
      rw [hres]
      refine ⟨?_, ?_, ?_⟩
      · simp [h1, ECONNABORTED]
      · constructor
        · intro h; omega
        · intro h
          rcases h with ⟨_, h⟩ | ⟨w, _, h⟩
          · simp [ENOMEM, ECONNABORTED] at h
          · simp [ECONNABORTED] at h
      · simp; omega

/-! ## Share modes -/

theorem strcmp_eq_zero_iff :
    ∀ (s1 s2 : List Nat), strcmp s1 s2 = 0 ↔ cstring s1 = cstring s2 := by
  intro s1
  induction s1 with
  | nil =>
    intro s2
    cases s2 with
    | nil => simp [strcmp, cstring]
    | cons c t =>
      by_cases hc : c = 0
      · simp [strcmp, cstring, hc]
      · simp [strcmp, cstring, hc, List.takeWhile_cons]
  | cons a s ih =>
    intro s2
    cases s2 with
    | nil =>
      by_cases ha : a = 0
      · simp [strcmp, cstring, ha]
      · simp only [strcmp, List.headD_nil, cstring]
        simp [ha, List.takeWhile_cons]
    | cons c t =>
      simp only [strcmp, List.headD_cons, List.tail_cons]
      by_cases hac : a = c
      · subst hac
        by_cases ha : a = 0
        · simp [cstring, ha]
        · simp only [ne_eq, not_true_eq_false, if_false, if_neg ha]
          rw [ih t]
          simp [cstring, ha, List.takeWhile_cons]
      · simp only [ne_eq, hac, not_false_eq_true, if_true]
        constructor
        · intro h
          exfalso
          apply hac
          have : (a : Int) = (c : Int) := by omega
          exact_mod_cast this
        · intro h
          exfalso
          by_cases ha : a = 0
          · have hc : c ≠ 0 := fun hc => hac (by rw [ha, hc])
            simp [cstring, ha, hc, List.takeWhile_cons] at h
          · by_cases hc : c = 0
            · simp [cstring, ha, hc, List.takeWhile_cons] at h
            · simp [cstring, ha, hc, List.takeWhile_cons] at h
              exact hac h.1

theorem land_lor_ne_zero (x m n : Nat) (h : x &&& m ≠ 0) : x &&& (m ||| n) ≠ 0 := by
  intro h2
  apply h
  apply Nat.eq_of_testBit_eq
  intro i
  have h3 := congrArg (fun k => Nat.testBit k i) h2
  simp only [Nat.testBit_land, Nat.testBit_lor, Nat.zero_testBit] at h3 ⊢
  cases hx : x.testBit i <;> cases hm : m.testBit i <;> simp_all

theorem ite_brk_rc (P Q : Prop) [Decidable P] (rc : Int) (p c : cifsd_file) (X : Step)
    (hX : (Q → X.rc = rc) ∧ (¬ Q → X.rc = 0)) :
    ((P ∨ Q) → (if P then Step.brk rc p c else X).rc = rc) ∧
    (¬ (P ∨ Q) → (if P then Step.brk rc p c else X).rc = 0) := by
  by_cases hP : P
  · rw [if_pos hP]
    exact ⟨fun _ => rfl, fun h => absurd (Or.inl hP) h⟩
  · rw [if_neg hP]
    exact ⟨fun h => hX.1 (h.resolve_left hP), fun h => hX.2 (fun hq => h (Or.inr hq))⟩

theorem share_rules_rc (b : AccessBits) (p c : cifsd_file) :
    (((p.saccess &&& b.FILE_SHARE_READ_LE = 0 ∧ c.daccess &&& readMask b ≠ 0) ∨
      (p.saccess &&& b.FILE_SHARE_WRITE_LE = 0 ∧ c.daccess &&& writeMask b ≠ 0) ∨
      (p.daccess &&& readMask b ≠ 0 ∧ c.saccess &&& b.FILE_SHARE_READ_LE = 0) ∨
      (p.daccess &&& writeMask b ≠ 0 ∧ c.saccess &&& b.FILE_SHARE_WRITE_LE = 0) ∨
      (p.daccess &&& deleteMask b ≠ 0 ∧ c.saccess &&& b.FILE_SHARE_DELETE_LE = 0) ∨ False) →
        (share_rules b p c).rc = -(b.ESHARE : Int)) ∧
    (¬ ((p.saccess &&& b.FILE_SHARE_READ_LE = 0 ∧ c.daccess &&& readMask b ≠ 0) ∨
      (p.saccess &&& b.FILE_SHARE_WRITE_LE = 0 ∧ c.daccess &&& writeMask b ≠ 0) ∨
      (p.daccess &&& readMask b ≠ 0 ∧ c.saccess &&& b.FILE_SHARE_READ_LE = 0) ∨
      (p.daccess &&& writeMask b ≠ 0 ∧ c.saccess &&& b.FILE_SHARE_WRITE_LE = 0) ∨
      (p.daccess &&& deleteMask b ≠ 0 ∧ c.saccess &&& b.FILE_SHARE_DELETE_LE = 0) ∨ False) →
        (share_rules b p c).rc = 0) := by
  unfold share_rules
  exact ite_brk_rc _ _ _ _ _ _ (ite_brk_rc _ _ _ _ _ _ (ite_brk_rc _ _ _ _ _ _
    (ite_brk_rc _ _ _ _ _ _ (ite_brk_rc _ _ _ _ _ _ ⟨fun h => h.elim, fun _ => rfl⟩))))

theorem share_rules_conflict (b : AccessBits) (p c : cifsd_file) (x y : cifsd_file)
    (hxs : x.saccess = p.saccess) (hxd : x.daccess = p.daccess)
    (hys : y.saccess = c.saccess) (hyd : y.daccess = c.daccess) :
    (share_conflict b p c ∧
        ¬ (p.saccess &&& b.FILE_SHARE_DELETE_LE = 0 ∧ c.daccess &&& deleteMask b ≠ 0) →
        (share_rules b x y).rc = -(b.ESHARE : Int)) ∧
      (¬ share_conflict b p c → (share_rules b x y).rc = 0) := by
  refine ⟨?_, ?_⟩
  · intro h
    apply (share_rules_rc b x y).1
    rw [hxs, hxd, hys, hyd]
    unfold share_conflict forward_conflict at h
    tauto
  · intro h
    apply (share_rules_rc b x y).2
    rw [hxs, hxd, hys, hyd]
    unfold share_conflict forward_conflict at h
    tauto

theorem pending_and_share_rc (b : AccessBits) (p c : cifsd_file)
    (hp : p.delete_pending = false) (ha : p.attrib_only = c.attrib_only)
    (hs : ¬ (p.is_stream = true ∧ c.is_stream = false)) :
    (share_conflict b p c → (pending_and_share b p c).rc = -(b.ESHARE : Int)) ∧
    (¬ share_conflict b p c → (pending_and_share b p c).rc = 0) := by
  unfold pending_and_share
  simp only [hp, if_false, Bool.false_eq_true]
  rw [if_neg (not_not.mpr ha)]
  by_cases hfd : p.saccess &&& b.FILE_SHARE_DELETE_LE = 0 ∧ c.daccess &&& deleteMask b ≠ 0
  · rw [if_pos hfd]
    refine ⟨fun _ => rfl, fun h => absurd ?_ h⟩
    exact Or.inl (Or.inl hfd)
  · rw [if_neg hfd]
    cases habs : (p.is_stream && c.delete_on_close)
    · simp only [Bool.false_eq_true, if_false]
      have hns : ¬ (p.is_stream = true ∧ ¬ c.is_stream = true) := by
        intro h
        exact hs ⟨h.1, by simpa using h.2⟩
      rw [if_neg hns]
      have h := share_rules_conflict b p c p c rfl rfl rfl rfl
      exact ⟨fun hc => h.1 ⟨hc, hfd⟩, h.2⟩
    · simp only [if_true]
      have hns : ¬ (p.is_stream = true ∧ ¬ c.is_stream = true) := by
        intro h
        exact hs ⟨h.1, by simpa using h.2⟩
      rw [if_neg hns]
      have h := (share_rules_conflict b p c
        { p with delete_pending := true, delete_on_close := true }
        { c with delete_on_close := false } rfl rfl rfl rfl)
      exact ⟨fun hc => h.1 ⟨hc, hfd⟩, h.2⟩

theorem pending_and_share_attrib (b : AccessBits) (p c : cifsd_file)
    (hp : p.delete_pending = false) (ha : p.attrib_only ≠ c.attrib_only) :
    pending_and_share b p c = Step.next p c := by
  unfold pending_and_share
  simp only [hp, if_false, Bool.false_eq_true]
  rw [if_pos ha]

theorem share_conflict_comm (b : AccessBits) (p c : cifsd_file) :
    share_conflict b p c ↔ share_conflict b c p := by
  unfold share_conflict
  exact Or.comm

theorem pending_and_share_rc_symm (b : AccessBits) (x y : cifsd_file)
    (hx : x.delete_pending = false) (hy : y.delete_pending = false)
    (hs : x.is_stream = y.is_stream) :
    (pending_and_share b x y).rc = (pending_and_share b y x).rc := by
  by_cases ha : x.attrib_only = y.attrib_only
  · have h1 := pending_and_share_rc b x y hx ha (by rw [hs]; simp)
    have h2 := pending_and_share_rc b y x hy ha.symm (by rw [hs]; simp)
    by_cases hc : share_conflict b x y
    · rw [h1.1 hc, h2.1 ((share_conflict_comm b x y).1 hc)]
    · rw [h1.2 hc, h2.2 (fun h => hc ((share_conflict_comm b x y).2 h))]
  · rw [pending_and_share_attrib b x y hx ha,
      pending_and_share_attrib b y x hy (fun h => ha h.symm)]
    rfl

theorem smb_check_single_rc (b : AccessBits) (p c : cifsd_file) :
    (smb_check_shared_mode b p.inode [p] c).rc = (check_pair b p c).rc := by
  unfold smb_check_shared_mode
  rw [if_pos rfl]
  cases check_pair b p c <;> simp [smb_check_shared_mode, Step.rc]

theorem check_pair_plain (b : AccessBits) (p c : cifsd_file) (hp : p.is_stream = false) :
    check_pair b p c = pending_and_share b p c := by
  unfold check_pair
  rw [if_neg (by simp [hp])]

theorem keeps_ite (b : AccessBits) (c : cifsd_file) (P : Prop) [Decidable P] (X Y : Step)
    (hX : Step.keeps b c X) (hY : Step.keeps b c Y) :
    Step.keeps b c (if P then X else Y) := by
  split
  · exact hX
  · exact hY

theorem share_rules_keeps (b : AccessBits) (c x y : cifsd_file)
    (h1 : y.is_stream = c.is_stream) (h2 : y.stream_name = c.stream_name) :
    Step.keeps b c (share_rules b x y) := by
  unfold share_rules
  exact keeps_ite _ _ _ _ _ (Or.inl rfl) (keeps_ite _ _ _ _ _ (Or.inl rfl)
    (keeps_ite _ _ _ _ _ (Or.inl rfl) (keeps_ite _ _ _ _ _ (Or.inl rfl)
      (keeps_ite _ _ _ _ _ (Or.inl rfl) ⟨h1, h2⟩))))

theorem pending_and_share_keeps (b : AccessBits) (p c : cifsd_file) :
    Step.keeps b c (pending_and_share b p c) := by
  unfold pending_and_share
  refine keeps_ite _ _ _ _ _ ?_ (keeps_ite _ _ _ _ _ ?_ (keeps_ite _ _ _ _ _ ?_ ?_))
  · exact Or.inr rfl
  · exact ⟨rfl, rfl⟩
  · exact Or.inl rfl
  · cases (p.is_stream && c.delete_on_close)
    · simp only [Bool.false_eq_true, if_false]
      exact keeps_ite _ _ _ _ _ ⟨rfl, rfl⟩ (share_rules_keeps b c _ _ rfl rfl)
    · simp only [if_true]
      exact keeps_ite _ _ _ _ _ ⟨rfl, rfl⟩ (share_rules_keeps b c _ _ rfl rfl)

theorem check_pair_keeps (b : AccessBits) (p c : cifsd_file) :
    Step.keeps b c (check_pair b p c) := by
  unfold check_pair
  exact keeps_ite _ _ _ _ _
    (keeps_ite _ _ _ _ _ ⟨rfl, rfl⟩
      (keeps_ite _ _ _ _ _ (Or.inl rfl) (pending_and_share_keeps b p c)))
    (pending_and_share_keeps b p c)

theorem check_pair_pending (b : AccessBits) (p c : cifsd_file)
    (hp : p.delete_pending = true)
    (hs : ¬ (p.is_stream = true ∧ c.is_stream = true ∧
      cstring p.stream_name ≠ cstring c.stream_name)) :
    ∀ p1 c1, check_pair b p c ≠ Step.next p1 c1 := by
  intro p1 c1
  have hps : pending_and_share b p c = Step.brk (-(EBUSY : Int)) p c := by
    unfold pending_and_share
    rw [if_pos hp]
  unfold check_pair
  by_cases hb : p.is_stream = true ∧ c.is_stream = true
  · rw [if_pos hb]
    have hn : ¬ strcmp p.stream_name c.stream_name ≠ 0 := by
      intro h
      apply hs
      refine ⟨hb.1, hb.2, ?_⟩
      intro he
      exact h ((strcmp_eq_zero_iff _ _).2 he)
    rw [if_neg hn]
    split
    · simp
    · rw [hps]; simp
  · rw [if_neg hb, hps]
    simp

/-! ## Request buffers and share modes: the claims -/

/-- C3 at the sample connection: a declared length of 21 is one above the
large-buffer bound of 20. -/
theorem switch_req_buf_paths_witness :
    (u32 (sampleBuf.get_rfc1002_length [0, 0, 0, 21, 1, 2, 3, 4]) ≤ largeLimit sampleBuf ↔
        switch_req_buf sampleBuf (some [7, 7, 7, 7, 7, 7, 7, 7, 7]) sampleServer =
          some (0, { sampleServer with
            large_buf := true,
            bigbuf := some ([0, 0, 0, 21, 1, 2, 3, 4].take sampleServer.total_read ++
              [9, 9, 9, 9, 9, 9, 9, 9, 9, 9].drop sampleServer.total_read) })) ∧
    (largeLimit sampleBuf < u32 (sampleBuf.get_rfc1002_length [0, 0, 0, 21, 1, 2, 3, 4]) ∧
        u32 (sampleBuf.get_rfc1002_length [0, 0, 0, 21, 1, 2, 3, 4]) ≤ oversizeLimit sampleBuf ↔
        ((some [7, 7, 7, 7, 7, 7, 7, 7, 7] : Option (List Nat)) = none ∧
          switch_req_buf sampleBuf (some [7, 7, 7, 7, 7, 7, 7, 7, 7]) sampleServer =
            some (-(ENOMEM : Int), { sampleServer with wbuf := none })) ∨
        (∃ w, (some [7, 7, 7, 7, 7, 7, 7, 7, 7] : Option (List Nat)) = some w ∧
          switch_req_buf sampleBuf (some [7, 7, 7, 7, 7, 7, 7, 7, 7]) sampleServer =
            some (0, { sampleServer with
              wbuf := some ([0, 0, 0, 21, 1, 2, 3, 4].take sampleServer.total_read ++
                w.drop sampleServer.total_read),
              large_buf := false, smallbuf := none, bigbuf := none }))) ∧
    (oversizeLimit sampleBuf < u32 (sampleBuf.get_rfc1002_length [0, 0, 0, 21, 1, 2, 3, 4]) ↔
        switch_req_buf sampleBuf (some [7, 7, 7, 7, 7, 7, 7, 7, 7]) sampleServer =
          some (-(ECONNABORTED : Int), sampleServer)) :=
  switch_req_buf_paths sampleBuf (some [7, 7, 7, 7, 7, 7, 7, 7, 7]) sampleServer
    [0, 0, 0, 21, 1, 2, 3, 4] [9, 9, 9, 9, 9, 9, 9, 9, 9, 9]
    (by decide) rfl rfl (by decide) (by decide)
    (by
      intro w h
      injection h with h
      subst h
      decide)

/-- C2, the claim as stated fails: a holder that shares read and write (and
holds read access) still rejects a candidate that requests WRITE_DATA when the
candidate itself shares nothing, by the reverse read rule. -/
theorem write_share_does_not_admit_every_writer :
    (plainHandle 0x1 0x3).saccess &&& wireBits.FILE_SHARE_READ_LE ≠ 0 ∧
      (plainHandle 0x1 0x3).saccess &&& wireBits.FILE_SHARE_WRITE_LE ≠ 0 ∧
      (plainHandle 0x1 0x3).saccess &&& wireBits.FILE_SHARE_DELETE_LE = 0 ∧
      (plainHandle 0x2 0x0).daccess &&& wireBits.FILE_WRITE_DATA_LE ≠ 0 ∧
      (smb_check_shared_mode wireBits 1 [plainHandle 0x1 0x1] (plainHandle 0x2 0x0)).rc =
        -(wireBits.ESHARE : Int) ∧
      (smb_check_shared_mode wireBits 1 [plainHandle 0x1 0x3] (plainHandle 0x2 0x0)).rc =
        -(wireBits.ESHARE : Int) ∧
      (smb_check_shared_mode wireBits 1 [plainHandle 0x1 0x3] (plainHandle 0x2 0x0)).rc ≠ 0 := by
  decide

/-- C2, amended: for a single plain holder that is not delete-pending, has the
candidate's `attrib_only` and shares read but not delete, a candidate whose
desired access contains WRITE_DATA is rejected with -ESHARE when the holder does
not share write; when the holder shares write as well, the candidate is
admitted exactly when it requests no access of the delete mask and its own
share bits admit the access the holder has, and is rejected with -ESHARE
otherwise. -/
theorem write_share_rule_single_holder (b : AccessBits) (prev curr : cifsd_file)
    (hplain : prev.is_stream = false) (hpend : prev.delete_pending = false)
    (hattr : prev.attrib_only = curr.attrib_only)
    (hR : prev.saccess &&& b.FILE_SHARE_READ_LE ≠ 0)
    (hD : prev.saccess &&& b.FILE_SHARE_DELETE_LE = 0)
    (hwant : curr.daccess &&& b.FILE_WRITE_DATA_LE ≠ 0) (hE : b.ESHARE ≠ 0) :
    (prev.saccess &&& b.FILE_SHARE_WRITE_LE = 0 →
      (smb_check_shared_mode b prev.inode [prev] curr).rc = -(b.ESHARE : Int)) ∧
    (prev.saccess &&& b.FILE_SHARE_WRITE_LE ≠ 0 →
      ((smb_check_shared_mode b prev.inode [prev] curr).rc = 0 ↔
        (curr.daccess &&& deleteMask b = 0 ∧ ¬ forward_conflict b curr prev)) ∧
      ((smb_check_shared_mode b prev.inode [prev] curr).rc ≠ 0 →
        (smb_check_shared_mode b prev.inode [prev] curr).rc = -(b.ESHARE : Int))) := by
  rw [smb_check_single_rc, check_pair_plain b prev curr hplain]
  have hrc := pending_and_share_rc b prev curr hpend hattr (by simp [hplain])
  have hwm : curr.daccess &&& writeMask b ≠ 0 := by
    unfold writeMask
    exact land_lor_ne_zero _ _ _ (land_lor_ne_zero _ _ _ (land_lor_ne_zero _ _ _ hwant))
  have hEi : -(b.ESHARE : Int) ≠ 0 := by omega
  constructor
  · intro hW
    exact hrc.1 (Or.inl (Or.inr (Or.inr ⟨hW, hwm⟩)))
  · intro hW
    have hiff : share_conflict b prev curr ↔
        ¬ (curr.daccess &&& deleteMask b = 0 ∧ ¬ forward_conflict b curr prev) := by
      unfold share_conflict
      constructor
      · intro h hn
        rcases h with h | h
        · rcases h with h | h | h
          · exact h.2 hn.1
          · exact hR h.1
          · exact hW h.1
        · exact hn.2 h
      · intro h
        by_cases hd : curr.daccess &&& deleteMask b = 0
        · by_cases hf : forward_conflict b curr prev
          · exact Or.inr hf
          · exact absurd ⟨hd, hf⟩ h
        · exact Or.inl (Or.inl ⟨hD, hd⟩)
    constructor
    · constructor
      · intro h0
        by_contra hn
        have := hrc.1 (hiff.2 hn)
        rw [h0] at this
        exact hEi this.symm
      · intro hok
        exact hrc.2 (fun hc => hiff.1 hc hok)
    · intro hne
      by_cases hc : share_conflict b prev curr
      · exact hrc.1 hc
      · exact absurd (hrc.2 hc) hne

/-- C2 at a concrete pair: a reader sharing read only against a writer. -/
theorem write_share_rule_single_holder_witness :
    (smb_check_shared_mode wireBits (plainHandle 0x1 0x1).inode [plainHandle 0x1 0x1]
      (plainHandle 0x2 0x7)).rc = -(wireBits.ESHARE : Int) :=
  (write_share_rule_single_holder wireBits (plainHandle 0x1 0x1) (plainHandle 0x2 0x7)
    rfl rfl rfl (by decide) (by decide) (by decide) (by decide)).1 (by decide)

/-- C4, the claim as stated fails: with a stream handle that reads and shares
nothing and a plain handle that reads and shares everything, the plain candidate is admitted against the
existing stream, while the stream candidate is rejected against the existing
plain handle. -/
theorem share_verdict_depends_on_open_order :
    (smb_check_shared_mode wireBits 1 [streamHandle [115] 0x1 0x0] (plainHandle 0x1 0x7)).rc
        = 0 ∧
      (smb_check_shared_mode wireBits 1 [plainHandle 0x1 0x7] (streamHandle [115] 0x1 0x0)).rc
        = -(wireBits.ESHARE : Int) ∧
      ¬ ((smb_check_shared_mode wireBits 1 [streamHandle [115] 0x1 0x0]
            (plainHandle 0x1 0x7)).rc ≠ 0 ↔
          (smb_check_shared_mode wireBits 1 [plainHandle 0x1 0x7]
            (streamHandle [115] 0x1 0x0)).rc ≠ 0) := by
  decide

/-- C4, amended: for two handles on the same object, neither delete-pending,
that are both plain or both streams, and, when they are streams of the same
name, are both or neither opened with FILE_SUPERSEDE, the check returns the same
value whichever of the two is the existing handle and whichever the candidate;
in particular it reports a conflict in one order iff it does in the other. -/
theorem share_verdict_symmetric (b : AccessBits) (x y : cifsd_file)
    (hin : x.inode = y.inode)
    (hx : x.delete_pending = false) (hy : y.delete_pending = false)
    (hs : x.is_stream = y.is_stream)
    (hsup : x.is_stream = true → cstring x.stream_name = cstring y.stream_name →
      (x.cdoption = b.FILE_SUPERSEDE_LE ↔ y.cdoption = b.FILE_SUPERSEDE_LE)) :
    (smb_check_shared_mode b y.inode [x] y).rc = (smb_check_shared_mode b x.inode [y] x).rc ∧
    ((smb_check_shared_mode b y.inode [x] y).rc ≠ 0 ↔
      (smb_check_shared_mode b x.inode [y] x).rc ≠ 0) := by
  have key : (smb_check_shared_mode b y.inode [x] y).rc =
      (smb_check_shared_mode b x.inode [y] x).rc := by
    rw [← hin, smb_check_single_rc, hin, smb_check_single_rc]
    have hsym := pending_and_share_rc_symm b x y hx hy hs
    unfold check_pair
    by_cases hxs : x.is_stream = true
    · have hys : y.is_stream = true := by rw [← hs]; exact hxs
      have hxy : x.is_stream = true ∧ y.is_stream = true := ⟨hxs, hys⟩
      have hyx : y.is_stream = true ∧ x.is_stream = true := ⟨hys, hxs⟩
      rw [if_pos hxy, if_pos hyx]
      by_cases hn : cstring x.stream_name = cstring y.stream_name
      · have h1 : ¬ strcmp x.stream_name y.stream_name ≠ 0 :=
          fun h => h ((strcmp_eq_zero_iff _ _).2 hn)
        have h2 : ¬ strcmp y.stream_name x.stream_name ≠ 0 :=
          fun h => h ((strcmp_eq_zero_iff _ _).2 hn.symm)
        rw [if_neg h1, if_neg h2]
        by_cases hc : y.cdoption = b.FILE_SUPERSEDE_LE
        · rw [if_pos hc, if_pos ((hsup hxs hn).2 hc)]
          rfl
        · rw [if_neg hc, if_neg (fun h => hc ((hsup hxs hn).1 h))]
          exact hsym
      · have h1 : strcmp x.stream_name y.stream_name ≠ 0 :=
          fun h => hn ((strcmp_eq_zero_iff _ _).1 h)
        have h2 : strcmp y.stream_name x.stream_name ≠ 0 :=
          fun h => hn ((strcmp_eq_zero_iff _ _).1 h).symm
        rw [if_pos h1, if_pos h2]
        rfl
    · have hys : ¬ y.is_stream = true := by rw [← hs]; exact hxs
      have hxy : ¬ (x.is_stream = true ∧ y.is_stream = true) := fun h => hxs h.1
      have hyx : ¬ (y.is_stream = true ∧ x.is_stream = true) := fun h => hys h.1
      rw [if_neg hxy, if_neg hyx]
      exact hsym
  exact ⟨key, by rw [key]⟩

/-- C4 at a concrete pair of plain handles: a reader and a writer that share
everything. -/
theorem share_verdict_symmetric_witness :
    (smb_check_shared_mode wireBits (plainHandle 0x2 0x7).inode [plainHandle 0x1 0x7]
        (plainHandle 0x2 0x7)).rc =
      (smb_check_shared_mode wireBits (plainHandle 0x1 0x7).inode [plainHandle 0x2 0x7]
        (plainHandle 0x1 0x7)).rc ∧
    ((smb_check_shared_mode wireBits (plainHandle 0x2 0x7).inode [plainHandle 0x1 0x7]
        (plainHandle 0x2 0x7)).rc ≠ 0 ↔
      (smb_check_shared_mode wireBits (plainHandle 0x1 0x7).inode [plainHandle 0x2 0x7]
        (plainHandle 0x1 0x7)).rc ≠ 0) :=
  share_verdict_symmetric wireBits (plainHandle 0x1 0x7) (plainHandle 0x2 0x7)
    rfl rfl rfl rfl (by decide)

/-- C5: an existing stream handle and a stream candidate whose stream names
differ never conflict, whatever their access bits, share bits, create
dispositions and delete flags: the loop body passes the pair over unchanged, the
check against that handle alone returns 0, and in any hash chain the handle
leaves the outcome of the rest of the chain as it is. -/
theorem distinct_streams_never_conflict (b : AccessBits) (inode : Nat)
    (prev curr : cifsd_file) (rest : List cifsd_file)
    (hp : prev.is_stream = true) (hc : curr.is_stream = true)
    (hne : cstring prev.stream_name ≠ cstring curr.stream_name) :
    check_pair b prev curr = Step.next prev curr ∧
    smb_check_shared_mode b prev.inode [prev] curr = ⟨0, [prev], curr⟩ ∧
    smb_check_shared_mode b inode (prev :: rest) curr =
      ⟨(smb_check_shared_mode b inode rest curr).rc,
        prev :: (smb_check_shared_mode b inode rest curr).chain,
        (smb_check_shared_mode b inode rest curr).curr_fp⟩ := by
  have hpair : check_pair b prev curr = Step.next prev curr := by
    unfold check_pair
    have hb : prev.is_stream = true ∧ curr.is_stream = true := ⟨hp, hc⟩
    have hs : strcmp prev.stream_name curr.stream_name ≠ 0 :=
      fun h => hne ((strcmp_eq_zero_iff _ _).1 h)
    rw [if_pos hb, if_pos hs]
  refine ⟨hpair, ?_, ?_⟩
  · unfold smb_check_shared_mode
    rw [if_pos rfl, hpair]
    simp [smb_check_shared_mode]
  · rw [smb_check_shared_mode]
    by_cases hi : inode = prev.inode
    · rw [if_pos hi, hpair]
    · rw [if_neg hi]

/-- C5 at a concrete pair: two streams of one file, each requesting every access
and sharing nothing. -/
theorem distinct_streams_never_conflict_witness :
    check_pair wireBits (streamHandle [97] 0x12000000 0x0) (streamHandle [98] 0x12000000 0x0) =
        Step.next (streamHandle [97] 0x12000000 0x0) (streamHandle [98] 0x12000000 0x0) ∧
    smb_check_shared_mode wireBits (streamHandle [97] 0x12000000 0x0).inode
        [streamHandle [97] 0x12000000 0x0] (streamHandle [98] 0x12000000 0x0) =
      ⟨0, [streamHandle [97] 0x12000000 0x0], streamHandle [98] 0x12000000 0x0⟩ ∧
    smb_check_shared_mode wireBits 1 (streamHandle [97] 0x12000000 0x0 :: [])
        (streamHandle [98] 0x12000000 0x0) =
      ⟨(smb_check_shared_mode wireBits 1 [] (streamHandle [98] 0x12000000 0x0)).rc,
        streamHandle [97] 0x12000000 0x0 ::
          (smb_check_shared_mode wireBits 1 [] (streamHandle [98] 0x12000000 0x0)).chain,
        (smb_check_shared_mode wireBits 1 [] (streamHandle [98] 0x12000000 0x0)).curr_fp⟩ :=
  distinct_streams_never_conflict wireBits 1 (streamHandle [97] 0x12000000 0x0)
    (streamHandle [98] 0x12000000 0x0) [] rfl rfl (by decide)

/-- C6, the claim as stated fails: a delete-pending stream handle is passed over
for a candidate that opens another stream of the same file, and the check
returns 0. -/
theorem delete_pending_stream_admits_other_stream :
    (pendingStream [97]).delete_pending = true ∧
      (pendingStream [97]).inode = (streamHandle [98] 0x1 0x7).inode ∧
      pendingStream [97] ∈ [pendingStream [97]] ∧
      (smb_check_shared_mode wireBits 1 [pendingStream [97]] (streamHandle [98] 0x1 0x7)).rc
        = 0 := by
  decide

/-- C6, amended: whenever the hash chain holds a delete-pending handle on the
candidate's object that is not a stream handle whose stream name differs from
that of a stream candidate, the check returns a non-zero result, for every
candidate and every other content of the chain (ESHARE being a non-zero error
number). -/
theorem delete_pending_blocks_open (b : AccessBits) (inode : Nat) (hE : b.ESHARE ≠ 0) :
    ∀ (chain : List cifsd_file) (curr pend : cifsd_file),
      pend ∈ chain → pend.inode = inode → pend.delete_pending = true →
      ¬ (pend.is_stream = true ∧ curr.is_stream = true ∧
        cstring pend.stream_name ≠ cstring curr.stream_name) →
      (smb_check_shared_mode b inode chain curr).rc ≠ 0 := by
  intro chain
  induction chain with
  | nil => intro curr pend hm; simp at hm
  | cons h rest ih =>
    intro curr pend hm hi hd hs
    rw [smb_check_shared_mode]
    by_cases hin : inode = h.inode
    · rw [if_pos hin]
      have hk := check_pair_keeps b h curr
      cases hcp : check_pair b h curr with
      | brk rc p1 c1 =>
        rw [hcp] at hk
        simp only
        have hE1 : -(b.ESHARE : Int) ≠ 0 := by omega
        rcases hk with hk | hk
        · rw [hk]; exact hE1
        · rw [hk]; decide
      | next p1 c1 =>
        rw [hcp] at hk
        simp only
        rcases List.mem_cons.1 hm with hph | hpr
        · subst hph
          exact absurd hcp (check_pair_pending b pend curr hd hs p1 c1)
        · apply ih c1 pend hpr hi hd
          rw [hk.1, hk.2]
          exact hs
    · rw [if_neg hin]
      simp only
      rcases List.mem_cons.1 hm with hph | hpr
      · subst hph
        exact absurd hi.symm hin
      · exact ih curr pend hpr hi hd hs

/-- C6 at a concrete chain: a delete-pending stream behind an unrelated handle,
against a plain candidate. -/
theorem delete_pending_blocks_open_witness :
    (smb_check_shared_mode wireBits 1 [plainHandle 0x1 0x7, pendingStream [97]]
      (plainHandle 0x1 0x7)).rc ≠ 0 :=
  delete_pending_blocks_open wireBits 1 (by decide)
    [plainHandle 0x1 0x7, pendingStream [97]] (plainHandle 0x1 0x7) (pendingStream [97])
    (by decide) rfl rfl (by decide)

/-! ## Share modes: pairs of a stream and a plain handle, attribute-only opens -/

theorem check_pair_not_both_streams (b : AccessBits) (p c : cifsd_file)
    (h : ¬ (p.is_stream = true ∧ c.is_stream = true)) :
    check_pair b p c = pending_and_share b p c := by
  unfold check_pair
  rw [if_neg h]

theorem smb_check_single_next (b : AccessBits) (p c p1 c1 : cifsd_file)
    (h : check_pair b p c = Step.next p1 c1) :
    smb_check_shared_mode b p.inode [p] c = ⟨0, [p1], c1⟩ := by
  unfold smb_check_shared_mode
  rw [if_pos rfl, h]
  simp [smb_check_shared_mode]

theorem pending_and_share_stream_plain (b : AccessBits) (p c : cifsd_file)
    (hps : p.is_stream = true) (hcs : c.is_stream = false)
    (hpend : p.delete_pending = false) (hattr : p.attrib_only = c.attrib_only)
    (hfd : ¬ (p.saccess &&& b.FILE_SHARE_DELETE_LE = 0 ∧ c.daccess &&& deleteMask b ≠ 0)) :
    pending_and_share b p c =
      Step.next
        (if c.delete_on_close = true then
          { p with delete_pending := true, delete_on_close := true } else p)
        (if c.delete_on_close = true then { c with delete_on_close := false } else c) := by
  unfold pending_and_share
  simp only [hpend, if_false, Bool.false_eq_true]
  rw [if_neg (not_not.mpr hattr), if_neg hfd]
  cases hd : c.delete_on_close
  · simp [hps, hcs]
  · simp [hps, hcs]

/-- C11, the claim as stated fails: an existing stream handle that is not
delete-pending rejects a candidate on the same stream that is opened with
FILE_SUPERSEDE, although the `attrib_only` flags of the two differ. -/
theorem attrib_only_does_not_exempt_supersede :
    (streamHandle [97] 0x1 0x7).delete_pending = false ∧
      (streamHandle [97] 0x1 0x7).attrib_only ≠ (supersedingStream [97] true).attrib_only ∧
      (smb_check_shared_mode wireBits 1 [streamHandle [97] 0x1 0x7]
        (supersedingStream [97] true)).rc = -(wireBits.ESHARE : Int) ∧
      (smb_check_shared_mode wireBits 1 [streamHandle [97] 0x1 0x7]
        (supersedingStream [97] true)).rc ≠ 0 := by
  decide

/-- C11, amended: for an existing handle that is not delete-pending and a
candidate whose `attrib_only` flag differs from it, the check reports no conflict
for the pair and changes neither handle, whatever the desired-access and
share-access bits are, unless both are opens of the same stream and the
candidate's create disposition is FILE_SUPERSEDE. -/
theorem attrib_only_mismatch_never_conflicts (b : AccessBits) (prev curr : cifsd_file)
    (hpend : prev.delete_pending = false)
    (hattr : prev.attrib_only ≠ curr.attrib_only)
    (hsup : ¬ (prev.is_stream = true ∧ curr.is_stream = true ∧
      cstring prev.stream_name = cstring curr.stream_name ∧
      curr.cdoption = b.FILE_SUPERSEDE_LE)) :
    check_pair b prev curr = Step.next prev curr ∧
    smb_check_shared_mode b prev.inode [prev] curr = ⟨0, [prev], curr⟩ := by
  have hpair : check_pair b prev curr = Step.next prev curr := by
    unfold check_pair
    by_cases hb : prev.is_stream = true ∧ curr.is_stream = true
    · rw [if_pos hb]
      by_cases hn : strcmp prev.stream_name curr.stream_name ≠ 0
      · rw [if_pos hn]
      · rw [if_neg hn]
        have hname : cstring prev.stream_name = cstring curr.stream_name :=
          (strcmp_eq_zero_iff _ _).1 (not_not.mp hn)
        have hcd : ¬ curr.cdoption = b.FILE_SUPERSEDE_LE :=
          fun h => hsup ⟨hb.1, hb.2, hname, h⟩
        rw [if_neg hcd]
        exact pending_and_share_attrib b prev curr hpend hattr
    · rw [if_neg hb]
      exact pending_and_share_attrib b prev curr hpend hattr
  exact ⟨hpair, smb_check_single_next b prev curr prev curr hpair⟩

/-- C11 at a concrete pair: a holder that shares nothing against an
attribute-only open that asks for every access. -/
theorem attrib_only_mismatch_never_conflicts_witness :
    check_pair wireBits (plainHandle 0x12000000 0x0)
        { plainHandle 0x12000000 0x0 with attrib_only := true } =
      Step.next (plainHandle 0x12000000 0x0)
        { plainHandle 0x12000000 0x0 with attrib_only := true } ∧
    smb_check_shared_mode wireBits (plainHandle 0x12000000 0x0).inode
        [plainHandle 0x12000000 0x0]
        { plainHandle 0x12000000 0x0 with attrib_only := true } =
      ⟨0, [plainHandle 0x12000000 0x0],
        { plainHandle 0x12000000 0x0 with attrib_only := true }⟩ :=
  attrib_only_mismatch_never_conflicts wireBits (plainHandle 0x12000000 0x0)
    { plainHandle 0x12000000 0x0 with attrib_only := true } rfl (by decide) (by decide)

/-- C12, the claim as stated fails: when the existing handle is plain and the
candidate is a stream open, the read and write share rules are applied. A plain
holder that shares read and delete but not write rejects a stream candidate
that asks for WRITE_DATA, although the holder is not delete-pending and the
delete-share rule does not fire. -/
theorem stream_candidate_is_checked_against_plain_holder :
    (plainHandle 0x2 0x5).is_stream = false ∧
      (streamHandle [115] 0x2 0x7).is_stream = true ∧
      (plainHandle 0x2 0x5).delete_pending = false ∧
      ¬ ((plainHandle 0x2 0x5).saccess &&& wireBits.FILE_SHARE_DELETE_LE = 0 ∧
        (streamHandle [115] 0x2 0x7).daccess &&& deleteMask wireBits ≠ 0) ∧
      (smb_check_shared_mode wireBits 1 [plainHandle 0x2 0x5]
        (streamHandle [115] 0x2 0x7)).rc = -(wireBits.ESHARE : Int) ∧
      (smb_check_shared_mode wireBits 1 [plainHandle 0x2 0x5]
        (streamHandle [115] 0x2 0x7)).rc ≠ 0 := by
  decide

/-- C12, amended: when the existing handle is a stream open and the candidate is
not, the existing handle is not delete-pending and the delete-share rule does
not fire, none of the read and write share rules is applied to the pair: the
loop body goes on to the next entry and the check of the pair returns 0,
whatever the SHARE_READ and SHARE_WRITE bits and the read and write access bits
of the two handles are. -/
theorem stream_holder_skips_read_write_rules (b : AccessBits) (prev curr : cifsd_file)
    (hps : prev.is_stream = true) (hcs : curr.is_stream = false)
    (hpend : prev.delete_pending = false)
    (hfd : ¬ (prev.saccess &&& b.FILE_SHARE_DELETE_LE = 0 ∧
      curr.daccess &&& deleteMask b ≠ 0)) :
    (∃ p1 c1, check_pair b prev curr = Step.next p1 c1) ∧
    (smb_check_shared_mode b prev.inode [prev] curr).rc = 0 := by
  have hnb : ¬ (prev.is_stream = true ∧ curr.is_stream = true) := by
    intro h
    rw [hcs] at h
    exact absurd h.2 (by decide)
  have hex : ∃ p1 c1, check_pair b prev curr = Step.next p1 c1 := by
    rw [check_pair_not_both_streams b prev curr hnb]
    by_cases hattr : prev.attrib_only = curr.attrib_only
    · exact ⟨_, _, pending_and_share_stream_plain b prev curr hps hcs hpend hattr hfd⟩
    · exact ⟨_, _, pending_and_share_attrib b prev curr hpend hattr⟩
  refine ⟨hex, ?_⟩
  obtain ⟨p1, c1, h⟩ := hex
  rw [smb_check_single_next b prev curr p1 c1 h]

/-- C12 at a concrete pair: a stream holder that shares only delete against a
plain candidate that reads and writes. -/
theorem stream_holder_skips_read_write_rules_witness :
    (∃ p1 c1, check_pair wireBits (streamHandle [115] 0x3 0x4) (plainHandle 0x3 0x0) =
        Step.next p1 c1) ∧
    (smb_check_shared_mode wireBits (streamHandle [115] 0x3 0x4).inode
      [streamHandle [115] 0x3 0x4] (plainHandle 0x3 0x0)).rc = 0 :=
  stream_holder_skips_read_write_rules wireBits (streamHandle [115] 0x3 0x4)
    (plainHandle 0x3 0x0) rfl rfl rfl (by decide)

/-- C13: for an existing stream handle and a plain candidate that requests
delete-on-close, the existing handle not delete-pending, `attrib_only` equal on
both and the delete-share rule not firing, the check of the pair returns 0 and
leaves the existing handle with `delete_pending` and `delete_on_close` set and
the candidate with `delete_on_close` cleared; nothing else changes. -/
theorem stream_absorbs_delete_on_close (b : AccessBits) (prev curr : cifsd_file)
    (hps : prev.is_stream = true) (hcs : curr.is_stream = false)
    (hdoc : curr.delete_on_close = true)
    (hpend : prev.delete_pending = false) (hattr : prev.attrib_only = curr.attrib_only)
    (hfd : ¬ (prev.saccess &&& b.FILE_SHARE_DELETE_LE = 0 ∧
      curr.daccess &&& deleteMask b ≠ 0)) :
    smb_check_shared_mode b prev.inode [prev] curr =
      ⟨0, [{ prev with delete_pending := true, delete_on_close := true }],
        { curr with delete_on_close := false }⟩ := by
  have hnb : ¬ (prev.is_stream = true ∧ curr.is_stream = true) := by
    intro h
    rw [hcs] at h
    exact absurd h.2 (by decide)
  have h := pending_and_share_stream_plain b prev curr hps hcs hpend hattr hfd
  rw [if_pos hdoc, if_pos hdoc] at h
  rw [← check_pair_not_both_streams b prev curr hnb] at h
  exact smb_check_single_next b prev curr _ _ h

/-- C13 at a concrete pair: a stream that shares everything and a plain open
with delete-on-close. -/
theorem stream_absorbs_delete_on_close_witness :
    smb_check_shared_mode wireBits (streamHandle [115] 0x1 0x7).inode
        [streamHandle [115] 0x1 0x7] (deletingHandle 0x10000 0x7) =
      ⟨0, [{ streamHandle [115] 0x1 0x7 with delete_pending := true, delete_on_close := true }],
        { deletingHandle 0x10000 0x7 with delete_on_close := false }⟩ :=
  stream_absorbs_delete_on_close wireBits (streamHandle [115] 0x1 0x7)
    (deletingHandle 0x10000 0x7) rfl rfl rfl rfl rfl (by decide)

/-! ## Share modes: the six rules and the walk over the hash chain -/

theorem share_rules_rc_values (b : AccessBits) (x y : cifsd_file) :
    (share_rules b x y).rc = 0 ∨ (share_rules b x y).rc = -(b.ESHARE : Int) := by
  have h := share_rules_rc b x y
  by_cases hc : (x.saccess &&& b.FILE_SHARE_READ_LE = 0 ∧ y.daccess &&& readMask b ≠ 0) ∨
      (x.saccess &&& b.FILE_SHARE_WRITE_LE = 0 ∧ y.daccess &&& writeMask b ≠ 0) ∨
      (x.daccess &&& readMask b ≠ 0 ∧ y.saccess &&& b.FILE_SHARE_READ_LE = 0) ∨
      (x.daccess &&& writeMask b ≠ 0 ∧ y.saccess &&& b.FILE_SHARE_WRITE_LE = 0) ∨
      (x.daccess &&& deleteMask b ≠ 0 ∧ y.saccess &&& b.FILE_SHARE_DELETE_LE = 0) ∨ False
  · exact Or.inr (h.1 hc)
  · exact Or.inl (h.2 hc)

theorem share_rules_rc_congr (b : AccessBits) (x y x1 y1 : cifsd_file)
    (hxs : x1.saccess = x.saccess) (hxd : x1.daccess = x.daccess)
    (hys : y1.saccess = y.saccess) (hyd : y1.daccess = y.daccess) :
    (share_rules b x1 y1).rc = (share_rules b x y).rc := by
  have h := share_rules_rc b x y
  have h1 := share_rules_rc b x1 y1
  rw [hxs, hxd, hys, hyd] at h1
  by_cases hc : (x.saccess &&& b.FILE_SHARE_READ_LE = 0 ∧ y.daccess &&& readMask b ≠ 0) ∨
      (x.saccess &&& b.FILE_SHARE_WRITE_LE = 0 ∧ y.daccess &&& writeMask b ≠ 0) ∨
      (x.daccess &&& readMask b ≠ 0 ∧ y.saccess &&& b.FILE_SHARE_READ_LE = 0) ∨
      (x.daccess &&& writeMask b ≠ 0 ∧ y.saccess &&& b.FILE_SHARE_WRITE_LE = 0) ∨
      (x.daccess &&& deleteMask b ≠ 0 ∧ y.saccess &&& b.FILE_SHARE_DELETE_LE = 0) ∨ False
  · rw [h.1 hc, h1.1 hc]
  · rw [h.2 hc, h1.2 hc]

theorem stream_skip_rc_congr (b : AccessBits) (x y x1 y1 : cifsd_file)
    (hxi : x1.is_stream = x.is_stream) (hyi : y1.is_stream = y.is_stream)
    (hxs : x1.saccess = x.saccess) (hxd : x1.daccess = x.daccess)
    (hys : y1.saccess = y.saccess) (hyd : y1.daccess = y.daccess) :
    (if x1.is_stream = true ∧ ¬ y1.is_stream = true then Step.next x1 y1
      else share_rules b x1 y1).rc =
    (if x.is_stream = true ∧ ¬ y.is_stream = true then Step.next x y
      else share_rules b x y).rc := by
  rw [hxi, hyi]
  by_cases hc : x.is_stream = true ∧ ¬ y.is_stream = true
  · rw [if_pos hc, if_pos hc]
    rfl
  · rw [if_neg hc, if_neg hc]
    exact share_rules_rc_congr b x y x1 y1 hxs hxd hys hyd

theorem pending_and_share_rc_eq (b : AccessBits) (p c : cifsd_file) :
    (pending_and_share b p c).rc =
      if p.delete_pending = true then -(EBUSY : Int)
      else if p.attrib_only ≠ c.attrib_only then 0
      else if p.saccess &&& b.FILE_SHARE_DELETE_LE = 0 ∧ c.daccess &&& deleteMask b ≠ 0 then
        -(b.ESHARE : Int)
      else (if p.is_stream = true ∧ ¬ c.is_stream = true then Step.next p c
        else share_rules b p c).rc := by
  unfold pending_and_share
  by_cases h1 : p.delete_pending = true
  · rw [if_pos h1, if_pos h1]
    rfl
  · rw [if_neg h1, if_neg h1]
    by_cases h2 : p.attrib_only ≠ c.attrib_only
    · rw [if_pos h2, if_pos h2]
      rfl
    · rw [if_neg h2, if_neg h2]
      by_cases h3 : p.saccess &&& b.FILE_SHARE_DELETE_LE = 0 ∧ c.daccess &&& deleteMask b ≠ 0
      · rw [if_pos h3, if_pos h3]
        rfl
      · rw [if_neg h3, if_neg h3]
        cases (p.is_stream && c.delete_on_close)
        · simp only [Bool.false_eq_true, if_false]
        · simp only [if_true]
          exact stream_skip_rc_congr b p c
            { p with delete_pending := true, delete_on_close := true }
            { c with delete_on_close := false } rfl rfl rfl rfl rfl rfl

theorem pending_and_share_rc_congr (b : AccessBits) (p c c1 : cifsd_file)
    (h : agree c c1) :
    (pending_and_share b p c1).rc = (pending_and_share b p c).rc := by
  obtain ⟨hd, hs, ha, hi, _, _⟩ := h
  rw [pending_and_share_rc_eq, pending_and_share_rc_eq, ha, hd,
    stream_skip_rc_congr b p c p c1 rfl hi rfl rfl hs hd]

theorem check_pair_rc_congr (b : AccessBits) (p c c1 : cifsd_file) (h : agree c c1) :
    (check_pair b p c1).rc = (check_pair b p c).rc := by
  have hp := pending_and_share_rc_congr b p c c1 h
  obtain ⟨_, _, _, hi, hn, hc⟩ := h
  unfold check_pair
  rw [hi, hn, hc]
  by_cases h1 : p.is_stream = true ∧ c.is_stream = true
  · rw [if_pos h1, if_pos h1]
    by_cases h2 : strcmp p.stream_name c.stream_name ≠ 0
    · rw [if_pos h2, if_pos h2]
      rfl
    · rw [if_neg h2, if_neg h2]
      by_cases h3 : c.cdoption = b.FILE_SUPERSEDE_LE
      · rw [if_pos h3, if_pos h3]
        rfl
      · rw [if_neg h3, if_neg h3]
        exact hp
  · rw [if_neg h1, if_neg h1]
    exact hp

theorem agree_refl (c : cifsd_file) : agree c c :=
  ⟨rfl, rfl, rfl, rfl, rfl, rfl⟩

theorem agree_trans (c c1 c2 : cifsd_file) (h1 : agree c c1) (h2 : agree c1 c2) :
    agree c c2 := by
  unfold agree at h1 h2 ⊢
  refine ⟨?_, ?_, ?_, ?_, ?_, ?_⟩
  · rw [h2.1, h1.1]
  · rw [h2.2.1, h1.2.1]
  · rw [h2.2.2.1, h1.2.2.1]
  · rw [h2.2.2.2.1, h1.2.2.2.1]
  · rw [h2.2.2.2.2.1, h1.2.2.2.2.1]
  · rw [h2.2.2.2.2.2, h1.2.2.2.2.2]

theorem hands_on_ite (c : cifsd_file) (P : Prop) [Decidable P] (X Y : Step)
    (hX : Step.hands_on c X) (hY : Step.hands_on c Y) :
    Step.hands_on c (if P then X else Y) := by
  split
  · exact hX
  · exact hY

theorem share_rules_hands_on (b : AccessBits) (c x y : cifsd_file) (h : agree c y) :
    Step.hands_on c (share_rules b x y) := by
  unfold share_rules
  exact hands_on_ite _ _ _ _ trivial (hands_on_ite _ _ _ _ trivial
    (hands_on_ite _ _ _ _ trivial (hands_on_ite _ _ _ _ trivial
      (hands_on_ite _ _ _ _ trivial h))))

theorem pending_and_share_hands_on (b : AccessBits) (p c : cifsd_file) :
    Step.hands_on c (pending_and_share b p c) := by
  unfold pending_and_share
  refine hands_on_ite _ _ _ _ trivial (hands_on_ite _ _ _ _ ?_ (hands_on_ite _ _ _ _ trivial ?_))
  · exact agree_refl c
  · cases (p.is_stream && c.delete_on_close)
    · simp only [Bool.false_eq_true, if_false]
      exact hands_on_ite _ _ _ _ (agree_refl c) (share_rules_hands_on b c _ _ (agree_refl c))
    · simp only [if_true]
      exact hands_on_ite _ _ _ _ ⟨rfl, rfl, rfl, rfl, rfl, rfl⟩
        (share_rules_hands_on b c _ _ ⟨rfl, rfl, rfl, rfl, rfl, rfl⟩)

theorem check_pair_hands_on (b : AccessBits) (p c : cifsd_file) :
    Step.hands_on c (check_pair b p c) := by
  unfold check_pair
  exact hands_on_ite _ _ _ _
    (hands_on_ite _ _ _ _ (agree_refl c)
      (hands_on_ite _ _ _ _ trivial (pending_and_share_hands_on b p c)))
    (pending_and_share_hands_on b p c)

theorem check_pair_brk_ne_zero (b : AccessBits) (hE : b.ESHARE ≠ 0) (p c p1 c1 : cifsd_file)
    (rc : Int) (h : check_pair b p c = Step.brk rc p1 c1) : rc ≠ 0 := by
  have hk := check_pair_keeps b p c
  rw [h] at hk
  rcases hk with hk | hk
  · rw [hk]; omega
  · rw [hk]; decide

theorem smb_check_rc_first_conflict (b : AccessBits) (inode : Nat) (hE : b.ESHARE ≠ 0) :
    ∀ (chain : List cifsd_file) (c c0 : cifsd_file), agree c0 c →
      (smb_check_shared_mode b inode chain c).rc = first_conflict b inode chain c0 := by
  intro chain
  induction chain with
  | nil => intro c c0 _; rfl
  | cons h rest ih =>
    intro c c0 ha
    have hrc : (check_pair b h c).rc = (check_pair b h c0).rc :=
      check_pair_rc_congr b h c0 c ha
    rw [smb_check_shared_mode, first_conflict]
    by_cases hin : inode = h.inode
    · rw [if_pos hin]
      have hh := check_pair_hands_on b h c
      cases hcp : check_pair b h c with
      | next p1 c1 =>
        rw [hcp] at hrc hh
        have h0 : ¬ (inode = h.inode ∧ (check_pair b h c0).rc ≠ 0) :=
          fun hc => hc.2 hrc.symm
        rw [if_neg h0]
        exact ih c1 c0 (agree_trans c0 c c1 ha hh)
      | brk rc p1 c1 =>
        rw [hcp] at hrc
        have hne : rc ≠ 0 := check_pair_brk_ne_zero b hE h c p1 c1 rc hcp
        have hrc1 : rc = (check_pair b h c0).rc := hrc
        have h1 : inode = h.inode ∧ (check_pair b h c0).rc ≠ 0 := ⟨hin, by rw [← hrc1]; exact hne⟩
        rw [if_pos h1]
        exact hrc1
    · rw [if_neg hin]
      have h0 : ¬ (inode = h.inode ∧ (check_pair b h c0).rc ≠ 0) := fun hc => hin hc.1
      rw [if_neg h0]
      exact ih c c0 ha

theorem first_conflict_eq_zero_iff (b : AccessBits) (inode : Nat) (curr : cifsd_file) :
    ∀ (chain : List cifsd_file), first_conflict b inode chain curr = 0 ↔
      ∀ h ∈ chain, inode = h.inode → (check_pair b h curr).rc = 0 := by
  intro chain
  induction chain with
  | nil => simp [first_conflict]
  | cons h rest ih =>
    rw [first_conflict]
    by_cases hc : inode = h.inode ∧ (check_pair b h curr).rc ≠ 0
    · rw [if_pos hc]
      constructor
      · intro h0
        exact absurd h0 hc.2
      · intro hall
        exact hall h (List.mem_cons_self h rest) hc.1
    · rw [if_neg hc, ih]
      constructor
      · intro hall g hg hgi
        rcases List.mem_cons.1 hg with hgh | hgr
        · subst hgh
          by_contra hne
          exact hc ⟨hgi, hne⟩
        · exact hall g hgr hgi
      · intro hall g hg hgi
        exact hall g (List.mem_cons_of_mem h hg) hgi

theorem first_conflict_ne_zero (b : AccessBits) (inode : Nat) (curr : cifsd_file) :
    ∀ (chain : List cifsd_file), first_conflict b inode chain curr ≠ 0 →
      ∃ pre h post, chain = pre ++ h :: post ∧ inode = h.inode ∧
        (∀ g ∈ pre, inode = g.inode → (check_pair b g curr).rc = 0) ∧
        (check_pair b h curr).rc ≠ 0 ∧
        first_conflict b inode chain curr = (check_pair b h curr).rc := by
  intro chain
  induction chain with
  | nil => intro h; simp [first_conflict] at h
  | cons x rest ih =>
    intro hne
    rw [first_conflict] at hne ⊢
    by_cases hc : inode = x.inode ∧ (check_pair b x curr).rc ≠ 0
    · rw [if_pos hc]
      exact ⟨[], x, rest, rfl, hc.1, fun g hg => by simp at hg, hc.2, rfl⟩
    · rw [if_neg hc] at hne ⊢
      obtain ⟨pre, h, post, h1, h2, h3, h4, h5⟩ := ih hne
      refine ⟨x :: pre, h, post, by rw [h1]; rfl, h2, ?_, h4, h5⟩
      intro g hg hgi
      rcases List.mem_cons.1 hg with hgx | hgp
      · subst hgx
        by_contra hn
        exact hc ⟨hgi, hn⟩
      · exact h3 g hgp hgi

theorem pending_and_share_rc_error (b : AccessBits) (p c : cifsd_file)
    (hne : (pending_and_share b p c).rc ≠ 0) :
    (pending_and_share b p c).rc =
      if p.delete_pending = true then -(EBUSY : Int) else -(b.ESHARE : Int) := by
  rw [pending_and_share_rc_eq] at hne ⊢
  by_cases h1 : p.delete_pending = true
  · rw [if_pos h1, if_pos h1]
  · rw [if_neg h1] at hne ⊢
    rw [if_neg h1]
    by_cases h2 : p.attrib_only ≠ c.attrib_only
    · rw [if_pos h2] at hne
      exact absurd rfl hne
    · rw [if_neg h2] at hne ⊢
      by_cases h3 : p.saccess &&& b.FILE_SHARE_DELETE_LE = 0 ∧ c.daccess &&& deleteMask b ≠ 0
      · rw [if_pos h3]
      · rw [if_neg h3] at hne ⊢
        by_cases h4 : p.is_stream = true ∧ ¬ c.is_stream = true
        · rw [if_pos h4] at hne
          exact absurd rfl hne
        · rw [if_neg h4] at hne ⊢
          rcases share_rules_rc_values b p c with h5 | h5
          · exact absurd h5 hne
          · exact h5

theorem check_pair_rc_error (b : AccessBits) (p c : cifsd_file)
    (hne : (check_pair b p c).rc ≠ 0) :
    (check_pair b p c).rc =
      if p.is_stream = true ∧ c.is_stream = true ∧ c.cdoption = b.FILE_SUPERSEDE_LE then
        -(b.ESHARE : Int)
      else if p.delete_pending = true then -(EBUSY : Int)
      else -(b.ESHARE : Int) := by
  unfold check_pair at hne ⊢
  by_cases h1 : p.is_stream = true ∧ c.is_stream = true
  · rw [if_pos h1] at hne ⊢
    by_cases h2 : strcmp p.stream_name c.stream_name ≠ 0
    · rw [if_pos h2] at hne
      exact absurd rfl hne
    · rw [if_neg h2] at hne ⊢
      by_cases h3 : c.cdoption = b.FILE_SUPERSEDE_LE
      · rw [if_pos h3, if_pos ⟨h1.1, h1.2, h3⟩]
        rfl
      · rw [if_neg h3] at hne ⊢
        rw [if_neg (fun h => h3 h.2.2)]
        exact pending_and_share_rc_error b p c hne
  · rw [if_neg h1] at hne ⊢
    rw [if_neg (fun h => h1 ⟨h.1, h.2.1⟩)]
    exact pending_and_share_rc_error b p c hne

theorem smb_check_cons_on (b : AccessBits) (inode : Nat) (h : cifsd_file)
    (rest : List cifsd_file) (c : cifsd_file) (hin : inode = h.inode) :
    smb_check_shared_mode b inode (h :: rest) c =
      match check_pair b h c with
      | Step.next prev1 curr1 =>
        ⟨(smb_check_shared_mode b inode rest curr1).rc,
          prev1 :: (smb_check_shared_mode b inode rest curr1).chain,
          (smb_check_shared_mode b inode rest curr1).curr_fp⟩
      | Step.brk rc prev1 curr1 => ⟨rc, prev1 :: rest, curr1⟩ := by
  rw [smb_check_shared_mode, if_pos hin]

theorem smb_check_cons_off (b : AccessBits) (inode : Nat) (h : cifsd_file)
    (rest : List cifsd_file) (c : cifsd_file) (hin : ¬ inode = h.inode) :
    smb_check_shared_mode b inode (h :: rest) c =
      ⟨(smb_check_shared_mode b inode rest c).rc,
        h :: (smb_check_shared_mode b inode rest c).chain,
        (smb_check_shared_mode b inode rest c).curr_fp⟩ := by
  rw [smb_check_shared_mode, if_neg hin]

theorem smb_check_filter (b : AccessBits) (inode : Nat) :
    ∀ (chain : List cifsd_file) (c : cifsd_file),
      (smb_check_shared_mode b inode (chain.filter (fun h => decide (h.inode = inode))) c).rc =
          (smb_check_shared_mode b inode chain c).rc ∧
        (smb_check_shared_mode b inode
            (chain.filter (fun h => decide (h.inode = inode))) c).curr_fp =
          (smb_check_shared_mode b inode chain c).curr_fp := by
  intro chain
  induction chain with
  | nil => intro c; exact ⟨rfl, rfl⟩
  | cons h rest ih =>
    intro c
    by_cases hin : h.inode = inode
    · rw [List.filter_cons_of_pos (by simpa using hin)]
      rw [smb_check_cons_on b inode h _ c hin.symm, smb_check_cons_on b inode h rest c hin.symm]
      cases check_pair b h c with
      | next p1 c1 => exact ih c1
      | brk rc p1 c1 => exact ⟨rfl, rfl⟩
    · rw [List.filter_cons_of_neg (by simpa using hin)]
      rw [smb_check_cons_off b inode h rest c (fun e => hin e.symm)]
      exact ih c

/-- C19: for an existing plain handle and a candidate on one object (a plain
candidate in particular), the existing handle not delete-pending and
`attrib_only` equal, the check returns -ESHARE if and only if
at least one of six conditions holds, and 0 otherwise: the existing handle lacks
SHARE_DELETE, SHARE_READ or SHARE_WRITE while the candidate's desired access has
a bit of the delete, read or write mask respectively, or the same with the
roles of the two handles exchanged. -/
theorem plain_pair_conflict_iff_six_rules (b : AccessBits) (prev curr : cifsd_file)
    (hp : prev.is_stream = false)
    (hpend : prev.delete_pending = false) (hattr : prev.attrib_only = curr.attrib_only)
    (hE : b.ESHARE ≠ 0) :
    ((smb_check_shared_mode b prev.inode [prev] curr).rc = -(b.ESHARE : Int) ↔
      ((prev.saccess &&& b.FILE_SHARE_DELETE_LE = 0 ∧ curr.daccess &&& deleteMask b ≠ 0) ∨
        (prev.saccess &&& b.FILE_SHARE_READ_LE = 0 ∧ curr.daccess &&& readMask b ≠ 0) ∨
        (prev.saccess &&& b.FILE_SHARE_WRITE_LE = 0 ∧ curr.daccess &&& writeMask b ≠ 0) ∨
        (curr.saccess &&& b.FILE_SHARE_DELETE_LE = 0 ∧ prev.daccess &&& deleteMask b ≠ 0) ∨
        (curr.saccess &&& b.FILE_SHARE_READ_LE = 0 ∧ prev.daccess &&& readMask b ≠ 0) ∨
        (curr.saccess &&& b.FILE_SHARE_WRITE_LE = 0 ∧ prev.daccess &&& writeMask b ≠ 0))) ∧
    ((smb_check_shared_mode b prev.inode [prev] curr).rc = 0 ↔
      ¬ ((prev.saccess &&& b.FILE_SHARE_DELETE_LE = 0 ∧ curr.daccess &&& deleteMask b ≠ 0) ∨
        (prev.saccess &&& b.FILE_SHARE_READ_LE = 0 ∧ curr.daccess &&& readMask b ≠ 0) ∨
        (prev.saccess &&& b.FILE_SHARE_WRITE_LE = 0 ∧ curr.daccess &&& writeMask b ≠ 0) ∨
        (curr.saccess &&& b.FILE_SHARE_DELETE_LE = 0 ∧ prev.daccess &&& deleteMask b ≠ 0) ∨
        (curr.saccess &&& b.FILE_SHARE_READ_LE = 0 ∧ prev.daccess &&& readMask b ≠ 0) ∨
        (curr.saccess &&& b.FILE_SHARE_WRITE_LE = 0 ∧ prev.daccess &&& writeMask b ≠ 0))) := by
  have hsix : share_conflict b prev curr ↔
      ((prev.saccess &&& b.FILE_SHARE_DELETE_LE = 0 ∧ curr.daccess &&& deleteMask b ≠ 0) ∨
        (prev.saccess &&& b.FILE_SHARE_READ_LE = 0 ∧ curr.daccess &&& readMask b ≠ 0) ∨
        (prev.saccess &&& b.FILE_SHARE_WRITE_LE = 0 ∧ curr.daccess &&& writeMask b ≠ 0) ∨
        (curr.saccess &&& b.FILE_SHARE_DELETE_LE = 0 ∧ prev.daccess &&& deleteMask b ≠ 0) ∨
        (curr.saccess &&& b.FILE_SHARE_READ_LE = 0 ∧ prev.daccess &&& readMask b ≠ 0) ∨
        (curr.saccess &&& b.FILE_SHARE_WRITE_LE = 0 ∧ prev.daccess &&& writeMask b ≠ 0)) := by
    unfold share_conflict forward_conflict
    tauto
  rw [← hsix, smb_check_single_rc, check_pair_plain b prev curr hp]
  have hrc := pending_and_share_rc b prev curr hpend hattr (by simp [hp])
  have hEi : -(b.ESHARE : Int) ≠ 0 := by omega
  by_cases hcf : share_conflict b prev curr
  · rw [hrc.1 hcf]
    exact ⟨⟨fun _ => hcf, fun _ => rfl⟩, ⟨fun h => absurd h hEi, fun h => absurd hcf h⟩⟩
  · rw [hrc.2 hcf]
    exact ⟨⟨fun h => absurd h.symm hEi, fun h => absurd h hcf⟩, ⟨fun _ => hcf, fun _ => rfl⟩⟩

/-- C19 at a concrete pair: a reader that shares read only against a writer that
shares everything is rejected by the write-share rule. -/
theorem plain_pair_conflict_iff_six_rules_witness :
    (smb_check_shared_mode wireBits (plainHandle 0x1 0x1).inode [plainHandle 0x1 0x1]
      (plainHandle 0x2 0x7)).rc = -(wireBits.ESHARE : Int) :=
  (plain_pair_conflict_iff_six_rules wireBits (plainHandle 0x1 0x1) (plainHandle 0x2 0x7)
    rfl rfl rfl (by decide)).1.2 (by decide)

/-- C20, the claim as stated fails: the first conflicting handle is
delete-pending, yet the check returns -ESHARE and not -EBUSY, because the
handle and the candidate are opens of the same stream and the candidate's create
disposition is FILE_SUPERSEDE, which is tested before `delete_pending`. -/
theorem delete_pending_handle_can_yield_share_violation :
    (pendingStream [97]).delete_pending = true ∧
      (pendingStream [97]).inode = 1 ∧
      (smb_check_shared_mode wireBits 1 [pendingStream [97]]
        (supersedingStream [97] false)).rc = -(wireBits.ESHARE : Int) ∧
      (smb_check_shared_mode wireBits 1 [pendingStream [97]]
        (supersedingStream [97] false)).rc ≠ -(EBUSY : Int) := by
  decide

/-- C20, amended: over a hash chain of any length the check returns 0 if and
only if no handle of the chain on the candidate's object conflicts with the
candidate when checked alone; otherwise it returns the value that the first
such handle in chain order yields when checked alone, which is -ESHARE when
handle and candidate are stream opens and the candidate's create disposition is
FILE_SUPERSEDE, else -EBUSY when the handle is delete-pending, else -ESHARE;
and handles of the chain on another object change neither the return value nor
the candidate (ESHARE being a non-zero error number). -/
theorem chain_verdict_is_first_conflict (b : AccessBits) (inode : Nat) (hE : b.ESHARE ≠ 0)
    (chain : List cifsd_file) (curr : cifsd_file) :
    ((smb_check_shared_mode b inode chain curr).rc = 0 ↔
      ∀ h ∈ chain, h.inode = inode → (smb_check_shared_mode b inode [h] curr).rc = 0) ∧
    ((smb_check_shared_mode b inode chain curr).rc ≠ 0 →
      ∃ pre h post, chain = pre ++ h :: post ∧ h.inode = inode ∧
        (∀ g ∈ pre, g.inode = inode → (smb_check_shared_mode b inode [g] curr).rc = 0) ∧
        (smb_check_shared_mode b inode [h] curr).rc ≠ 0 ∧
        (smb_check_shared_mode b inode chain curr).rc =
          (smb_check_shared_mode b inode [h] curr).rc ∧
        (smb_check_shared_mode b inode chain curr).rc =
          (if h.is_stream = true ∧ curr.is_stream = true ∧
              curr.cdoption = b.FILE_SUPERSEDE_LE then -(b.ESHARE : Int)
            else if h.delete_pending = true then -(EBUSY : Int)
            else -(b.ESHARE : Int))) ∧
    ((smb_check_shared_mode b inode (chain.filter (fun h => decide (h.inode = inode))) curr).rc =
        (smb_check_shared_mode b inode chain curr).rc ∧
      (smb_check_shared_mode b inode
          (chain.filter (fun h => decide (h.inode = inode))) curr).curr_fp =
        (smb_check_shared_mode b inode chain curr).curr_fp) := by
  have hfc := smb_check_rc_first_conflict b inode hE chain curr curr (agree_refl curr)
  have hsingle : ∀ g : cifsd_file, g.inode = inode →
      (smb_check_shared_mode b inode [g] curr).rc = (check_pair b g curr).rc := by
    intro g hg
    rw [← hg]
    exact smb_check_single_rc b g curr
  refine ⟨?_, ?_, smb_check_filter b inode chain curr⟩
  · rw [hfc, first_conflict_eq_zero_iff]
    constructor
    · intro hall h hm hi
      rw [hsingle h hi]
      exact hall h hm hi.symm
    · intro hall h hm hi
      rw [← hsingle h hi.symm]
      exact hall h hm hi.symm
  · intro hne
    rw [hfc] at hne ⊢
    obtain ⟨pre, h, post, h1, h2, h3, h4, h5⟩ := first_conflict_ne_zero b inode curr chain hne
    refine ⟨pre, h, post, h1, h2.symm, ?_, ?_, ?_, ?_⟩
    · intro g hg hgi
      rw [hsingle g hgi]
      exact h3 g hg hgi.symm
    · rw [hsingle h h2.symm]
      exact h4
    · rw [hsingle h h2.symm]
      exact h5
    · rw [h5]
      exact check_pair_rc_error b h curr h4

/-- C20 at a concrete chain: a handle on another inode, a compatible reader and
a reader that shares read only, against a writer; the third handle is the
first that conflicts. -/
theorem chain_verdict_is_first_conflict_witness :
    ∃ pre h post,
        [{ plainHandle 0x1 0x0 with inode := 2 }, plainHandle 0x1 0x7, plainHandle 0x1 0x1] =
          pre ++ h :: post ∧ h.inode = 1 ∧
        (∀ g ∈ pre, g.inode = 1 →
          (smb_check_shared_mode wireBits 1 [g] (plainHandle 0x2 0x7)).rc = 0) ∧
        (smb_check_shared_mode wireBits 1 [h] (plainHandle 0x2 0x7)).rc ≠ 0 ∧
        (smb_check_shared_mode wireBits 1
            [{ plainHandle 0x1 0x0 with inode := 2 }, plainHandle 0x1 0x7, plainHandle 0x1 0x1]
            (plainHandle 0x2 0x7)).rc =
          (smb_check_shared_mode wireBits 1 [h] (plainHandle 0x2 0x7)).rc ∧
        (smb_check_shared_mode wireBits 1
            [{ plainHandle 0x1 0x0 with inode := 2 }, plainHandle 0x1 0x7, plainHandle 0x1 0x1]
            (plainHandle 0x2 0x7)).rc =
          (if h.is_stream = true ∧ (plainHandle 0x2 0x7).is_stream = true ∧
              (plainHandle 0x2 0x7).cdoption = wireBits.FILE_SUPERSEDE_LE then
            -(wireBits.ESHARE : Int)
            else if h.delete_pending = true then -(EBUSY : Int)
            else -(wireBits.ESHARE : Int)) :=
  (chain_verdict_is_first_conflict wireBits 1 (by decide)
    [{ plainHandle 0x1 0x0 with inode := 2 }, plainHandle 0x1 0x7, plainHandle 0x1 0x1]
    (plainHandle 0x2 0x7)).2.1 (by decide)

/-! ## Buffer switches: the oversized path and failures -/

theorem switch_req_buf_effects_proj (bp : BufParams) (vmalloc : Option (List Nat))
    (server : tcp_server_info) :
    (switch_req_buf_effects bp vmalloc server).map (fun r => (r.rc, r.server)) =
      switch_req_buf bp vmalloc server := by
  unfold switch_req_buf_effects switch_req_buf
  cases server.smallbuf with
  | none => rfl
  | some buf =>
    simp only
    split
    · cases server.bigbuf with
      | none => rfl
      | some big =>
        simp only
        cases memcpy big buf server.total_read <;> rfl
    · split
      · cases vmalloc with
        | none => rfl
        | some w =>
          simp only
          cases memcpy w buf server.total_read <;> rfl
      · rfl

/-- C14: on every successful run of `switch_req_buf` through the oversized path
(the declared length is above the large-buffer bound and the call returns 0) the
oversized buffer is the allocated one with the first `total_read` bytes of the
former small buffer copied to its front, the small and the large buffer are
handed to `mempool_free` with their pools and their fields set to NULL,
`large_buf` is false and `total_read` is unchanged. -/
theorem oversized_switch_effects (bp : BufParams) (vmalloc : Option (List Nat))
    (server : tcp_server_info) (buf : List Nat) (r : ReqSwitch)
    (hsmall : server.smallbuf = some buf)
    (hpath : ¬ u32 (bp.get_rfc1002_length buf) ≤ largeLimit bp)
    (hrun : switch_req_buf_effects bp vmalloc server = some r) (hrc : r.rc = 0) :
    ∃ w, vmalloc = some w ∧
      server.total_read ≤ buf.length ∧ server.total_read ≤ w.length ∧
      r.server.wbuf = some (buf.take server.total_read ++ w.drop server.total_read) ∧
      (r.server.wbuf.map (fun x => x.take server.total_read)) =
        some (buf.take server.total_read) ∧
      r.server.smallbuf = none ∧ r.server.bigbuf = none ∧
      r.server.large_buf = false ∧ r.server.total_read = server.total_read ∧
      r.freed = [(Pool.cifsd_sm_req_poolp, some buf), (Pool.cifsd_req_poolp, server.bigbuf)] ∧
      switch_req_buf bp vmalloc server = some (0, r.server) := by
  by_cases hover : u32 (bp.get_rfc1002_length buf) ≤ oversizeLimit bp
  · cases hv : vmalloc with
    | none =>
      have he : switch_req_buf_effects bp none server =
          some ⟨-(ENOMEM : Int), { server with wbuf := none }, []⟩ := by
        simp [switch_req_buf_effects, hsmall, hpath, hover]
      rw [hv, he] at hrun
      injection hrun with hrun
      rw [← hrun] at hrc
      simp [ENOMEM] at hrc
    | some w =>
      by_cases hlen : server.total_read ≤ buf.length ∧ server.total_read ≤ w.length
      · have he : switch_req_buf_effects bp (some w) server =
            some ⟨0, { server with
                wbuf := some (buf.take server.total_read ++ w.drop server.total_read),
                large_buf := false, smallbuf := none, bigbuf := none },
              [(Pool.cifsd_sm_req_poolp, some buf), (Pool.cifsd_req_poolp, server.bigbuf)]⟩ := by
          simp [switch_req_buf_effects, hsmall, hpath, hover, memcpy, hlen]
        have hb : switch_req_buf bp (some w) server =
            some (0, { server with
                wbuf := some (buf.take server.total_read ++ w.drop server.total_read),
                large_buf := false, smallbuf := none, bigbuf := none }) := by
          simp [switch_req_buf, hsmall, hpath, hover, memcpy, hlen]
        rw [hv, he] at hrun
        injection hrun with hrun
        subst hrun
        refine ⟨w, rfl, hlen.1, hlen.2, rfl, ?_, rfl, rfl, rfl, rfl, rfl, hb⟩
        simp only [Option.map_some', Option.some.injEq]
        rw [List.take_append_of_le_length (by rw [List.length_take]; omega)]
        simp
      · have he : switch_req_buf_effects bp (some w) server = none := by
          simp [switch_req_buf_effects, hsmall, hpath, hover, memcpy, hlen]
        rw [hv, he] at hrun
        simp at hrun
  · have he : switch_req_buf_effects bp vmalloc server =
        some ⟨-(ECONNABORTED : Int), server, []⟩ := by
      simp [switch_req_buf_effects, hsmall, hpath, hover]
    rw [he] at hrun
    injection hrun with hrun
    rw [← hrun] at hrc
    simp [ECONNABORTED] at hrc

/-- C14 at the sample connection: a declared length of 21 and an allocated
buffer of nine bytes. -/
theorem oversized_switch_effects_witness :
    ∃ w, (some [7, 7, 7, 7, 7, 7, 7, 7, 7] : Option (List Nat)) = some w ∧
      sampleServer.total_read ≤ [0, 0, 0, 21, 1, 2, 3, 4].length ∧
      sampleServer.total_read ≤ w.length ∧
      sampleOversized.server.wbuf =
        some ([0, 0, 0, 21, 1, 2, 3, 4].take sampleServer.total_read ++
          w.drop sampleServer.total_read) ∧
      (sampleOversized.server.wbuf.map (fun x => x.take sampleServer.total_read)) =
        some ([0, 0, 0, 21, 1, 2, 3, 4].take sampleServer.total_read) ∧
      sampleOversized.server.smallbuf = none ∧ sampleOversized.server.bigbuf = none ∧
      sampleOversized.server.large_buf = false ∧
      sampleOversized.server.total_read = sampleServer.total_read ∧
      sampleOversized.freed =
        [(Pool.cifsd_sm_req_poolp, some [0, 0, 0, 21, 1, 2, 3, 4]),
          (Pool.cifsd_req_poolp, sampleServer.bigbuf)] ∧
      switch_req_buf sampleBuf (some [7, 7, 7, 7, 7, 7, 7, 7, 7]) sampleServer =
        some (0, sampleOversized.server) :=
  oversized_switch_effects sampleBuf (some [7, 7, 7, 7, 7, 7, 7, 7, 7]) sampleServer
    [0, 0, 0, 21, 1, 2, 3, 4] sampleOversized rfl (by decide) (by decide) rfl

/-- C15: buffer switching is atomic on failure. Whenever `switch_req_buf` returns
an error, the error is -ENOMEM (the oversized allocation failed, and the
connection is as before but for `wbuf`, which holds the NULL of the failed
allocation) or -ECONNABORTED (the connection is as before); in both cases the
small buffer, the large buffer, the `large_buf` flag and `total_read` are
exactly as before the call and nothing was handed to `mempool_free`; and
whenever `switch_rsp_buf` returns -ENOMEM, the request, with its response
buffer and `rsp_large_buf` flag, is exactly as before the call and nothing was
freed. -/
theorem buffer_switch_atomic_on_failure (bp : BufParams) (max_small : Nat) :
    (∀ (vmalloc : Option (List Nat)) (server : tcp_server_info) (r : ReqSwitch),
        switch_req_buf_effects bp vmalloc server = some r → r.rc ≠ 0 →
        (r.rc = -(ENOMEM : Int) ∧ vmalloc = none ∧ r.server = { server with wbuf := none } ∨
            r.rc = -(ECONNABORTED : Int) ∧ r.server = server) ∧
          r.server.smallbuf = server.smallbuf ∧ r.server.bigbuf = server.bigbuf ∧
          r.server.large_buf = server.large_buf ∧
          r.server.total_read = server.total_read ∧ r.freed = [] ∧
          switch_req_buf bp vmalloc server = some (r.rc, r.server)) ∧
    (∀ (mempool_alloc : Option (List Nat)) (work : smb_work) (r : RspSwitch),
        switch_rsp_buf max_small mempool_alloc work = some r → r.rc = -(ENOMEM : Int) →
        mempool_alloc = none ∧ r.work = work ∧ r.freed = []) := by
  constructor
  · intro vmalloc server r hrun hrc
    have hproj := switch_req_buf_effects_proj bp vmalloc server
    rw [hrun] at hproj
    simp only [Option.map_some'] at hproj
    unfold switch_req_buf_effects at hrun
    cases hs : server.smallbuf with
    | none => rw [hs] at hrun; simp at hrun
    | some buf =>
      rw [hs] at hrun
      simp only at hrun
      by_cases h1 : u32 (bp.get_rfc1002_length buf) ≤ largeLimit bp
      · rw [if_pos h1] at hrun
        cases hb : server.bigbuf with
        | none => rw [hb] at hrun; simp at hrun
        | some big =>
          rw [hb] at hrun
          simp only at hrun
          cases hm : memcpy big buf server.total_read with
          | none => rw [hm] at hrun; simp at hrun
          | some big1 =>
            rw [hm] at hrun
            injection hrun with hrun
            rw [← hrun] at hrc
            exact absurd rfl hrc
      · rw [if_neg h1] at hrun
        by_cases h2 : u32 (bp.get_rfc1002_length buf) ≤ oversizeLimit bp
        · rw [if_pos h2] at hrun
          cases hv : vmalloc with
          | none =>
            rw [hv] at hrun
            injection hrun with hrun
            rw [hv] at hproj
            refine ⟨?_, ?_, ?_, ?_, ?_, ?_, hproj.symm⟩
            · rw [← hrun]
              exact Or.inl ⟨rfl, rfl, rfl⟩
            · rw [← hrun, ← hs]
            · rw [← hrun]
            · rw [← hrun]
            · rw [← hrun]
            · rw [← hrun]
          | some w =>
            rw [hv] at hrun
            simp only at hrun
            cases hm : memcpy w buf server.total_read with
            | none => rw [hm] at hrun; simp at hrun
            | some w1 =>
              rw [hm] at hrun
              injection hrun with hrun
              rw [← hrun] at hrc
              exact absurd rfl hrc
        · rw [if_neg h2] at hrun
          injection hrun with hrun
          refine ⟨?_, ?_, ?_, ?_, ?_, ?_, hproj.symm⟩
          · rw [← hrun]
            exact Or.inr ⟨rfl, rfl⟩
          · rw [← hrun, ← hs]
          · rw [← hrun]
          · rw [← hrun]
          · rw [← hrun]
          · rw [← hrun]
  · intro mempool_alloc work r hrun hrc
    unfold switch_rsp_buf at hrun
    split at hrun
    · injection hrun with hrun
      rw [← hrun] at hrc
      simp [ENOMEM] at hrc
    · cases ha : mempool_alloc with
      | none =>
        rw [ha] at hrun
        injection hrun with hrun
        rw [← hrun]
        exact ⟨rfl, rfl, rfl⟩
      | some buf =>
        rw [ha] at hrun
        simp only at hrun
        cases hr : work.rsp_buf with
        | none => rw [hr] at hrun; simp at hrun
        | some small =>
          rw [hr] at hrun
          simp only at hrun
          cases hm : memcpy buf small max_small with
          | none => rw [hm] at hrun; simp at hrun
          | some b1 =>
            rw [hm] at hrun
            injection hrun with hrun
            rw [← hrun] at hrc
            simp [ENOMEM] at hrc

/-- C15 at the sample connection holding an earlier oversized buffer and at the
sample request, both with a failed allocation: the connection keeps its small
and large buffer and loses the pointer to the earlier oversized buffer. -/
theorem buffer_switch_atomic_on_failure_witness :
    (((-(ENOMEM : Int)) = -(ENOMEM : Int) ∧ (none : Option (List Nat)) = none ∧
          sampleServer = { sampleHolding with wbuf := none } ∨
        (-(ENOMEM : Int)) = -(ECONNABORTED : Int) ∧ sampleServer = sampleHolding) ∧
      sampleServer.smallbuf = sampleHolding.smallbuf ∧
      sampleServer.bigbuf = sampleHolding.bigbuf ∧
      sampleServer.large_buf = sampleHolding.large_buf ∧
      sampleServer.total_read = sampleHolding.total_read ∧
      ([] : List (Pool × Option (List Nat))) = [] ∧
      switch_req_buf sampleBuf none sampleHolding = some (-(ENOMEM : Int), sampleServer)) ∧
    ((none : Option (List Nat)) = none ∧
      (RspSwitch.mk (-(ENOMEM : Int)) sampleWork []).work = sampleWork ∧
      (RspSwitch.mk (-(ENOMEM : Int)) sampleWork []).freed = []) :=
  ⟨(buffer_switch_atomic_on_failure sampleBuf 4).1 none sampleHolding
      (ReqSwitch.mk (-(ENOMEM : Int)) sampleServer []) (by decide) (by decide),
    (buffer_switch_atomic_on_failure sampleBuf 4).2 none sampleWork
      (RspSwitch.mk (-(ENOMEM : Int)) sampleWork []) (by decide) rfl⟩

/-- C17: for every start index that is not an index of the dialect table,
negative or at least the number of rows, `find_matching_smb1_dialect` returns
the no-match sentinel for every client buffer, byte count and server range; the
buffer is not read, since a read outside it would show as `none` and the result
is the same for the empty buffer. -/
theorem bad_start_index_fails_without_scan (ids : ProtIds) (mn mx start : Int)
    (buf : List Nat) (bc : Nat)
    (h : start < 0 ∨ ((protocols ids).length : Int) ≤ start) :
    find_matching_smb1_dialect ids mn mx start buf bc = some ids.BAD_PROT_ID ∧
    find_matching_smb1_dialect ids mn mx start buf bc =
      find_matching_smb1_dialect ids mn mx start [] bc := by
  unfold find_matching_smb1_dialect
  rw [if_pos h, if_pos h]
  exact ⟨rfl, rfl⟩

/-- C17 at the first index past the table, with a buffer that holds no
terminated string. -/
theorem bad_start_index_fails_without_scan_witness :
    find_matching_smb1_dialect wireIds 0 6 7 [2, 78, 84] 3 = some wireIds.BAD_PROT_ID ∧
    find_matching_smb1_dialect wireIds 0 6 7 [2, 78, 84] 3 =
      find_matching_smb1_dialect wireIds 0 6 7 [] 3 :=
  bad_start_index_fails_without_scan wireIds 0 6 7 [2, 78, 84] 3 (by decide)

/-! ## Request queues -/

/-- C16: for every request passed to `add_request_to_queue` (the allocation of
the `async_info`, where one is made, succeeding): the request is appended to the
tail of the asynchronous list, with type ASYNC and status ASYNC_WAITING, iff it
is an SMB2 request whose command is CHANGE_NOTIFY or LOCK; it is appended to the
tail of the synchronous list iff it is neither the cancel command of its
protocol nor one of those two commands; a cancel command changes neither list;
no request is appended to both; and the entries already queued stay in front,
in their order. -/
theorem queue_placement (k : QueueConsts) (ida : Int) (server : request_lists)
    (work : smb_work)
    (hk : k.SMB2_CANCEL ≠ k.SMB2_CHANGE_NOTIFY ∧ k.SMB2_CANCEL ≠ k.SMB2_LOCK) :
    ∃ w1 s1, add_request_to_queue k true ida server work = some (w1, s1) ∧
      (s1.async_requests = server.async_requests ++ [w1] ↔ is_async_command k work) ∧
      (is_async_command k work →
        w1.type = k.ASYNC ∧ w1.async = some ⟨u64 ida, k.ASYNC_WAITING⟩) ∧
      (s1.requests = server.requests ++ [w1] ↔
        ¬ is_cancel_command k work ∧ ¬ is_async_command k work) ∧
      (is_cancel_command k work → s1 = server ∧ w1 = work) ∧
      ¬ (s1.async_requests = server.async_requests ++ [w1] ∧
        s1.requests = server.requests ++ [w1]) ∧
      (s1.async_requests = server.async_requests ∨
        s1.async_requests = server.async_requests ++ [w1]) ∧
      (s1.requests = server.requests ∨ s1.requests = server.requests ++ [w1]) := by
  unfold is_async_command is_cancel_command
  by_cases h2 : work.ProtocolId = k.SMB2_PROTO_NUMBER
  · by_cases hc : work.command = k.SMB2_CANCEL
    · refine ⟨work, server, ?_, ?_⟩
      · simp [add_request_to_queue, choose_queue, h2, hc]
      · simp [h2, hc, hk.1, hk.2]
    · by_cases ha : work.command = k.SMB2_CHANGE_NOTIFY ∨ work.command = k.SMB2_LOCK
      · refine ⟨{ work with type := k.ASYNC, async := some ⟨u64 ida, k.ASYNC_WAITING⟩,
                            added_in_request_list := 1 },
          { server with async_requests := server.async_requests ++
            [{ work with type := k.ASYNC, async := some ⟨u64 ida, k.ASYNC_WAITING⟩,
                         added_in_request_list := 1 }] }, ?_, ?_⟩
        · simp [add_request_to_queue, choose_queue, h2, hc, ha]
        · simp [h2, hc, ha]
      · refine ⟨{ work with type := k.SYNC, added_in_request_list := 1 },
          { server with requests := server.requests ++
            [{ work with type := k.SYNC, added_in_request_list := 1 }] }, ?_, ?_⟩
        · simp [add_request_to_queue, choose_queue, h2, hc, ha]
        · simp [h2, hc, ha]
  · by_cases hc : work.command = k.SMB_COM_NT_CANCEL
    · refine ⟨work, server, ?_, ?_⟩
      · simp [add_request_to_queue, choose_queue, h2, hc]
      · simp [h2, hc]
    · refine ⟨{ work with added_in_request_list := 1 },
        { server with requests := server.requests ++
          [{ work with added_in_request_list := 1 }] }, ?_, ?_⟩
      · simp [add_request_to_queue, choose_queue, h2, hc]
      · simp [h2, hc]

/-- C16 at a concrete request: an SMB2 LOCK request joins the asynchronous list
behind the entry already there. -/
theorem queue_placement_witness :
    ∃ w1 s1, add_request_to_queue wireQueue true 5 ⟨[sampleWork], [sampleWork]⟩
        { sampleWork with command := 0xA } = some (w1, s1) ∧
      (s1.async_requests = [sampleWork] ++ [w1] ↔
        is_async_command wireQueue { sampleWork with command := 0xA }) ∧
      (is_async_command wireQueue { sampleWork with command := 0xA } →
        w1.type = wireQueue.ASYNC ∧ w1.async = some ⟨u64 5, wireQueue.ASYNC_WAITING⟩) ∧
      (s1.requests = [sampleWork] ++ [w1] ↔
        ¬ is_cancel_command wireQueue { sampleWork with command := 0xA } ∧
          ¬ is_async_command wireQueue { sampleWork with command := 0xA }) ∧
      (is_cancel_command wireQueue { sampleWork with command := 0xA } →
        s1 = ⟨[sampleWork], [sampleWork]⟩ ∧ w1 = { sampleWork with command := 0xA }) ∧
      ¬ (s1.async_requests = [sampleWork] ++ [w1] ∧ s1.requests = [sampleWork] ++ [w1]) ∧
      (s1.async_requests = [sampleWork] ∨ s1.async_requests = [sampleWork] ++ [w1]) ∧
      (s1.requests = [sampleWork] ∨ s1.requests = [sampleWork] ++ [w1]) :=
  queue_placement wireQueue 5 ⟨[sampleWork], [sampleWork]⟩
    { sampleWork with command := 0xA } (by decide)

/-! ## Continuation state in extended attributes -/

theorem xattr_lookup_sample :
    smb_find_cont_xattr asciiLower
        (((encodeDialects [cbytes "user.X", cbytes "USER.cont1", cbytes "user.cont2"]).length
            : Int),
          some (encodeDialects [cbytes "user.X", cbytes "USER.cont1", cbytes "user.cont2"] ++
            List.replicate 9 0))
        true true sampleGetxattr (cbytes "user.cont") 9 =
      some ⟨10, some (cbytes "USER.cont1"), [cbytes "USER.cont1"]⟩ := by
  decide

/-! ## Message headers -/

/-- C21: for a buffer that holds the fields read, with the signature field at
one place in both header layouts (the first four bytes of the header) and the
two signatures distinct, `check_smb_message` returns 0 if and only if the
signature is that of SMB2 and the server-to-redirector flag is clear, or the
signature is that of SMB1 and the response flag is clear; in every other case,
in particular when the buffer carries neither signature, it returns 1. -/
theorem check_smb_message_accepts_requests (l : HdrLayout) (buf : List Nat)
    (sig flags1 flags2 : Nat)
    (hne : l.SMB1_PROTO_NUMBER ≠ l.SMB2_PROTO_NUMBER)
    (hoff : l.Protocol_off = l.ProtocolId_off)
    (hsig : le32_at buf l.ProtocolId_off = some sig)
    (hf1 : buf[l.smb_Flags_off]? = some flags1)
    (hf2 : le32_at buf l.smb2_Flags_off = some flags2) :
    ∃ r, check_smb_message l buf = some r ∧ (r = 0 ∨ r = 1) ∧
      (r = 0 ↔
        (sig = l.SMB2_PROTO_NUMBER ∧ flags2 &&& l.SMB2_FLAGS_SERVER_TO_REDIR = 0) ∨
        (sig = l.SMB1_PROTO_NUMBER ∧ flags1 &&& l.SMBFLG_RESPONSE = 0)) ∧
      (sig ≠ l.SMB1_PROTO_NUMBER ∧ sig ≠ l.SMB2_PROTO_NUMBER → r = 1) := by
  unfold check_smb_message
  rw [hsig]
  simp only
  by_cases h2 : sig = l.SMB2_PROTO_NUMBER
  · have h1 : sig ≠ l.SMB1_PROTO_NUMBER := fun h => hne (h.symm.trans h2)
    rw [if_pos h2]
    unfold check_smb2_hdr
    rw [hf2]
    simp only
    by_cases hf : flags2 &&& l.SMB2_FLAGS_SERVER_TO_REDIR = 0
    · rw [if_pos hf]
      exact ⟨0, rfl, Or.inl rfl, ⟨fun _ => Or.inl ⟨h2, hf⟩, fun _ => rfl⟩,
        fun h => absurd h2 h.2⟩
    · rw [if_neg hf]
      refine ⟨1, rfl, Or.inr rfl, ⟨fun h => absurd h (by decide), ?_⟩, fun _ => rfl⟩
      intro h
      rcases h with h | h
      · exact absurd h.2 hf
      · exact absurd h.1 h1
  · rw [if_neg h2]
    unfold check_smb_hdr
    rw [hoff, hsig]
    simp only
    by_cases h1 : sig = l.SMB1_PROTO_NUMBER
    · rw [if_neg (not_not.mpr h1), hf1]
      simp only
      by_cases hf : flags1 &&& l.SMBFLG_RESPONSE = 0
      · rw [if_pos hf]
        exact ⟨0, rfl, Or.inl rfl, ⟨fun _ => Or.inr ⟨h1, hf⟩, fun _ => rfl⟩,
          fun h => absurd h1 h.1⟩
      · rw [if_neg hf]
        refine ⟨1, rfl, Or.inr rfl, ⟨fun h => absurd h (by decide), ?_⟩, fun _ => rfl⟩
        intro h
        rcases h with h | h
        · exact absurd h.1 h2
        · exact absurd h.2 hf
    · rw [if_pos h1]
      refine ⟨1, rfl, Or.inr rfl, ⟨fun h => absurd h (by decide), ?_⟩, fun _ => rfl⟩
      intro h
      rcases h with h | h
      · exact absurd h.1 h2
      · exact absurd h.1 h1

/-- C21 at a concrete buffer: an SMB2 header whose flags mark a response. -/
theorem check_smb_message_accepts_requests_witness :
    ∃ r, check_smb_message wireHdr (sampleMessage 0xfe 0x53 0x4d 0x42 0 1) = some r ∧
      (r = 0 ∨ r = 1) ∧
      (r = 0 ↔
        (0x424d53fe = wireHdr.SMB2_PROTO_NUMBER ∧ 1 &&& wireHdr.SMB2_FLAGS_SERVER_TO_REDIR = 0) ∨
        (0x424d53fe = wireHdr.SMB1_PROTO_NUMBER ∧ 0 &&& wireHdr.SMBFLG_RESPONSE = 0)) ∧
      (0x424d53fe ≠ wireHdr.SMB1_PROTO_NUMBER ∧ 0x424d53fe ≠ wireHdr.SMB2_PROTO_NUMBER →
        r = 1) :=
  check_smb_message_accepts_requests wireHdr (sampleMessage 0xfe 0x53 0x4d 0x42 0 1)
    0x424d53fe 0 1 (by decide) rfl (by decide) (by decide) (by decide)

theorem check_smb_message_samples :
    check_smb_message wireHdr (sampleMessage 0xfe 0x53 0x4d 0x42 0x80 0) = some 0 ∧
      check_smb_message wireHdr (sampleMessage 0xfe 0x53 0x4d 0x42 0 1) = some 1 ∧
      check_smb_message wireHdr (sampleMessage 0xff 0x53 0x4d 0x42 0 1) = some 0 ∧
      check_smb_message wireHdr (sampleMessage 0xff 0x53 0x4d 0x42 0x80 0) = some 1 ∧
      check_smb_message wireHdr (sampleMessage 0x47 0x45 0x54 0x20 0 0) = some 1 ∧
      check_smb_message wireHdr [0, 0, 0, 20, 0xfe, 0x53] = none := by
  decide

/-! ## Share modes: plain pairs in either order -/

theorem share_rules_unchanged (b : AccessBits) (p c : cifsd_file) :
    share_rules b p c = Step.next p c ∨ share_rules b p c = Step.brk (share_rules b p c).rc p c := by
  unfold share_rules
  split
  · exact Or.inr rfl
  · split
    · exact Or.inr rfl
    · split
      · exact Or.inr rfl
      · split
        · exact Or.inr rfl
        · split
          · exact Or.inr rfl
          · exact Or.inl rfl

theorem pending_and_share_plain_unchanged (b : AccessBits) (p c : cifsd_file)
    (hp : p.is_stream = false) :
    pending_and_share b p c = Step.next p c ∨
      pending_and_share b p c = Step.brk (pending_and_share b p c).rc p c := by
  unfold pending_and_share
  split
  · exact Or.inr rfl
  · split
    · exact Or.inl rfl
    · split
      · exact Or.inr rfl
      · simp only [hp, Bool.false_and, Bool.false_eq_true, if_false, false_and]
        exact share_rules_unchanged b p c

theorem smb_check_plain_single (b : AccessBits) (p c : cifsd_file)
    (hp : p.is_stream = false) :
    smb_check_shared_mode b p.inode [p] c = ⟨(pending_and_share b p c).rc, [p], c⟩ := by
  have hcp := check_pair_plain b p c hp
  unfold smb_check_shared_mode
  rw [if_pos rfl, hcp]
  rcases pending_and_share_plain_unchanged b p c hp with h | h
  · rw [h]
    simp [smb_check_shared_mode, Step.rc]
  · rw [h]
    simp [Step.rc]

/-- C22: for two plain handles on the same object, neither delete-pending, the
check returns the same value whichever of the two is the existing handle and
whichever the candidate, and leaves both handles as they were. -/
theorem plain_pair_same_result_unchanged (b : AccessBits) (x y : cifsd_file)
    (hin : x.inode = y.inode)
    (hxs : x.is_stream = false) (hys : y.is_stream = false)
    (hx : x.delete_pending = false) (hy : y.delete_pending = false) :
    ∃ rc, smb_check_shared_mode b y.inode [x] y = ⟨rc, [x], y⟩ ∧
      smb_check_shared_mode b x.inode [y] x = ⟨rc, [y], x⟩ := by
  refine ⟨(pending_and_share b x y).rc, ?_, ?_⟩
  · rw [← hin]
    exact smb_check_plain_single b x y hxs
  · rw [pending_and_share_rc_symm b x y hx hy (by rw [hxs, hys])]
    rw [hin]
    exact smb_check_plain_single b y x hys

/-- C22 at a concrete pair: a reader that shares read only and a writer that
shares everything conflict in either order, and stay as they are. -/
theorem plain_pair_same_result_unchanged_witness :
    ∃ rc,
      smb_check_shared_mode wireBits (plainHandle 0x2 0x7).inode [plainHandle 0x1 0x1]
          (plainHandle 0x2 0x7) = ⟨rc, [plainHandle 0x1 0x1], plainHandle 0x2 0x7⟩ ∧
      smb_check_shared_mode wireBits (plainHandle 0x1 0x1).inode [plainHandle 0x2 0x7]
          (plainHandle 0x1 0x1) = ⟨rc, [plainHandle 0x2 0x7], plainHandle 0x1 0x1⟩ :=
  plain_pair_same_result_unchanged wireBits (plainHandle 0x1 0x1) (plainHandle 0x2 0x7)
    rfl rfl rfl rfl rfl

/-! ## The legacy scan: termination and reads -/

theorem smb1_while_log_exit (name : List Nat) (i : Nat) :
    ∀ (fuel : Nat) (bcount : Int) (dialects : List Nat) (idx offset : Nat),
      (smb1_while_log name i fuel bcount dialects idx offset).exit =
        smb1_while name i fuel bcount dialects idx := by
  intro fuel
  induction fuel with
  | zero => intro bcount dialects idx offset; rfl
  | succ f ih =>
    intro bcount dialects idx offset
    unfold smb1_while_log smb1_while
    split
    · rfl
    · cases strlen? dialects with
      | none => rfl
      | some c =>
        simp only
        split
        · rfl
        · exact ih _ _ _ _

theorem visitsOf_length :
    ∀ (strs : List (List Nat)) (idx offset : Nat),
      (visitsOf strs idx offset).length = strs.length := by
  intro strs
  induction strs with
  | nil => intro idx offset; rfl
  | cons s ss ih =>
    intro idx offset
    simp only [visitsOf, List.length_cons, ih]

theorem smb1_while_log_encoded (name : List Nat) (i : Nat) :
    ∀ (strs : List (List Nat)) (tail : List Nat) (fuel idx offset : Nat),
      (∀ s ∈ strs, ∀ x ∈ s, x ≠ 0) → strs.length < fuel →
      (smb1_while_log name i fuel ((encodeDialects strs).length : Int)
          (encodeDialects strs ++ tail) idx offset).visits =
        (visitsOf strs idx offset).take
          (smb1_while_log name i fuel ((encodeDialects strs).length : Int)
            (encodeDialects strs ++ tail) idx offset).visits.length ∧
      (smb1_while_log name i fuel ((encodeDialects strs).length : Int)
          (encodeDialects strs ++ tail) idx offset).visits.length ≤ strs.length ∧
      (smb1_while_log name i fuel ((encodeDialects strs).length : Int)
          (encodeDialects strs ++ tail) idx offset).visits.map (fun v => v.smb1_index) =
        List.range' idx
          (smb1_while_log name i fuel ((encodeDialects strs).length : Int)
            (encodeDialects strs ++ tail) idx offset).visits.length ∧
      (∀ v ∈ (smb1_while_log name i fuel ((encodeDialects strs).length : Int)
          (encodeDialects strs ++ tail) idx offset).visits,
        v.offset + v.cli_count < offset + (encodeDialects strs).length ∧ 0 < v.bcount) ∧
      ((smb1_while_log name i fuel ((encodeDialects strs).length : Int)
          (encodeDialects strs ++ tail) idx offset).exit = Scan.miss →
        (smb1_while_log name i fuel ((encodeDialects strs).length : Int)
            (encodeDialects strs ++ tail) idx offset).visits.length = strs.length ∧
          (smb1_while_log name i fuel ((encodeDialects strs).length : Int)
            (encodeDialects strs ++ tail) idx offset).bcount = 0) := by
  intro strs
  induction strs with
  | nil =>
    intro tail fuel idx offset _ hf
    cases fuel with
    | zero => omega
    | succ f => simp [smb1_while_log, encodeDialects, visitsOf]
  | cons s ss ih =>
    intro tail fuel idx offset hn hf
    cases fuel with
    | zero => omega
    | succ f =>
      have hs : ∀ x ∈ s, x ≠ 0 := hn s (List.mem_cons_self s ss)
      have hss : ∀ t ∈ ss, ∀ x ∈ t, x ≠ 0 := fun t ht => hn t (List.mem_cons_of_mem s ht)
      have hf1 : ss.length < f := by simp only [List.length_cons] at hf; omega
      have hbuf : encodeDialects (s :: ss) ++ tail = s ++ 0 :: (encodeDialects ss ++ tail) := by
        simp [encodeDialects]
      have hlen := encodeDialects_length_pos s ss
      have hne : ((encodeDialects (s :: ss)).length : Int) ≠ 0 := by omega
      have hdrop : List.drop (s.length + 1) (s ++ 0 :: (encodeDialects ss ++ tail)) =
          encodeDialects ss ++ tail := by
        rw [List.drop_append]
        rfl
      have hbc : ((encodeDialects (s :: ss)).length : Int) - ((s.length : Int) + 1) =
          ((encodeDialects ss).length : Int) := by omega
      by_cases hm : strncmp s name s.length = 0
      · have hlog : smb1_while_log name i (f + 1) ((encodeDialects (s :: ss)).length : Int)
            (encodeDialects (s :: ss) ++ tail) idx offset =
            ⟨[⟨idx, offset, s.length, ((encodeDialects (s :: ss)).length : Int)⟩],
              Scan.hit i idx, ((encodeDialects (s :: ss)).length : Int)⟩ := by
          unfold smb1_while_log
          rw [if_neg hne, hbuf, strlen?_encoded s _ hs]
          simp only
          rw [strncmp_append, if_pos hm]
        rw [hlog]
        refine ⟨by simp [visitsOf], by simp, by simp [List.range'], ?_, by simp⟩
        intro v hv
        simp only [List.mem_singleton] at hv
        subst hv
        simp only
        omega
      · have hlog : smb1_while_log name i (f + 1) ((encodeDialects (s :: ss)).length : Int)
            (encodeDialects (s :: ss) ++ tail) idx offset =
            ⟨⟨idx, offset, s.length, ((encodeDialects (s :: ss)).length : Int)⟩ ::
                (smb1_while_log name i f ((encodeDialects ss).length : Int)
                  (encodeDialects ss ++ tail) (idx + 1) (offset + (s.length + 1))).visits,
              (smb1_while_log name i f ((encodeDialects ss).length : Int)
                (encodeDialects ss ++ tail) (idx + 1) (offset + (s.length + 1))).exit,
              (smb1_while_log name i f ((encodeDialects ss).length : Int)
                (encodeDialects ss ++ tail) (idx + 1) (offset + (s.length + 1))).bcount⟩ := by
          rw [smb1_while_log, if_neg hne, hbuf, strlen?_encoded s _ hs]
          simp only
          rw [strncmp_append, if_neg hm, hdrop, hbc]
        obtain ⟨h1, h2, h3, h4, h5⟩ := ih tail f (idx + 1) (offset + (s.length + 1)) hss hf1
        rw [hlog]
        refine ⟨?_, ?_, ?_, ?_, ?_⟩
        · simp only [List.length_cons, visitsOf, List.take_succ_cons]
          rw [← h1]
        · simp only [List.length_cons]
          omega
        · simp only [List.map_cons, List.length_cons, List.range'_succ]
          rw [h3]
        · intro v hv
          rcases List.mem_cons.1 hv with hv | hv
          · subst hv
            simp only
            omega
          · have := h4 v hv
            omega
        · intro hex
          have := h5 hex
          simp only [List.length_cons]
          exact ⟨by omega, this.2⟩


theorem smb1_body_log_exit (ids : ProtIds) (cli_dialects : List Nat) (byte_count i : Nat) :
    (smb1_body_log ids cli_dialects byte_count i).exit =
      smb1_body ids cli_dialects byte_count i := by
  unfold smb1_body_log smb1_body
  cases (protocols ids)[i]? with
  | none => rfl
  | some p => exact smb1_while_log_exit p.name i _ _ _ _ _

theorem smb1_body_encoded_ne_oob (ids : ProtIds) (strs : List (List Nat)) (tail : List Nat)
    (hnul : ∀ s ∈ strs, ∀ x ∈ s, x ≠ 0) (hlen : (encodeDialects strs).length < 65536)
    (k : Nat) (hk : k < (protocols ids).length) :
    smb1_body ids (encodeDialects strs ++ tail) (encodeDialects strs).length k ≠ Scan.oob := by
  have hq : (protocols ids)[k]? = some ((protocols ids)[k]) := List.getElem?_eq_getElem hk
  rw [smb1_body_encoded ids strs tail hnul hlen k _ hq]
  cases firstMatch ((protocols ids)[k]).name strs with
  | none => simp
  | some j => simp

theorem find_matching_smb1_dialect_encoded_some (ids : ProtIds) (mn mx : Int) (start : Nat)
    (strs : List (List Nat)) (tail : List Nat)
    (hstart : start < (protocols ids).length)
    (hnul : ∀ s ∈ strs, ∀ x ∈ s, x ≠ 0) (hlen : (encodeDialects strs).length < 65536) :
    ∃ r, find_matching_smb1_dialect ids mn mx start (encodeDialects strs ++ tail)
      (encodeDialects strs).length = some r := by
  have hguard : ¬ (((start : Nat) : Int) < 0 ∨
      ((protocols ids).length : Int) ≤ ((start : Nat) : Int)) := by omega
  unfold find_matching_smb1_dialect
  rw [if_neg hguard]
  cases hs : smb1_scan ids (start : Int) (encodeDialects strs ++ tail)
      (encodeDialects strs).length with
  | oob =>
    exfalso
    unfold smb1_scan at hs
    obtain ⟨i, _, h2, h3, _⟩ := forDownFrom_exit _ _ _ _ hs (by simp)
    exact smb1_body_encoded_ne_oob ids strs tail hnul hlen i (by omega) h3
  | miss => exact ⟨_, rfl⟩
  | hit i pos =>
    simp only
    split
    · split
      · exact ⟨_, rfl⟩
      · exact ⟨_, rfl⟩
    · exact ⟨_, rfl⟩

/-- C23: for a well-formed legacy offer (NUL-free strings, each followed by its
NUL, the declared byte count being the length of the whole and fitting its 16
bits) and a start index inside the table, `find_matching_smb1_dialect` returns
a result, and at every table ordinal from the start index down the inner loop
leaves without a read outside the buffer, having examined an initial segment
of the client's strings, each once and in order; every pass reads only bytes
below the declared byte count and starts with a positive budget; and when the
loop is left without a match every string was examined and the remaining byte
budget is exactly zero. -/
theorem legacy_scan_terminates_within_budget (ids : ProtIds) (mn mx : Int) (start : Nat)
    (strs : List (List Nat)) (tail : List Nat)
    (hstart : start < (protocols ids).length)
    (hnul : ∀ s ∈ strs, ∀ x ∈ s, x ≠ 0)
    (hlen : (encodeDialects strs).length < 65536) :
    (∃ r, find_matching_smb1_dialect ids mn mx start (encodeDialects strs ++ tail)
      (encodeDialects strs).length = some r) ∧
    ∀ i, i ≤ start →
      (smb1_body_log ids (encodeDialects strs ++ tail) (encodeDialects strs).length i).exit =
        smb1_body ids (encodeDialects strs ++ tail) (encodeDialects strs).length i ∧
      (smb1_body_log ids (encodeDialects strs ++ tail) (encodeDialects strs).length i).exit ≠
        Scan.oob ∧
      (smb1_body_log ids (encodeDialects strs ++ tail) (encodeDialects strs).length i).visits =
        (visitsOf strs 0 0).take
          (smb1_body_log ids (encodeDialects strs ++ tail)
            (encodeDialects strs).length i).visits.length ∧
      (smb1_body_log ids (encodeDialects strs ++ tail)
        (encodeDialects strs).length i).visits.length ≤ strs.length ∧
      (smb1_body_log ids (encodeDialects strs ++ tail)
          (encodeDialects strs).length i).visits.map (fun v => v.smb1_index) =
        List.range (smb1_body_log ids (encodeDialects strs ++ tail)
          (encodeDialects strs).length i).visits.length ∧
      (∀ v ∈ (smb1_body_log ids (encodeDialects strs ++ tail)
          (encodeDialects strs).length i).visits,
        v.offset + v.cli_count < (encodeDialects strs).length ∧ 0 < v.bcount) ∧
      ((smb1_body_log ids (encodeDialects strs ++ tail)
          (encodeDialects strs).length i).exit = Scan.miss →
        (smb1_body_log ids (encodeDialects strs ++ tail)
            (encodeDialects strs).length i).visits.length = strs.length ∧
          (smb1_body_log ids (encodeDialects strs ++ tail)
            (encodeDialects strs).length i).bcount = 0) := by
  refine ⟨find_matching_smb1_dialect_encoded_some ids mn mx start strs tail hstart hnul hlen, ?_⟩
  intro i hi
  have hil : i < (protocols ids).length := by omega
  have hq : (protocols ids)[i]? = some ((protocols ids)[i]) := List.getElem?_eq_getElem hil
  have hex := smb1_body_log_exit ids (encodeDialects strs ++ tail) (encodeDialects strs).length i
  have hno := smb1_body_encoded_ne_oob ids strs tail hnul hlen i hil
  have hfuel : strs.length < (encodeDialects strs ++ tail).length + 1 := by
    have h := length_le_encodeDialects strs
    simp only [List.length_append]
    omega
  have hlog : smb1_body_log ids (encodeDialects strs ++ tail) (encodeDialects strs).length i =
      smb1_while_log ((protocols ids)[i]).name i ((encodeDialects strs ++ tail).length + 1)
        ((encodeDialects strs).length : Int) (encodeDialects strs ++ tail) 0 0 := by
    unfold smb1_body_log
    rw [hq]
    simp only
    rw [Nat.mod_eq_of_lt hlen]
  obtain ⟨h1, h2, h3, h4, h5⟩ := smb1_while_log_encoded ((protocols ids)[i]).name i strs tail
    ((encodeDialects strs ++ tail).length + 1) 0 0 hnul hfuel
  rw [← hlog] at h1 h2 h3 h4 h5
  refine ⟨hex, ?_, h1, h2, ?_, ?_, h5⟩
  · rw [hex]
    exact hno
  · rw [h3, List.range_eq_range']
  · intro v hv
    have := h4 v hv
    omega

/-- C23 at an offer of two strings, neither in the table, followed in the
buffer by two further bytes. -/
theorem legacy_scan_terminates_within_budget_witness :
    (6 < (protocols wireIds).length ∧
      (∀ s ∈ [cbytes "\x02LANMAN1.0", cbytes "\x02XENIX CORE"], ∀ x ∈ s, x ≠ 0) ∧
      (encodeDialects [cbytes "\x02LANMAN1.0", cbytes "\x02XENIX CORE"]).length < 65536) ∧
    find_matching_smb1_dialect wireIds 0 6 (6 : Nat)
      (encodeDialects [cbytes "\x02LANMAN1.0", cbytes "\x02XENIX CORE"] ++ [65, 66])
      (encodeDialects [cbytes "\x02LANMAN1.0", cbytes "\x02XENIX CORE"]).length =
        some wireIds.BAD_PROT_ID ∧
    (smb1_body_log wireIds
      (encodeDialects [cbytes "\x02LANMAN1.0", cbytes "\x02XENIX CORE"] ++ [65, 66])
      (encodeDialects [cbytes "\x02LANMAN1.0", cbytes "\x02XENIX CORE"]).length 0) =
        ⟨[⟨0, 0, 10, 23⟩, ⟨1, 11, 11, 12⟩], Scan.miss, 0⟩ ∧
    ((smb1_body_log wireIds
        (encodeDialects [cbytes "\x02LANMAN1.0", cbytes "\x02XENIX CORE"] ++ [65, 66])
        (encodeDialects [cbytes "\x02LANMAN1.0", cbytes "\x02XENIX CORE"]).length
          0).visits.length = 2 ∧
      (smb1_body_log wireIds
        (encodeDialects [cbytes "\x02LANMAN1.0", cbytes "\x02XENIX CORE"] ++ [65, 66])
        (encodeDialects [cbytes "\x02LANMAN1.0", cbytes "\x02XENIX CORE"]).length
          0).bcount = 0) :=
  ⟨⟨by decide, by decide, by decide⟩, by decide, by decide,
    ((legacy_scan_terminates_within_budget wireIds 0 6 6
      [cbytes "\x02LANMAN1.0", cbytes "\x02XENIX CORE"] [65, 66]
      (by decide) (by decide) (by decide)).2 0 (by decide)).2.2.2.2.2.2 (by decide)⟩

end Cifsd
